import Mathlib

/-!
TrueCost: the fee extraction and reconciliation engine.

A shallow embedding of `src/contentScript.js` (class `TrueCostDetector`).

Modelling conventions.
* A JavaScript number is modelled by a rational (`ℚ`) that stands for the
  double nearest to it (`toDouble`): the number `parsePrice` reads from a text
  is held as the decimal that was read, and every arithmetic operation
  (`fadd`, `fsub`, `fmul`, `fdiv`) takes the nearest doubles of its operands
  and returns the nearest double of the exact result (IEEE 754 binary64,
  round to nearest, ties to even).  The exponent range is not bounded: the
  numbers of a pass are prices of at most 100000 with two decimals, their
  sums, differences and ratios, which stay far from overflow and from the
  subnormal range.  `NaN` and the infinities have no counterpart, so the
  `isNaN` / `isFinite` tests of the source are always passed.
* JavaScript strings are modelled as `List Char`.
* `this.priceData` is passed explicitly: every method that mutates it takes
  the record and returns the updated one.
-/

namespace TrueCost

/-! ## Numbers -/

/-- Two to an integer power. -/
def pow2 (e : ℤ) : ℚ :=
  if 0 ≤ e then ((2 ^ e.toNat : ℕ) : ℚ) else 1 / ((2 ^ (-e).toNat : ℕ) : ℚ)

/-- The nearest integer, a tie going to the even neighbour. -/
def roundHalfEven (q : ℚ) : ℤ :=
  if q - ⌊q⌋ < 1 / 2 then ⌊q⌋
  else if 1 / 2 < q - ⌊q⌋ then ⌊q⌋ + 1
  else if ⌊q⌋ % 2 = 0 then ⌊q⌋ else ⌊q⌋ + 1

/-- The number of binary digits of a natural number (of at most `fuel`
digits). -/
def bitLength : ℕ → ℕ → ℕ
  | 0, _ => 0
  | fuel + 1, n => if n = 0 then 0 else bitLength fuel (n / 2) + 1

/-- The binary exponent of a non-zero rational `x`: the integer `e` with
`2^e ≤ |x| < 2^(e+1)`. -/
def binaryExponent (x : ℚ) : ℤ :=
  let e : ℤ := (bitLength x.num.natAbs x.num.natAbs : ℤ) - (bitLength x.den x.den : ℤ)
  if |x| < pow2 e then e - 1 else e

/-- The double (IEEE 754 binary64 number) nearest to a rational, ties to
even: the rational is scaled to a significand of 53 binary digits, which is
rounded to an integer. -/
def toDouble (x : ℚ) : ℚ :=
  if x = 0 then 0
  else roundHalfEven (x / pow2 (binaryExponent x - 52)) * pow2 (binaryExponent x - 52)

/-- The operator `+` on numbers. -/
def fadd (a b : ℚ) : ℚ := toDouble (toDouble a + toDouble b)

/-- The operator `-` on numbers. -/
def fsub (a b : ℚ) : ℚ := toDouble (toDouble a - toDouble b)

/-- The operator `*` on numbers. -/
def fmul (a b : ℚ) : ℚ := toDouble (toDouble a * toDouble b)

/-- The operator `/` on numbers. -/
def fdiv (a b : ℚ) : ℚ := toDouble (toDouble a / toDouble b)

/-- Math.round of JavaScript: the nearest integer, a half is rounded up. -/
def mathRound (x : ℚ) : ℤ := ⌊x + 1 / 2⌋

/-- Whether `Number.prototype.toString` prints the number with an exponent,
that is whether `x.toString()` contains the letter e: by ECMA-262 this is so
exactly for a non-zero `x` with `|x| < 10^-6` or `|x| ≥ 10^21`. -/
def toStringHasE (x : ℚ) : Bool :=
  decide (x ≠ 0) && (decide (|x| < 1 / 10 ^ 6) || decide ((10 : ℚ) ^ 21 ≤ |x|))

/-- The method `isValidPrice` (contentScript.js 538-547). -/
def isValidPrice (price : ℚ) : Bool :=
  decide (price ≥ 0) && decide (price ≤ 100000) && !toStringHasE price

/-! ## The price record -/

/-- One entry of `priceData.breakdown` (pushed by `findPrice`). -/
structure BreakdownEntry where
  label : String
  amount : ℚ
  element : List Char
  isHidden : Bool
  deriving DecidableEq

/-- The record `this.priceData`. -/
@[ext]
structure PriceData where
  basePrice : ℚ
  deliveryFee : ℚ
  convenienceFee : ℚ
  taxes : ℚ
  otherFees : ℚ
  total : ℚ
  hiddenCharges : ℚ
  hiddenPercentage : ℚ
  currency : String
  site : String
  breakdown : List BreakdownEntry
  deriving DecidableEq

/-- The method `resetPriceData` (contentScript.js 240-254); `site` stands for
`window.location.hostname`. -/
def resetPriceData (site : String) : PriceData :=
  { basePrice := 0, deliveryFee := 0, convenienceFee := 0, taxes := 0, otherFees := 0,
    total := 0, hiddenCharges := 0, hiddenPercentage := 0,
    currency := "‚Çπ", site := site, breakdown := [] }

/-! ## Reconciliation: `calculateHiddenCharges` -/

/-- Lines 482-506 of `calculateHiddenCharges`: every component is clamped
through `isValidPrice`, a disproportionate delivery or convenience fee is
reset, and the validated values are assigned back to `priceData`.  The fee
is compared, as a double, with the double-precision product. -/
def validatePrices (pd : PriceData) : PriceData :=
  let basePrice := if isValidPrice pd.basePrice then pd.basePrice else 0
  let deliveryFee := if isValidPrice pd.deliveryFee then pd.deliveryFee else 0
  let convenienceFee := if isValidPrice pd.convenienceFee then pd.convenienceFee else 0
  let taxes := if isValidPrice pd.taxes then pd.taxes else 0
  let otherFees := if isValidPrice pd.otherFees then pd.otherFees else 0
  let total := if isValidPrice pd.total then pd.total else 0
  let deliveryFee :=
    if basePrice > 0 then
      (if toDouble deliveryFee > fmul basePrice 0.5 then 0 else deliveryFee)
    else deliveryFee
  let convenienceFee :=
    if basePrice > 0 then
      (if toDouble convenienceFee > fmul basePrice 0.2 then 0 else convenienceFee)
    else convenienceFee
  { pd with basePrice := basePrice, deliveryFee := deliveryFee,
            convenienceFee := convenienceFee, taxes := taxes,
            otherFees := otherFees, total := total }

/-- Lines 508-509: the hidden charges are the sum of the four fee fields. -/
def sumHiddenCharges (pd : PriceData) : PriceData :=
  { pd with
    hiddenCharges := fadd (fadd (fadd pd.deliveryFee pd.convenienceFee) pd.taxes) pd.otherFees }

/-- Lines 511-520: the percentage, and the cap that resets both the
percentage and the hidden charges when the percentage exceeds 100. -/
def capPercentage (pd : PriceData) : PriceData :=
  if pd.basePrice > 0 ∧ isValidPrice pd.hiddenCharges = true then
    let pct : ℚ := mathRound (fmul (fdiv pd.hiddenCharges pd.basePrice) 100)
    if pct > 100 then { pd with hiddenPercentage := 0, hiddenCharges := 0 }
    else { pd with hiddenPercentage := pct }
  else pd

/-- Lines 522-535: a gap between the stated total and base price plus hidden
charges is attributed to `otherFees` when it lies strictly between 1 and
`max(100, 0.1 * basePrice)`. -/
def imputeOtherFees (pd : PriceData) : PriceData :=
  if pd.total > 0 ∧ pd.basePrice > 0 then
    let calculatedTotal := fadd pd.basePrice pd.hiddenCharges
    let difference := fsub pd.total calculatedTotal
    let maxOtherFees := max 100 (fmul pd.basePrice 0.1)
    if difference > 1 ∧ difference < maxOtherFees ∧ isValidPrice difference = true then
      let hiddenCharges := fadd pd.hiddenCharges difference
      { pd with
        otherFees := difference
        hiddenCharges := hiddenCharges
        hiddenPercentage :=
          if pd.basePrice > 0 then mathRound (fmul (fdiv hiddenCharges pd.basePrice) 100)
          else pd.hiddenPercentage }
    else pd
  else pd

/-- The method `calculateHiddenCharges` (contentScript.js 480-536). -/
def calculateHiddenCharges (pd : PriceData) : PriceData :=
  imputeOtherFees (capPercentage (sumHiddenCharges (validatePrices pd)))

/-! ## Categories, selectors and candidates -/

/-- The `category` argument of `findPrice`; `other` stands for any string that
is not one of the five field names (the `default` branches of the source). -/
inductive Category where
  | basePrice
  | deliveryFee
  | convenienceFee
  | taxes
  | total
  | other
  deriving DecidableEq, Repr

/-- The CSS selectors that occur in the engine: `[attr*="value"]`, and
`.cls:not([class*="value"])`. -/
inductive Selector where
  | attrContains (attr : String) (value : List Char)
  | classButNot (cls : List Char) (value : List Char)
  deriving DecidableEq

/-- The table built by `initializePriceSelectors` (contentScript.js 166-209);
a category without an entry gets the empty list (`|| []` in `findPrice`). -/
def priceSelectors : Category → List Selector
  | .basePrice =>
    [ .attrContains "data-testid" "price".toList,
      .attrContains "class" "base-price".toList,
      .attrContains "class" "item-price".toList,
      .attrContains "class" "product-price".toList,
      .attrContains "class" "subtotal".toList,
      .classButNot "price".toList "total".toList,
      .classButNot "amount".toList "total".toList,
      .attrContains "id" "subtotal".toList,
      .attrContains "id" "item-price".toList ]
  | .deliveryFee =>
    [ .attrContains "class" "delivery".toList,
      .attrContains "class" "shipping".toList,
      .attrContains "data-testid" "delivery".toList,
      .attrContains "data-testid" "shipping".toList,
      .attrContains "id" "delivery".toList,
      .attrContains "id" "shipping".toList ]
  | .convenienceFee =>
    [ .attrContains "class" "convenience".toList,
      .attrContains "class" "handling".toList,
      .attrContains "class" "processing".toList,
      .attrContains "class" "service".toList,
      .attrContains "data-testid" "convenience".toList,
      .attrContains "data-testid" "handling".toList ]
  | .taxes =>
    [ .attrContains "class" "tax".toList,
      .attrContains "class" "gst".toList,
      .attrContains "class" "vat".toList,
      .attrContains "data-testid" "tax".toList,
      .attrContains "id" "tax".toList ]
  | .total =>
    [ .attrContains "class" "total".toList,
      .attrContains "class" "grand-total".toList,
      .attrContains "class" "final-amount".toList,
      .attrContains "data-testid" "total".toList,
      .attrContains "id" "total".toList ]
  | .other => []

/-- The method `getTextSearchTermsForCategory` (contentScript.js 887-914). -/
def getTextSearchTermsForCategory : Category → List (List Char)
  | .basePrice =>
    [ "Item Price".toList, "Product Price".toList, "Base Price".toList, "MRP".toList,
      "Price:".toList, "Cost:".toList, "Amount:".toList, "Subtotal".toList ]
  | .deliveryFee =>
    [ "Delivery Fee".toList, "Shipping Fee".toList, "Delivery Charge".toList,
      "Shipping Charge".toList, "Courier Fee".toList, "Delivery:".toList,
      "Shipping:".toList ]
  | .convenienceFee =>
    [ "Convenience Fee".toList, "Handling Fee".toList, "Processing Fee".toList,
      "Service Fee".toList, "Platform Fee".toList, "Convenience:".toList,
      "Handling:".toList, "Processing:".toList ]
  | .taxes =>
    [ "Tax".toList, "GST".toList, "VAT".toList, "CGST".toList, "SGST".toList,
      "IGST".toList, "Taxes:".toList, "Tax Amount".toList ]
  | .total =>
    [ "Total".toList, "Grand Total".toList, "Final Amount".toList, "Order Total".toList,
      "Amount Payable".toList, "Total Amount".toList, "Total:".toList ]
  | .other => []

/-- The object returned by `getPriceContext`. -/
structure Context where
  text : List Char
  hasDeliveryKeywords : Bool
  hasConvenienceKeywords : Bool
  hasTaxKeywords : Bool
  hasTotalKeywords : Bool
  hasBaseKeywords : Bool
  deriving DecidableEq

/-- What `findPrice` reads from a page element: its identity (`ref`, the
position of the element in the page), its `outerHTML`, the value of
`extractPriceFromElement(element)` and the value of
`getPriceContext(element)`. -/
structure ElementView where
  ref : List Nat
  outerHTML : List Char
  extractedPrice : ℚ
  context : Context
  deriving DecidableEq

/-- The page as `findPrice` sees it: `document.querySelectorAll(selector)`
and `this.findElementsByText(term)`, each in document order. -/
structure Page where
  querySelectorAll : Selector → List ElementView
  findElementsByText : List Char → List ElementView

/-- The `method` field of a found price. -/
inductive Method where
  | selector
  | text
  deriving DecidableEq

/-- An entry of the array `foundPrices` of `findPrice`. -/
structure FoundPrice where
  price : ℚ
  element : ElementView
  method : Method
  context : Context
  deriving DecidableEq

/-- The method `isContextRelevant` (contentScript.js 378-393). -/
def isContextRelevant (context : Context) : Category → Bool
  | .deliveryFee => context.hasDeliveryKeywords
  | .convenienceFee => context.hasConvenienceKeywords
  | .taxes => context.hasTaxKeywords
  | .total => context.hasTotalKeywords
  | .basePrice => context.hasBaseKeywords
  | .other => true

/-- The method `isReasonablePrice` (contentScript.js 395-414). -/
def isReasonablePrice (price : ℚ) (category : Category) : Bool :=
  if price < 0.01 ∨ price > 100000 then false
  else match category with
    | .basePrice => decide (price ≥ 1) && decide (price ≤ 50000)
    | .deliveryFee => decide (price ≥ 0) && decide (price ≤ 500)
    | .convenienceFee => decide (price ≥ 0) && decide (price ≤ 200)
    | .taxes => decide (price ≥ 0) && decide (price ≤ 5000)
    | .total => decide (price ≥ 1) && decide (price ≤ 100000)
    | .other => decide (price ≥ 0) && decide (price ≤ 1000)

/-- The method `selectBestPrice` (contentScript.js 357-376).  On an empty
array the source has no result (`reduce` throws, index 0 is undefined), which
is `none` here; `findPrice` calls it on a non-empty array only. -/
def selectBestPrice (foundPrices : List FoundPrice) (category : Category) :
    Option FoundPrice :=
  match foundPrices with
  | [p] => some p
  | _ =>
    let contextFiltered := foundPrices.filter (fun p => isContextRelevant p.context category)
    let contextFiltered := if contextFiltered.length = 0 then foundPrices else contextFiltered
    match category with
    | .total =>
      match contextFiltered with
      | [] => none
      | first :: rest =>
        some (rest.foldl (fun max current => if current.price > max.price then current else max)
          first)
    | .basePrice =>
      let reasonable := contextFiltered.filter (fun p => p.price > 10 ∧ p.price < 50000)
      if reasonable.length > 0 then reasonable.head? else contextFiltered.head?
    | _ =>
      let contextRelevant :=
        contextFiltered.filter (fun p => isContextRelevant p.context category)
      if contextRelevant.length > 0 then contextRelevant.head? else contextFiltered.head?

/-- The test both passes of `findPrice` apply to an extracted price before
pushing it to `foundPrices` (contentScript.js 286-290 and 311-315). -/
def keepsPrice (category : Category) (extractedPrice : ℚ) : Bool :=
  isValidPrice extractedPrice && decide (extractedPrice > 0) &&
    isReasonablePrice extractedPrice category

/-- The entries one pass of `findPrice` pushes for a list of visited elements. -/
def foundIn (category : Category) (method : Method) (elements : List ElementView) :
    List FoundPrice :=
  (elements.filter (fun element => keepsPrice category element.extractedPrice)).map
    (fun element =>
      { price := element.extractedPrice, element := element, method := method,
        context := element.context })

/-- Lines 274-320 of `findPrice`: the array `foundPrices` after the selector
pass and, when that pass kept nothing, the text-search pass. -/
def collectPrices (page : Page) (category : Category) : List FoundPrice :=
  let foundPrices :=
    (priceSelectors category).flatMap
      (fun selector => foundIn category .selector (page.querySelectorAll selector))
  if foundPrices.length = 0 then
    (getTextSearchTermsForCategory category).flatMap
      (fun term => foundIn category .text (page.findElementsByText term))
  else foundPrices

/-- The method `findPrice` (contentScript.js 273-339): the returned
`bestPrice` and the updated `priceData` (a breakdown entry may be pushed). -/
def findPrice (page : Page) (category : Category) (label : String) (pd : PriceData) :
    ℚ × PriceData :=
  let foundPrices := collectPrices page category
  let selected : Option FoundPrice :=
    if foundPrices.length > 0 then selectBestPrice foundPrices category else none
  let bestPrice : ℚ := match selected with
    | some selectedPrice => selectedPrice.price
    | none => 0
  let foundElement : Option ElementView :=
    selected.map (fun selectedPrice => selectedPrice.element)
  match foundElement with
  | some element =>
    if isValidPrice bestPrice = true ∧ bestPrice > 0 then
      (bestPrice,
        { pd with breakdown := pd.breakdown ++
            [{ label := label, amount := bestPrice, element := element.outerHTML.take 200,
               isHidden := decide (category ≠ .basePrice) && decide (category ≠ .total) }] })
    else (bestPrice, pd)
  | none => (bestPrice, pd)

/-- The method `extractPrices` (contentScript.js 256-271). -/
def extractPrices (page : Page) (pd : PriceData) : PriceData :=
  let r := findPrice page .basePrice "Base Price" pd
  let pd : PriceData := { r.2 with basePrice := r.1 }
  let r := findPrice page .deliveryFee "Delivery Fee" pd
  let pd : PriceData := { r.2 with deliveryFee := r.1 }
  let r := findPrice page .convenienceFee "Convenience Fee" pd
  let pd : PriceData := { r.2 with convenienceFee := r.1 }
  let r := findPrice page .taxes "Taxes" pd
  let pd : PriceData := { r.2 with taxes := r.1 }
  let r := findPrice page .total "Total" pd
  let pd : PriceData := { r.2 with total := r.1 }
  if pd.basePrice = 0 ∧ pd.total > 0 then
    { pd with
      basePrice := fsub (fsub (fsub pd.total pd.deliveryFee) pd.convenienceFee) pd.taxes }
  else pd

/-- The pipeline of `analyzePage` (contentScript.js 223-231) up to the state
of `priceData` that `sendResults` emits.  No step of the pipeline throws in
this model, so the `catch` branch is not taken. -/
def analyzePage (page : Page) (site : String) : PriceData :=
  calculateHiddenCharges (extractPrices page (resetPriceData site))

/-- The candidate `findPrice` selects, if any (lines 322-327). -/
def selectedCandidate (page : Page) (category : Category) : Option FoundPrice :=
  if (collectPrices page category).length > 0 then
    selectBestPrice (collectPrices page category) category
  else none

/-- The number `findPrice` returns: it depends on the page and the category
only. -/
def selectedValue (page : Page) (category : Category) : ℚ :=
  match selectedCandidate page category with
  | some selectedPrice => selectedPrice.price
  | none => 0

/-- The entry `findPrice` pushes to `breakdown` (lines 329-336): one entry
when a candidate was selected and its price is valid and positive, none
otherwise. -/
def breakdownEntries (page : Page) (category : Category) (label : String) :
    List BreakdownEntry :=
  match selectedCandidate page category with
  | some selectedPrice =>
    if isValidPrice selectedPrice.price = true ∧ selectedPrice.price > 0 then
      [{ label := label, amount := selectedPrice.price,
         element := selectedPrice.element.outerHTML.take 200,
         isHidden := decide (category ≠ .basePrice) && decide (category ≠ .total) }]
    else []
  | none => []

/-- A number is 0 or lies between one hundredth and the given bound. -/
def ZeroOrWithin (x ub : ℚ) : Prop := x = 0 ∨ (1 / 100 ≤ x ∧ x ≤ ub)

/-! ## The price tokenizer: `parsePrice` -/

/-- The characters of the class `[‚Çπ$‚Ç¨¬£¬•]` of the first `replace` of
`parsePrice`, as they stand in the source file. -/
def currencyClass : List Char :=
  ['‚', 'Ç', 'π', '$', '¨', '¬', '£', '•']

/-- The class `\s` of a JavaScript regular expression, which is also what
`String.prototype.trim` removes. -/
def isJsSpace (c : Char) : Bool :=
  let n := c.toNat
  n = 9 || n = 10 || n = 11 || n = 12 || n = 13 || n = 32 || n = 0xA0 || n = 0x1680 ||
  (decide (0x2000 ≤ n) && decide (n ≤ 0x200A)) || n = 0x2028 || n = 0x2029 || n = 0x202F ||
  n = 0x205F || n = 0x3000 || n = 0xFEFF

/-- The class `\d`: the ten ASCII digits. -/
def isDigit (c : Char) : Bool :=
  decide ('0'.toNat ≤ c.toNat) && decide (c.toNat ≤ '9'.toNat)

/-- The method `trim` of a string. -/
def trim (s : List Char) : List Char :=
  ((s.dropWhile isJsSpace).reverse.dropWhile isJsSpace).reverse

/-- Lines 451-455 of `parsePrice`: the three `replace` calls and `trim`. -/
def cleanText (text : List Char) : List Char :=
  trim
    (((text.filter (fun c => !(currencyClass.contains c))).filter
        (fun c => !(c = ',' || isJsSpace c))).filter
      (fun c => isDigit c || c = '.' || c = '-'))

/-- The first match of `/(\d+(?:\.\d{1,2})?)/` in a string: the text matched,
or `none` when the string has no digit. -/
def matchPricePattern (s : List Char) : Option (List Char) :=
  let fromDigit := s.dropWhile (fun c => !isDigit c)
  match fromDigit with
  | [] => none
  | _ =>
    let intPart := fromDigit.takeWhile isDigit
    match fromDigit.dropWhile isDigit with
    | '.' :: rest =>
      let frac := (rest.takeWhile isDigit).take 2
      if frac.length > 0 then some (intPart ++ '.' :: frac) else some intPart
    | _ => some intPart

/-- The number written by a string of decimal digits. -/
def digitsValue (digits : List Char) : ℕ :=
  digits.foldl (fun n c => 10 * n + (c.toNat - '0'.toNat)) 0

/-- The function `Number.parseFloat` on the strings `parsePrice` passes to it:
decimal digits, optionally followed by a dot and decimal digits. -/
def parseFloat (s : List Char) : ℚ :=
  let intPart := s.takeWhile isDigit
  match s.dropWhile isDigit with
  | '.' :: rest =>
    let frac := rest.takeWhile isDigit
    (digitsValue intPart : ℚ) + (digitsValue frac : ℚ) / 10 ^ frac.length
  | _ => (digitsValue intPart : ℚ)

/-- The method `parsePrice` (contentScript.js 447-478), on a string. -/
def parsePrice (text : List Char) : ℚ :=
  if text.isEmpty then 0
  else
    let cleaned := cleanText text
    let isNegative := cleaned.head? = some '-'
    let cleaned := if isNegative then cleaned.drop 1 else cleaned
    match matchPricePattern cleaned with
    | some m =>
      let price := parseFloat m
      if price < 0 ∨ price > 100000 ∨ toStringHasE price = true then 0
      else if isNegative then 0 else price
    | none => 0

/-! ## The page as a tree -/

/-- A node of the page: a text node or an element with its attributes and
children. -/
inductive Node where
  | text (data : List Char)
  | element (tag : String) (attrs : List (String × List Char)) (children : List Node)

/-- Whether `needle` occurs in `hay` (`String.prototype.includes`). -/
def includes (hay needle : List Char) : Bool :=
  hay.tails.any (fun t => needle.isPrefixOf t)

/-- The method `toLowerCase`, on the letters A to Z (other characters are
left as they are).  The keywords and search terms of the source are ASCII, so
whether a lower-cased text contains one of them does not depend on how the
letters outside A to Z are mapped; only the text stored in a `Context` can
differ from the JavaScript string when it has such letters. -/
def toLowerCase (s : List Char) : List Char := s.map Char.toLower

mutual
/-- The property `textContent` of a node. -/
def Node.textContent : Node → List Char
  | .text data => data
  | .element _ _ children => textContentOfList children
/-- The concatenated `textContent` of a list of sibling nodes. -/
def textContentOfList : List Node → List Char
  | [] => []
  | child :: rest => child.textContent ++ textContentOfList rest
end

/-- The method `getAttribute`. -/
def Node.getAttribute (node : Node) (name : String) : Option (List Char) :=
  match node with
  | .text _ => none
  | .element _ attrs _ => (attrs.find? (fun a => a.1 = name)).map (fun a => a.2)

/-- The tokens of a `class` attribute (split at ASCII white space). -/
def classTokens (value : List Char) : List (List Char) :=
  (value.splitOnP (fun c => c = ' ' || c = '\t' || c = '\n' || c = '\x0c' || c = '\r')).filter
    (fun token => !token.isEmpty)

/-- Whether an element matches a selector (`Element.matches`). -/
def Node.matchesSelector (node : Node) : Selector → Bool
  | .attrContains attr value =>
    match node.getAttribute attr with
    | some v => !value.isEmpty && includes v value
    | none => false
  | .classButNot cls value =>
    match node.getAttribute "class" with
    | some v => (classTokens v).contains cls && !(!value.isEmpty && includes v value)
    | none => false

mutual
/-- The element descendants of a node, the node itself included when it is an
element, in document order, each with its position: the list of child
indices that leads to it from the root. -/
def Node.elements (path : List Nat) : Node → List (List Nat × Node)
  | .text _ => []
  | .element tag attrs children =>
    (path, .element tag attrs children) :: elementsOfList path 0 children
/-- The elements below a list of siblings, the first of which has index `i`. -/
def elementsOfList (path : List Nat) (i : Nat) : List Node → List (List Nat × Node)
  | [] => []
  | child :: rest => child.elements (path ++ [i]) ++ elementsOfList path (i + 1) rest
end

mutual
/-- The text nodes below a node, in document order, each with the position of
its parent element (what a `TreeWalker` with `SHOW_TEXT` visits). -/
def Node.textNodes (path : List Nat) : Node → List (List Nat × List Char)
  | .text _ => []
  | .element _ _ children => textNodesOfList path 0 children
/-- The text nodes below a list of siblings whose parent is at `path`. -/
def textNodesOfList (path : List Nat) (i : Nat) : List Node → List (List Nat × List Char)
  | [] => []
  | .text data :: rest => (path, data) :: textNodesOfList path (i + 1) rest
  | .element tag attrs children :: rest =>
    (Node.element tag attrs children).textNodes (path ++ [i]) ++
      textNodesOfList path (i + 1) rest
end

/-- The node at a position. -/
def Node.at? : Node → List Nat → Option Node
  | node, [] => some node
  | .text _, _ :: _ => none
  | .element _ _ children, i :: rest =>
    match children.get? i with
    | some child => child.at? rest
    | none => none

/-- The escaped form of a text node in `outerHTML`. -/
def escapeText (s : List Char) : List Char :=
  s.flatMap (fun c =>
    if c = '&' then "&amp;".toList else if c = '<' then "&lt;".toList
    else if c = '>' then "&gt;".toList else if c.toNat = 0xA0 then "&nbsp;".toList else [c])

/-- The escaped form of an attribute value in `outerHTML`. -/
def escapeAttr (s : List Char) : List Char :=
  s.flatMap (fun c =>
    if c = '&' then "&amp;".toList else if c = '"' then "&quot;".toList
    else if c.toNat = 0xA0 then "&nbsp;".toList else [c])

/-- The elements that are serialised without an end tag. -/
def voidTags : List String :=
  ["area", "base", "br", "col", "embed", "hr", "img", "input", "link", "meta", "source",
   "track", "wbr"]

mutual
/-- The property `outerHTML` of a node (HTML fragment serialisation; the
content of `script` and `style` elements is escaped like any other text). -/
def Node.outerHTML : Node → List Char
  | .text data => escapeText data
  | .element tag attrs children =>
    let start := '<' :: tag.toList ++
      attrs.flatMap (fun a => ' ' :: a.1.toList ++ "=\"".toList ++ escapeAttr a.2 ++ ['"']) ++
      ['>']
    if voidTags.contains tag then start
    else start ++ outerHTMLOfList children ++ "</".toList ++ tag.toList ++ ['>']
/-- The serialisation of a list of sibling nodes. -/
def outerHTMLOfList : List Node → List Char
  | [] => []
  | child :: rest => child.outerHTML ++ outerHTMLOfList rest
end

/-- The method `querySelectorAll` of an element at `path`, for a list of
selectors separated by commas: the descendants (the element itself excluded)
that match one of them, in document order. -/
def Node.querySelectorAll (node : Node) (path : List Nat) (selectors : List Selector) :
    List (List Nat × Node) :=
  ((node.elements path).drop 1).filter
    (fun e => selectors.any (fun selector => e.2.matchesSelector selector))

/-- The method `closest` of the element at `path` in the page `body`: the
nearest of the element and its ancestors that matches one of the selectors. -/
def closest (body : Node) (path : List Nat) (selectors : List Selector) : Option Node :=
  ((path.inits.reverse.filterMap (fun ancestor => body.at? ancestor)).find?
    (fun node => selectors.any (fun selector => node.matchesSelector selector)))

/-- The property `parentElement` of the element at `path`.  The page is given
from its `body` element; the parent of `body` is the `html` element, which is
taken to have no text outside `body`, so that its `textContent` is that of
`body`. -/
def parentElement (body : Node) (path : List Nat) : Option Node :=
  body.at? path.dropLast

/-- ASCII white space, as HTML defines it. -/
def isAsciiSpace (c : Char) : Bool :=
  c = ' ' || c = '\t' || c = '\n' || c = '\x0c' || c = '\r'

/-- Whether an element has an attribute. -/
def Node.hasAttribute (node : Node) (name : String) : Bool := (node.getAttribute name).isSome

/-- The value of an `option` element: its `value` attribute, or, without one,
its text with ASCII white space stripped and collapsed. -/
def optionValue (option : Node) : List Char :=
  match option.getAttribute "value" with
  | some v => v
  | none =>
    List.intercalate [' ']
      ((option.textContent.splitOnP isAsciiSpace).filter (fun word => !word.isEmpty))

/-- The list of options of a `select` element with the given children: its
`option` children and the `option` children of its `optgroup` children, in
tree order, each with whether it is disabled. -/
def selectOptions (children : List Node) : List (Node × Bool) :=
  children.flatMap (fun child =>
    match child with
    | .element "option" _ _ => [(child, child.hasAttribute "disabled")]
    | .element "optgroup" _ groupChildren =>
      groupChildren.filterMap (fun o =>
        match o with
        | .element "option" _ _ =>
          some (o, o.hasAttribute "disabled" || child.hasAttribute "disabled")
        | _ => none)
    | _ => [])

/-- The rules of HTML for parsing a non-negative integer, on an attribute
value. -/
def parseNonNegativeInteger (s : List Char) : Option Nat :=
  let s := s.dropWhile isAsciiSpace
  let negative := s.head? = some '-'
  let s := if s.head? = some '-' ∨ s.head? = some '+' then s.drop 1 else s
  let digits := s.takeWhile isDigit
  if digits.isEmpty then none
  else if negative ∧ digitsValue digits ≠ 0 then none
  else some (digitsValue digits)

/-- The property `value` of a `select` element, as the page is loaded: the
value of the first selected option.  Without the `multiple` attribute the
last option that carries `selected` is the selected one, and when none
carries it and the display size is 1 the first option that is not disabled is
selected. -/
def selectValue (node : Node) (children : List Node) : List Char :=
  let options := selectOptions children
  let marked := options.filter (fun o => o.1.hasAttribute "selected")
  let multiple := node.hasAttribute "multiple"
  let displaySize :=
    match (node.getAttribute "size").bind parseNonNegativeInteger with
    | some n => n
    | none => if multiple then 4 else 1
  let selected : Option (Node × Bool) :=
    if multiple then marked.head?
    else match marked.getLast? with
      | some o => some o
      | none => if displaySize = 1 then options.find? (fun o => !o.2) else none
  match selected with
  | some o => optionValue o.1
  | none => []

/-- The property `value` of an element: the selected value of a `select`,
the value of an `option`, the `value` attribute of `input`, `button`, `data`
and `param`; other elements have none, or one that is their text, or a number
(`li`, `meter`, `progress`), which `parsePrice` takes for no price.  An
`input` is taken to be of a type whose value is its attribute as written (the
default type `text`, `hidden`, and the like): the value sanitisation of the
other input types is not modelled. -/
def Node.value (node : Node) : Option (List Char) :=
  match node with
  | .text _ => none
  | .element tag _ children =>
    if tag = "select" then some (selectValue node children)
    else if tag = "option" then some (optionValue node)
    else if ["input", "button", "data", "param"].contains tag then
      some ((node.getAttribute "value").getD [])
    else none

/-- The method `extractPriceFromElement` (contentScript.js 416-445) for the
element `node` at `path`. -/
def extractPriceFromElement (node : Node) (path : List Nat) : ℚ :=
  let text :=
    if !node.textContent.isEmpty then node.textContent
    else match node.value with
      | some v => v
      | none => []
  let price := parsePrice text
  let price :=
    if price = 0 then
      let dataPrice :=
        [node.getAttribute "data-price", node.getAttribute "data-amount",
          node.getAttribute "value"].findSome?
          (fun a => match a with
            | some v => if v.isEmpty then none else some v
            | none => none)
      match dataPrice with
      | some v => parsePrice v
      | none => price
    else price
  let price :=
    if price = 0 then
      (node.querySelectorAll path
          [.attrContains "class" "price".toList, .attrContains "class" "amount".toList,
           .attrContains "class" "cost".toList]).foldl
        (fun price priceEl =>
          let childPrice := parsePrice priceEl.2.textContent
          if childPrice > price then childPrice else price)
        price
    else price
  if isValidPrice price then price else 0

/-- The method `getPriceContext` (contentScript.js 341-355) for the element
`node` at `path` of the page `body`. -/
def getPriceContext (body : Node) (node : Node) (path : List Nat) : Context :=
  let parent :=
    (closest body path
      [.attrContains "class" "price".toList, .attrContains "class" "amount".toList,
       .attrContains "class" "cost".toList, .attrContains "class" "fee".toList,
       .attrContains "class" "total".toList]).orElse (fun _ => parentElement body path)
  let context := match parent with
    | some p => toLowerCase p.textContent
    | none => toLowerCase node.textContent
  { text := context
    hasDeliveryKeywords :=
      ["delivery", "shipping", "courier"].any (fun k => includes context k.toList)
    hasConvenienceKeywords :=
      ["convenience", "handling", "processing", "service", "platform"].any
        (fun k => includes context k.toList)
    hasTaxKeywords := ["tax", "gst", "vat"].any (fun k => includes context k.toList)
    hasTotalKeywords :=
      ["total", "grand", "final", "amount"].any (fun k => includes context k.toList)
    hasBaseKeywords := ["price", "cost", "mrp", "item"].any (fun k => includes context k.toList) }

/-- What `findPrice` reads from the element `e` of the page `body`. -/
def viewOf (body : Node) (e : List Nat × Node) : ElementView :=
  { ref := e.1, outerHTML := e.2.outerHTML,
    extractedPrice := extractPriceFromElement e.2 e.1,
    context := getPriceContext body e.2 e.1 }

/-- The method `findElementsByText` (contentScript.js 916-932): the parent
elements of the text nodes below `body` that contain the search term,
ignoring case, each element once. -/
def findElementsByText (body : Node) (searchTerm : List Char) : List (List Nat × Node) :=
  ((body.textNodes []).foldl
    (fun elements node =>
      if includes (toLowerCase node.2) (toLowerCase searchTerm) then
        if elements.contains node.1 then elements else elements ++ [node.1]
      else elements)
    []).filterMap (fun path => (body.at? path).map (fun n => (path, n)))

/-- The page given by a document whose `body` element is `body` (the `html`
and `head` elements are taken to match no selector). -/
def domPage (body : Node) : Page :=
  { querySelectorAll := fun selector =>
      ((body.elements []).filter (fun e => e.2.matchesSelector selector)).map (viewOf body)
    findElementsByText := fun term => (findElementsByText body term).map (viewOf body) }

/-! ## Concrete pages and states -/

/-- The page of the end-to-end scenario: three elements without attributes. -/
def scenarioBody : Node :=
  .element "body" []
    [ .element "div" [] [.text "Item Price: ₹499".toList],
      .element "div" [] [.text "Delivery Fee: ₹40".toList],
      .element "div" [] [.text "Total: ₹539".toList] ]

/-- A page with an item price of 100 and a tax of 200. -/
def taxHeavyBody : Node :=
  .element "body" []
    [ .element "div" [] [.text "Item Price: ₹100".toList],
      .element "div" [] [.text "GST: ₹200".toList] ]

/-- A page that states a total only. -/
def totalOnlyBody : Node :=
  .element "body" [] [ .element "div" [] [.text "Total: ₹60000".toList] ]

/-- The state of `priceData` after `extractPrices` found a base price of 10,
taxes of 5 and a total of 21. -/
def smallBasket : PriceData :=
  { resetPriceData "shop.example" with basePrice := 10, taxes := 5, total := 21 }

/-- The state of `priceData` after `extractPrices` found a base price of 900,
a delivery fee of 30, a convenience fee of 20 and a total of 960. -/
def imputationBasket : PriceData :=
  { resetPriceData "shop.example" with
    basePrice := 900, deliveryFee := 30, convenienceFee := 20, total := 960 }

/-! ## The analysis trigger -/

/-- The mutable state of a `TrueCostDetector`, with its pending timers: the
interval of `startMonitoring` (`pollActive`), its 10 s timer
(`timeoutPending`), the debounced timer of `observePageChanges`
(`reanalysisPending`) and the number of 2 s timers of `startAnalysis` whose
`analyzePage` has not run yet (`settlePending`).  `popupsShown` counts the
calls of `showComprehensivePopup`. -/
structure Detector where
  priceData : PriceData
  isAnalyzing : Bool
  hasShownPopup : Bool
  analysisCount : Nat
  paymentMethodDetected : Bool
  finalAmountDetected : Bool
  monitoringStarted : Bool
  pollActive : Bool
  timeoutPending : Bool
  reanalysisPending : Bool
  settlePending : Nat
  popupsShown : Nat

/-- The state the constructor leaves (contentScript.js 4-28), before
`startMonitoring` has run. -/
def Detector.initial (site : String) : Detector :=
  { priceData := resetPriceData site, isAnalyzing := false, hasShownPopup := false,
    analysisCount := 0, paymentMethodDetected := false, finalAmountDetected := false,
    monitoringStarted := false, pollActive := false, timeoutPending := false,
    reanalysisPending := false, settlePending := 0, popupsShown := 0 }

/-- The events of one page view. -/
inductive Event where
  /-- The method `startMonitoring` runs (at once, or on `DOMContentLoaded`). -/
  | pageReady
  /-- The 1 s interval fires; the arguments say whether `checkPaymentMethods`
  and `checkFinalAmount` detect something on the page at this tick. -/
  | pollTick (paymentFound finalAmountFound : Bool)
  /-- The 10 s timer of `startMonitoring` fires. -/
  | hardTimeout
  /-- The mutation observer reports a batch; `qualifying` is the value of
  `shouldReanalyze && significantChange` for it. -/
  | mutation (qualifying : Bool)
  /-- The debounced 2 s timer of `observePageChanges` fires. -/
  | reanalysisTimer
  /-- A 2 s timer of `startAnalysis` fires and `analyzePage` runs on the page
  as it is then. -/
  | settleTimer (page : Page)

/-- The method `shouldTriggerAnalysis` (contentScript.js 158-164). -/
def shouldTriggerAnalysis (s : Detector) : Bool :=
  (s.paymentMethodDetected && s.finalAmountDetected) ||
  (s.paymentMethodDetected && s.analysisCount == 0) ||
  (s.finalAmountDetected && s.analysisCount == 0)

/-- The method `startAnalysis` (contentScript.js 211-221). -/
def startAnalysis (s : Detector) : Detector :=
  if s.isAnalyzing then s
  else
    { s with isAnalyzing := true, analysisCount := s.analysisCount + 1,
             settlePending := s.settlePending + 1 }

/-- The method `sendResults` (contentScript.js 549-583), as far as it touches
the state of the detector. -/
def sendResults (s : Detector) : Detector :=
  let hasValidData :=
    isValidPrice s.priceData.basePrice || isValidPrice s.priceData.total ||
      decide (s.priceData.breakdown.length > 0)
  if !hasValidData then s
  else if !s.hasShownPopup && hasValidData &&
      (decide (s.priceData.hiddenCharges > 0) || decide (s.priceData.total > 10)) then
    { s with hasShownPopup := true, popupsShown := s.popupsShown + 1 }
  else s

/-- The effect of one event; an event that cannot occur in the state (a
timer that is not pending) leaves the state as it is. -/
def step (s : Detector) : Event → Detector
  | .pageReady =>
    if s.monitoringStarted then s
    else { s with monitoringStarted := true, pollActive := true, timeoutPending := true }
  | .pollTick paymentFound finalAmountFound =>
    if s.pollActive then
      let s := { s with
        paymentMethodDetected := s.paymentMethodDetected || paymentFound
        finalAmountDetected := s.finalAmountDetected || finalAmountFound }
      if shouldTriggerAnalysis s then startAnalysis { s with pollActive := false } else s
    else s
  | .hardTimeout =>
    if s.timeoutPending then
      let s := { s with timeoutPending := false }
      if !s.hasShownPopup then startAnalysis { s with pollActive := false } else s
    else s
  | .mutation qualifying =>
    if qualifying && decide (s.analysisCount < 3) then { s with reanalysisPending := true }
    else s
  | .reanalysisTimer =>
    if s.reanalysisPending then
      startAnalysis { s with reanalysisPending := false, isAnalyzing := false,
                             hasShownPopup := false }
    else s
  | .settleTimer page =>
    if s.settlePending > 0 then
      sendResults { s with settlePending := s.settlePending - 1,
                           priceData := analyzePage page s.priceData.site }
    else s

/-- The state after a sequence of events. -/
def run (s : Detector) (events : List Event) : Detector := events.foldl step s

/-- What every reachable state satisfies. -/
def CeilingInvariant (s : Detector) : Prop :=
  s.analysisCount ≤ 3 ∧ (s.reanalysisPending = true → s.analysisCount ≤ 2) ∧
    (s.isAnalyzing = false → s.analysisCount = 0)

/-- The characters the third `replace` of `parsePrice` keeps. -/
def keptChar (c : Char) : Bool := isDigit c || c = '.' || c = '-'

/-- A candidate with the given price and context flags (total, base); the
element behind it has no other content. -/
def sampleCandidate (ref : Nat) (price : ℚ) (hasTotal hasBase : Bool) : FoundPrice :=
  let context : Context :=
    { text := [], hasDeliveryKeywords := false, hasConvenienceKeywords := false,
      hasTaxKeywords := false, hasTotalKeywords := hasTotal, hasBaseKeywords := hasBase }
  { price := price
    element := { ref := [ref], outerHTML := [], extractedPrice := price, context := context }
    method := .selector
    context := context }

/-- A page with a delivery fee above the stated total. -/
def feeAboveTotalBody : Node :=
  .element "body" []
    [ .element "div" [] [.text "Delivery Fee: ₹40".toList],
      .element "div" [] [.text "Total: ₹10".toList] ]

/-- Whether an event is the firing of the debounced re-analysis timer. -/
def Event.isReanalysisTimer : Event → Bool
  | .reanalysisTimer => true
  | _ => false

/-- The number of disclosures still possible before the next re-analysis: 1
while `hasShownPopup` is false, 0 once it is true. -/
def disclosureOpen (s : Detector) : Nat := if s.hasShownPopup then 0 else 1

/-- The disclosure a pending pass may still make: 1 while `hasShownPopup` is
false and an `analyzePage` run is pending, 0 otherwise. -/
def disclosurePending (s : Detector) : Nat :=
  if s.hasShownPopup = false ∧ s.settlePending > 0 then 1 else 0

/-- The fraction digits the price pattern takes from what follows the integer
part: up to two digits after a dot, none when no dot follows. -/
def fractionDigits (rest : List Char) : List Char :=
  match rest with
  | '.' :: r => (r.takeWhile isDigit).take 2
  | _ => []

/-- The number denoted by the first numeric run of a string, that is by the
first match of the price pattern: the first run of digits, with up to two
digits after a dot that follows it (0 for a string without a digit). -/
def firstRunValue (s : List Char) : ℚ :=
  (digitsValue ((s.dropWhile (fun c => !isDigit c)).takeWhile isDigit) : ℚ) +
    (digitsValue (fractionDigits ((s.dropWhile (fun c => !isDigit c)).dropWhile isDigit)) : ℚ) /
      10 ^ (fractionDigits ((s.dropWhile (fun c => !isDigit c)).dropWhile isDigit)).length

/-- The reference definition of `parsePrice`, in the words of the
specification: the empty string gives 0; otherwise `c` is the input with every
character other than digits, dots and hyphens deleted; a `c` that starts with
a hyphen gives 0; otherwise the result is the value of the first match in `c`
of digits optionally followed by a dot and one or two digits, or 0 when there
is no match or the value exceeds 100000.  The pattern match and the reading
of the matched text as a number are the primitives `matchPricePattern` and
`parseFloat`. -/
def parsePriceReference (text : List Char) : ℚ :=
  if text = [] then 0
  else
    let c := text.filter (fun ch => isDigit ch || ch = '.' || ch = '-')
    if c.head? = some '-' then 0
    else
      match matchPricePattern c with
      | none => 0
      | some m => if parseFloat m > 100000 then 0 else parseFloat m

/-- A page with an item price of 10, a tax of 5 and a total of 21. -/
def smallBasketBody : Node :=
  .element "body" []
    [ .element "div" [] [.text "Item Price: ₹10".toList],
      .element "div" [] [.text "GST: ₹5".toList],
      .element "div" [] [.text "Total: ₹21".toList] ]

/-- The state of `priceData` after `extractPrices` found a base price of 100
and taxes of 200. -/
def taxHeavyBasket : PriceData :=
  { resetPriceData "shop.example" with basePrice := 100, taxes := 200 }

/-- The state of `priceData` that the imputation step of an analysis pass
starts from (after line 520 of `calculateHiddenCharges`). -/
def beforeImputation (page : Page) (site : String) : PriceData :=
  capPercentage (sumHiddenCharges (validatePrices (extractPrices page (resetPriceData site))))

/-- The residual `difference` of lines 523-524: the stated total minus base
price plus hidden charges, as the source computes it. -/
def residual (pd : PriceData) : ℚ := fsub pd.total (fadd pd.basePrice pd.hiddenCharges)

/-- The constant `hasValidData` of `sendResults` (contentScript.js 551-554). -/
def hasValidData (pd : PriceData) : Bool :=
  isValidPrice pd.basePrice || isValidPrice pd.total || decide (pd.breakdown.length > 0)

/-- The base price an analysis pass emits when `findPrice` found none and the
total is positive: the difference of lines 268-269 as clamped by line 483. -/
def backfilledBasePrice (page : Page) (site : String) : ℚ :=
  if isValidPrice
      (fsub (fsub (fsub (findPrice page .total "Total" (resetPriceData site)).1
            (findPrice page .deliveryFee "Delivery Fee" (resetPriceData site)).1)
          (findPrice page .convenienceFee "Convenience Fee" (resetPriceData site)).1)
        (findPrice page .taxes "Taxes" (resetPriceData site)).1) then
    fsub (fsub (fsub (findPrice page .total "Total" (resetPriceData site)).1
          (findPrice page .deliveryFee "Delivery Fee" (resetPriceData site)).1)
        (findPrice page .convenienceFee "Convenience Fee" (resetPriceData site)).1)
      (findPrice page .taxes "Taxes" (resetPriceData site)).1
  else 0

/-- A page with a delivery fee of 60 and a total of 100. -/
def largeFeeBody : Node :=
  .element "body" []
    [ .element "div" [] [.text "Delivery Fee: ₹60".toList],
      .element "div" [] [.text "Total: ₹100".toList] ]

/-- The five calls of `extractPrices` in source order: label, category, and
the `isHidden` flag of the entry the call may push. -/
def extractionOrder : List (String × Category × Bool) :=
  [("Base Price", .basePrice, false), ("Delivery Fee", .deliveryFee, true),
   ("Convenience Fee", .convenienceFee, true), ("Taxes", .taxes, true),
   ("Total", .total, false)]

/-- The pass the `isAnalyzing` guard accounts for: 1 while the flag is set,
0 while it is clear. -/
def guardedPasses (s : Detector) : Nat := if s.isAnalyzing then 1 else 0

/-! ## The analytics of the background worker: `updateAnalytics` -/

/-- One value of `analytics.topOffendingSites`. -/
structure SiteData where
  count : Nat
  totalFees : ℚ
  averagePercentage : ℚ
  deriving DecidableEq

/-- The record `analytics` kept in `chrome.storage.local`; the two objects
used as dictionaries are lists of key and value in insertion order. -/
structure Analytics where
  totalScans : Nat
  totalHiddenFees : ℚ
  totalSavingsIdentified : ℚ
  averageHiddenPercentage : ℚ
  topOffendingSites : List (String × SiteData)
  scansByMonth : List (String × Nat)
  deriving DecidableEq

/-- The record `updateAnalytics` starts from when storage holds none
(background.js 181-188), equal to the one `initializeStorage` writes. -/
def emptyAnalytics : Analytics :=
  { totalScans := 0, totalHiddenFees := 0, totalSavingsIdentified := 0,
    averageHiddenPercentage := 0, topOffendingSites := [], scansByMonth := [] }

/-- Reading `object[key]`. -/
def lookupKey {α : Type} (key : String) : List (String × α) → Option α
  | [] => none
  | (k, v) :: rest => if k = key then some v else lookupKey key rest

/-- The assignment `object[key] = value`. -/
def assignKey {α : Type} (key : String) (value : α) : List (String × α) → List (String × α)
  | [] => [(key, value)]
  | (k, v) :: rest => if k = key then (k, value) :: rest else (k, v) :: assignKey key value rest

/-- The method `updateAnalytics` (background.js 178-219) as a function of the
stored record, the month key of the current date, and the fee data; the
result is the record written back. The storage read and write are taken as
one step. -/
def updateAnalytics (stored : Option Analytics) (monthKey : String) (feeData : PriceData) :
    Analytics :=
  let analytics := stored.getD emptyAnalytics
  let analytics := { analytics with totalScans := analytics.totalScans + 1 }
  let analytics :=
    { analytics with totalHiddenFees := analytics.totalHiddenFees + feeData.hiddenCharges }
  let analytics :=
    { analytics with
      averageHiddenPercentage :=
        mathRound
          ((analytics.averageHiddenPercentage * (((analytics.totalScans : ℚ)) - 1) +
              feeData.hiddenPercentage) /
            (analytics.totalScans : ℚ)) }
  let analytics :=
    if feeData.hiddenCharges > 0 then
      let siteData : SiteData :=
        (lookupKey feeData.site analytics.topOffendingSites).getD
          { count := 0, totalFees := 0, averagePercentage := 0 }
      let siteData := { siteData with count := siteData.count + 1 }
      let siteData := { siteData with totalFees := siteData.totalFees + feeData.hiddenCharges }
      let siteData :=
        { siteData with
          averagePercentage :=
            mathRound
              ((siteData.averagePercentage * (((siteData.count : ℚ)) - 1) +
                  feeData.hiddenPercentage) /
                (siteData.count : ℚ)) }
      { analytics with
        topOffendingSites := assignKey feeData.site siteData analytics.topOffendingSites }
    else analytics
  { analytics with
    scansByMonth :=
      assignKey monthKey ((lookupKey monthKey analytics.scansByMonth).getD 0 + 1)
        analytics.scansByMonth }

/-- The record in storage after `updateAnalytics` has processed the results in
order, starting from empty storage; each result comes with the month key of
its date. -/
def processResults (results : List (String × PriceData)) : Analytics :=
  results.foldl (fun analytics r => updateAnalytics (some analytics) r.1 r.2) emptyAnalytics

/-- The rounded arithmetic mean of the `hiddenPercentage` values of a list of
results: the reference value of the average. -/
def roundedMean (results : List (String × PriceData)) : ℤ :=
  mathRound ((results.map (fun r => r.2.hiddenPercentage)).sum / (results.length : ℚ))

/-- A basket with a base price of 1000 and a delivery fee of 10. -/
def onePercentBasket : PriceData :=
  { resetPriceData "shop.example" with basePrice := 1000, deliveryFee := 10 }

/-- Three results sent in one month: hidden charges of 1 percent, then two
results without hidden charges. -/
def sampleResults : List (String × PriceData) :=
  [("2025-01", calculateHiddenCharges onePercentBasket),
   ("2025-01", calculateHiddenCharges (resetPriceData "shop.example")),
   ("2025-01", calculateHiddenCharges (resetPriceData "shop.example"))]

/-- A page with an item price of 10 and a total of 11: the residual is 1. -/
def residualOneBody : Node :=
  .element "body" []
    [ .element "div" [] [.text "Item Price: ₹10".toList],
      .element "div" [] [.text "Total: ₹11".toList] ]

/-- A page with an item price of 10 and a total of 110: the residual is 100,
which is max(100, 0.1 * 10). -/
def residualHundredBody : Node :=
  .element "body" []
    [ .element "div" [] [.text "Item Price: ₹10".toList],
      .element "div" [] [.text "Total: ₹110".toList] ]

/-- The state of `priceData` after `extractPrices` found a base price of
129.70 and a convenience fee of 25.94. -/
def tieFeeBasket : PriceData :=
  { resetPriceData "shop.example" with basePrice := 129.7, convenienceFee := 25.94 }

/-- A page with an item price of 200 and a tax of 29. -/
def roundingTieBody : Node :=
  .element "body" []
    [ .element "div" [] [.text "Item Price: ₹200".toList],
      .element "div" [] [.text "GST: ₹29".toList] ]

/-- The state of `priceData` after `extractPrices` found a base price of 200
and a total of 229. -/
def tieImputationBasket : PriceData :=
  { resetPriceData "shop.example" with basePrice := 200, total := 229 }

/-- The state of `priceData` after `extractPrices` found a base price of 1000
and taxes of 1005. -/
def nearCapBasket : PriceData :=
  { resetPriceData "shop.example" with basePrice := 1000, taxes := 1005 }

/-- A page with an item price of 127.30 and a total of 128.30. -/
def unitResidualBody : Node :=
  .element "body" []
    [ .element "div" [] [.text "Item Price: ₹127.30".toList],
      .element "div" [] [.text "Total: ₹128.30".toList] ]

/-- A page with a convenience fee of 25.94 and a total of 155.64. -/
def tieBackfillBody : Node :=
  .element "body" []
    [ .element "div" [] [.text "Convenience Fee: ₹25.94".toList],
      .element "div" [] [.text "Total: ₹155.64".toList] ]

/-- A page with an item price of 900, a delivery fee of 30 and a total of
960. -/
def imputationBody : Node :=
  .element "body" []
    [ .element "div" [] [.text "Item Price: ₹900".toList],
      .element "div" [] [.text "Delivery Fee: ₹30".toList],
      .element "div" [] [.text "Total: ₹960".toList] ]

/-! ## Basic facts -/

/-! ## Rounding to the nearest double -/

theorem pow2_eq (e : ℤ) : pow2 e = (2 : ℚ) ^ e := by
  unfold pow2
  split_ifs with h
  · obtain ⟨n, rfl⟩ := Int.eq_ofNat_of_zero_le h
    simp
  · push_neg at h
    obtain ⟨n, hn⟩ := Int.eq_ofNat_of_zero_le (show 0 ≤ -e by omega)
    have he : e = -(n : ℤ) := by omega
    subst he
    simp

theorem pow2_pos (e : ℤ) : 0 < pow2 e := by
  rw [pow2_eq]
  positivity

theorem pow2_add (a b : ℤ) : pow2 (a + b) = pow2 a * pow2 b := by
  simp only [pow2_eq]
  exact zpow_add₀ (by norm_num) a b

theorem pow2_lt (a b : ℤ) (h : a < b) : pow2 a < pow2 b := by
  simp only [pow2_eq]
  exact zpow_lt_zpow_right₀ (by norm_num) h

theorem pow2_le (a b : ℤ) (h : a ≤ b) : pow2 a ≤ pow2 b := by
  simp only [pow2_eq]
  exact zpow_le_zpow_right₀ (by norm_num) h

theorem bitLength_spec (fuel n : ℕ) (hf : n ≤ fuel) (hn : 0 < n) :
    2 ^ (bitLength fuel n - 1) ≤ n ∧ n < 2 ^ bitLength fuel n ∧ 0 < bitLength fuel n := by
  induction fuel generalizing n with
  | zero => omega
  | succ k ih =>
    unfold bitLength
    rw [if_neg (by omega)]
    by_cases h2 : n / 2 = 0
    · have h1 : n = 1 := by omega
      subst h1
      have : bitLength k (1 / 2) = 0 := by
        cases k with
        | zero => rfl
        | succ j => unfold bitLength; simp
      rw [this]
      simp
    · obtain ⟨a, b, c⟩ := ih (n / 2) (by omega) (by omega)
      refine ⟨?_, ?_, by omega⟩
      · have e : bitLength k (n / 2) + 1 - 1 = (bitLength k (n / 2) - 1) + 1 := by omega
        rw [e, pow_succ]
        omega
      · rw [pow_succ]
        omega


theorem binaryExponent_spec (x : ℚ) (hx : x ≠ 0) :
    pow2 (binaryExponent x) ≤ |x| ∧ |x| < pow2 (binaryExponent x + 1) := by
  have hn : 0 < x.num.natAbs := Int.natAbs_pos.mpr (Rat.num_ne_zero.mpr hx)
  have hd : 0 < x.den := x.den_pos
  obtain ⟨n1, n2, n3⟩ := bitLength_spec x.num.natAbs x.num.natAbs le_rfl hn
  obtain ⟨d1, d2, d3⟩ := bitLength_spec x.den x.den le_rfl hd
  have habs : |x| = (x.num.natAbs : ℚ) / (x.den : ℚ) := by
    conv_lhs => rw [← Rat.num_div_den x]
    rw [abs_div, Nat.cast_natAbs, Int.cast_abs]
    congr 1
    exact abs_of_pos (by exact_mod_cast hd)
  generalize hbn : bitLength x.num.natAbs x.num.natAbs = bn at n1 n2 n3
  generalize hbd : bitLength x.den x.den = bd at d1 d2 d3
  generalize hn' : x.num.natAbs = n at hn n1 n2 habs
  generalize hd' : x.den = d at hd d1 d2 habs
  have hdq : (0 : ℚ) < d := by exact_mod_cast hd
  have n1q : ((2 : ℚ) ^ (bn - 1)) ≤ n := by exact_mod_cast n1
  have n2q : (n : ℚ) < (2 : ℚ) ^ bn := by exact_mod_cast n2
  have d1q : ((2 : ℚ) ^ (bd - 1)) ≤ d := by exact_mod_cast d1
  have d2q : (d : ℚ) < (2 : ℚ) ^ bd := by exact_mod_cast d2
  have ebn : (2 : ℚ) ^ bn = 2 * 2 ^ (bn - 1) := by
    have : bn = (bn - 1) + 1 := by omega
    conv_lhs => rw [this, pow_succ]
    ring
  have ebd : (2 : ℚ) ^ bd = 2 * 2 ^ (bd - 1) := by
    have : bd = (bd - 1) + 1 := by omega
    conv_lhs => rw [this, pow_succ]
    ring
  have p1 : (0 : ℚ) < 2 ^ (bn - 1) := by positivity
  have p2 : (0 : ℚ) < 2 ^ (bd - 1) := by positivity
  have hlow : pow2 ((bn : ℤ) - (bd : ℤ) - 1) ≤ |x| := by
    rw [habs, pow2_eq, le_div_iff₀ hdq]
    have e : (2 : ℚ) ^ ((bn : ℤ) - (bd : ℤ) - 1) = 2 ^ (bn - 1) / (2 * 2 ^ (bd - 1)) := by
      rw [← ebd]
      rw [eq_div_iff (by positivity)]
      rw [← zpow_natCast, ← zpow_natCast, ← zpow_add₀ (by norm_num)]
      congr 1
      push_cast [Nat.cast_sub (show 1 ≤ bn by omega)]
      ring
    rw [e, div_mul_eq_mul_div, div_le_iff₀ (by positivity)]
    nlinarith
  have hhigh : |x| < pow2 ((bn : ℤ) - (bd : ℤ) + 1) := by
    rw [habs, pow2_eq, div_lt_iff₀ hdq]
    have e : (2 : ℚ) ^ ((bn : ℤ) - (bd : ℤ) + 1) = 2 * 2 ^ (bn - 1) / 2 ^ (bd - 1) := by
      rw [← ebn]
      rw [eq_div_iff (by positivity)]
      rw [← zpow_natCast, ← zpow_natCast, ← zpow_add₀ (by norm_num)]
      congr 1
      push_cast [Nat.cast_sub (show 1 ≤ bd by omega)]
      ring
    rw [e, div_mul_eq_mul_div, lt_div_iff₀ (by positivity)]
    nlinarith
  unfold binaryExponent
  simp only [hbn, hbd]
  split_ifs with h
  · refine ⟨hlow, ?_⟩
    rw [sub_add_cancel]
    exact h
  · exact ⟨not_lt.mp h, hhigh⟩

theorem binaryExponent_unique (x : ℚ) (e : ℤ) (h1 : pow2 e ≤ |x|) (h2 : |x| < pow2 (e + 1)) :
    binaryExponent x = e := by
  have hx : x ≠ 0 := by
    intro h
    rw [h, abs_zero] at h1
    exact absurd (pow2_pos e) (not_lt.mpr h1)
  obtain ⟨s1, s2⟩ := binaryExponent_spec x hx
  by_contra hne
  rcases lt_or_gt_of_ne hne with h | h
  · have := pow2_le (binaryExponent x + 1) e (by omega)
    linarith
  · have := pow2_le (e + 1) (binaryExponent x) (by omega)
    linarith

theorem roundHalfEven_cases (q : ℚ) : roundHalfEven q = ⌊q⌋ ∨ roundHalfEven q = ⌊q⌋ + 1 := by
  unfold roundHalfEven
  split_ifs <;> simp

theorem roundHalfEven_error (q : ℚ) : |(roundHalfEven q : ℚ) - q| ≤ 1 / 2 := by
  have h1 := Int.floor_le q
  have h2 := Int.lt_floor_add_one q
  unfold roundHalfEven
  rw [abs_le]
  split_ifs with a b c
  · constructor <;> linarith
  · push_cast
    constructor <;> linarith
  · constructor <;> linarith
  · push_cast
    constructor <;> linarith

theorem roundHalfEven_intCast (n : ℤ) : roundHalfEven (n : ℚ) = n := by
  unfold roundHalfEven
  simp

theorem roundHalfEven_mono (p q : ℚ) (h : p ≤ q) : roundHalfEven p ≤ roundHalfEven q := by
  have hf : ⌊p⌋ ≤ ⌊q⌋ := Int.floor_mono h
  rcases lt_or_eq_of_le hf with hlt | heq
  · rcases roundHalfEven_cases p with hp | hp <;> rcases roundHalfEven_cases q with hq | hq <;>
      omega
  · unfold roundHalfEven
    rw [← heq]
    split_ifs <;> first | omega | (exfalso; linarith)

theorem roundHalfEven_neg (q : ℚ) : roundHalfEven (-q) = -roundHalfEven q := by
  by_cases hq : (⌊q⌋ : ℚ) = q
  · rw [← hq, ← Int.cast_neg, roundHalfEven_intCast, roundHalfEven_intCast]
  · have h1 := Int.floor_le q
    have h2 := Int.lt_floor_add_one q
    have h3 : (⌊q⌋ : ℚ) < q := lt_of_le_of_ne h1 hq
    have hfl : ⌊-q⌋ = -⌊q⌋ - 1 := by
      rw [Int.floor_eq_iff]
      push_cast
      constructor <;> linarith
    unfold roundHalfEven
    rw [hfl]
    push_cast
    split_ifs <;> first | omega | (exfalso; linarith)

/-- The scaled magnitude of a non-zero number lies in [2^52, 2^53). -/
theorem scaled_range (x : ℚ) (hx : x ≠ 0) :
    (2 : ℚ) ^ 52 ≤ |x| / pow2 (binaryExponent x - 52) ∧
      |x| / pow2 (binaryExponent x - 52) < (2 : ℚ) ^ 53 := by
  obtain ⟨h1, h2⟩ := binaryExponent_spec x hx
  have hs := pow2_pos (binaryExponent x - 52)
  have e1 : pow2 (binaryExponent x) = pow2 (binaryExponent x - 52) * 2 ^ 52 := by
    have := pow2_add (binaryExponent x - 52) 52
    rw [sub_add_cancel] at this
    rw [this]
    congr 1
  have e2 : pow2 (binaryExponent x + 1) = pow2 (binaryExponent x - 52) * 2 ^ 53 := by
    have := pow2_add (binaryExponent x - 52) 53
    have e : binaryExponent x - 52 + 53 = binaryExponent x + 1 := by ring
    rw [e] at this
    rw [this]
    congr 1
  rw [le_div_iff₀ hs, div_lt_iff₀ hs]
  constructor
  · rw [e1] at h1
    linarith
  · rw [e2] at h2
    linarith

theorem toDouble_zero : toDouble 0 = 0 := by
  unfold toDouble
  simp

theorem toDouble_eq (x : ℚ) (hx : x ≠ 0) :
    toDouble x =
      roundHalfEven (x / pow2 (binaryExponent x - 52)) * pow2 (binaryExponent x - 52) := by
  unfold toDouble
  rw [if_neg hx]

theorem binaryExponent_neg (x : ℚ) : binaryExponent (-x) = binaryExponent x := by
  unfold binaryExponent
  simp

theorem toDouble_neg (x : ℚ) : toDouble (-x) = -toDouble x := by
  by_cases hx : x = 0
  · rw [hx]
    simp [toDouble_zero]
  · rw [toDouble_eq x hx, toDouble_eq (-x) (neg_ne_zero.mpr hx), binaryExponent_neg, neg_div,
      roundHalfEven_neg]
    push_cast
    ring

/-- A positive number rounds to a number between the powers of two around it. -/
theorem toDouble_binade (x : ℚ) (hx : 0 < x) :
    pow2 (binaryExponent x) ≤ toDouble x ∧ toDouble x ≤ pow2 (binaryExponent x + 1) := by
  have hx0 : x ≠ 0 := ne_of_gt hx
  obtain ⟨h1, h2⟩ := scaled_range x hx0
  rw [abs_of_pos hx] at h1 h2
  have hs := pow2_pos (binaryExponent x - 52)
  have e1 : pow2 (binaryExponent x) = ((2 ^ 52 : ℤ) : ℚ) * pow2 (binaryExponent x - 52) := by
    have := pow2_add (binaryExponent x - 52) 52
    rw [sub_add_cancel] at this
    rw [this, mul_comm]
    congr 1
  have e2 : pow2 (binaryExponent x + 1) = ((2 ^ 53 : ℤ) : ℚ) * pow2 (binaryExponent x - 52) := by
    have := pow2_add (binaryExponent x - 52) 53
    have e : binaryExponent x - 52 + 53 = binaryExponent x + 1 := by ring
    rw [e] at this
    rw [this, mul_comm]
    congr 1
  have m1 : (2 ^ 52 : ℤ) ≤ roundHalfEven (x / pow2 (binaryExponent x - 52)) := by
    have := roundHalfEven_mono ((2 ^ 52 : ℤ) : ℚ) _ (by push_cast; exact h1)
    rwa [roundHalfEven_intCast] at this
  have m2 : roundHalfEven (x / pow2 (binaryExponent x - 52)) ≤ (2 ^ 53 : ℤ) := by
    have := roundHalfEven_mono _ ((2 ^ 53 : ℤ) : ℚ) (by push_cast; exact le_of_lt h2)
    rwa [roundHalfEven_intCast] at this
  rw [toDouble_eq x hx0, e1, e2]
  constructor
  · exact mul_le_mul_of_nonneg_right (by exact_mod_cast m1) (le_of_lt hs)
  · exact mul_le_mul_of_nonneg_right (by exact_mod_cast m2) (le_of_lt hs)

theorem toDouble_pos (x : ℚ) (hx : 0 < x) : 0 < toDouble x :=
  lt_of_lt_of_le (pow2_pos _) (toDouble_binade x hx).1

theorem toDouble_nonneg (x : ℚ) (hx : 0 ≤ x) : 0 ≤ toDouble x := by
  rcases eq_or_lt_of_le hx with h | h
  · rw [← h, toDouble_zero]
  · exact le_of_lt (toDouble_pos x h)

theorem toDouble_neg_of_neg (x : ℚ) (hx : x < 0) : toDouble x < 0 := by
  have := toDouble_pos (-x) (by linarith)
  rw [toDouble_neg] at this
  linarith

theorem toDouble_nonpos (x : ℚ) (hx : x ≤ 0) : toDouble x ≤ 0 := by
  rcases eq_or_lt_of_le hx with h | h
  · rw [h, toDouble_zero]
  · exact le_of_lt (toDouble_neg_of_neg x h)

theorem toDouble_eq_zero (x : ℚ) : toDouble x = 0 ↔ x = 0 := by
  constructor
  · intro h
    by_contra hx
    rcases lt_or_gt_of_ne hx with h1 | h1
    · exact absurd h (ne_of_lt (toDouble_neg_of_neg x h1))
    · exact absurd h (ne_of_gt (toDouble_pos x h1))
  · intro h
    rw [h, toDouble_zero]

theorem toDouble_pos_iff (x : ℚ) : 0 < toDouble x ↔ 0 < x := by
  constructor
  · intro h
    by_contra hx
    exact absurd h (not_lt.mpr (toDouble_nonpos x (not_lt.mp hx)))
  · exact toDouble_pos x

/-- Rounding is monotone on positive numbers. -/
theorem toDouble_mono_pos (x y : ℚ) (hx : 0 < x) (h : x ≤ y) : toDouble x ≤ toDouble y := by
  have hy : 0 < y := lt_of_lt_of_le hx h
  obtain ⟨x1, x2⟩ := binaryExponent_spec x (ne_of_gt hx)
  obtain ⟨y1, y2⟩ := binaryExponent_spec y (ne_of_gt hy)
  rw [abs_of_pos hx] at x1 x2
  rw [abs_of_pos hy] at y1 y2
  have hle : binaryExponent x ≤ binaryExponent y := by
    by_contra hc
    push_neg at hc
    have := pow2_le (binaryExponent y + 1) (binaryExponent x) (by omega)
    linarith
  rcases lt_or_eq_of_le hle with hlt | heq
  · have := pow2_le (binaryExponent x + 1) (binaryExponent y) (by omega)
    exact le_trans (toDouble_binade x hx).2 (le_trans this (toDouble_binade y hy).1)
  · rw [toDouble_eq x (ne_of_gt hx), toDouble_eq y (ne_of_gt hy), heq]
    have hs := pow2_pos (binaryExponent y - 52)
    apply mul_le_mul_of_nonneg_right _ (le_of_lt hs)
    have := roundHalfEven_mono (x / pow2 (binaryExponent y - 52))
      (y / pow2 (binaryExponent y - 52)) (div_le_div_of_nonneg_right h (le_of_lt hs))
    exact_mod_cast this

/-- Rounding to the nearest double is monotone. -/
theorem toDouble_mono (x y : ℚ) (h : x ≤ y) : toDouble x ≤ toDouble y := by
  rcases lt_trichotomy x 0 with hx | hx | hx
  · rcases lt_or_le y 0 with hy | hy
    · have := toDouble_mono_pos (-y) (-x) (by linarith) (by linarith)
      rw [toDouble_neg, toDouble_neg] at this
      linarith
    · exact le_trans (le_of_lt (toDouble_neg_of_neg x hx)) (toDouble_nonneg y hy)
  · rw [hx, toDouble_zero]
    exact toDouble_nonneg y (by rw [← hx]; exact h)
  · exact toDouble_mono_pos x y hx h

/-- The relative error of rounding is at most 2^-53. -/
theorem toDouble_error (x : ℚ) : |toDouble x - x| ≤ |x| / 2 ^ 53 := by
  by_cases hx : x = 0
  · rw [hx, toDouble_zero]
    simp
  · obtain ⟨h1, _⟩ := scaled_range x hx
    have hs := pow2_pos (binaryExponent x - 52)
    have he := roundHalfEven_error (x / pow2 (binaryExponent x - 52))
    have e : toDouble x - x =
        ((roundHalfEven (x / pow2 (binaryExponent x - 52)) : ℚ) -
          x / pow2 (binaryExponent x - 52)) * pow2 (binaryExponent x - 52) := by
      rw [toDouble_eq x hx]
      field_simp
    rw [e, abs_mul, abs_of_pos hs]
    rw [le_div_iff₀ hs] at h1
    have : |(roundHalfEven (x / pow2 (binaryExponent x - 52)) : ℚ) -
        x / pow2 (binaryExponent x - 52)| * pow2 (binaryExponent x - 52) ≤
        1 / 2 * pow2 (binaryExponent x - 52) :=
      mul_le_mul_of_nonneg_right he (le_of_lt hs)
    rw [le_div_iff₀ (by positivity)]
    nlinarith

/-- A number of the form m * 2^(e - 52) with 2^52 ≤ |m| ≤ 2^53 is a double. -/
theorem toDouble_of_scaled (m e : ℤ) (h1 : (2 : ℤ) ^ 52 ≤ |m|) (h2 : |m| ≤ (2 : ℤ) ^ 53) :
    toDouble (m * pow2 (e - 52)) = m * pow2 (e - 52) := by
  have hs := pow2_pos (e - 52)
  have hm0 : m ≠ 0 := by
    intro h
    rw [h] at h1
    norm_num at h1
  have hx0 : (m : ℚ) * pow2 (e - 52) ≠ 0 :=
    mul_ne_zero (by exact_mod_cast hm0) (ne_of_gt hs)
  have habs : |(m : ℚ) * pow2 (e - 52)| = (|m| : ℤ) * pow2 (e - 52) := by
    rw [abs_mul, abs_of_pos hs]
    push_cast
    rfl
  have e1 : pow2 e = ((2 ^ 52 : ℤ) : ℚ) * pow2 (e - 52) := by
    have := pow2_add (e - 52) 52
    rw [sub_add_cancel] at this
    rw [this, mul_comm]
    congr 1
  have e2 : pow2 (e + 1) = ((2 ^ 53 : ℤ) : ℚ) * pow2 (e - 52) := by
    have := pow2_add (e - 52) 53
    have e' : e - 52 + 53 = e + 1 := by ring
    rw [e'] at this
    rw [this, mul_comm]
    congr 1
  rcases lt_or_eq_of_le h2 with hlt | heq
  · have hexp : binaryExponent ((m : ℚ) * pow2 (e - 52)) = e := by
      apply binaryExponent_unique
      · rw [habs, e1]
        exact mul_le_mul_of_nonneg_right (by exact_mod_cast h1) (le_of_lt hs)
      · rw [habs, e2]
        exact mul_lt_mul_of_pos_right (by exact_mod_cast hlt) hs
    rw [toDouble_eq _ hx0, hexp, mul_div_assoc, div_self (ne_of_gt hs), mul_one,
      roundHalfEven_intCast]
  · have hs' := pow2_pos (e + 1 - 52)
    have e3 : pow2 (e - 52) = pow2 (e + 1 - 52) / 2 := by
      have := pow2_add (e - 52) 1
      have e' : e - 52 + 1 = e + 1 - 52 := by ring
      rw [e'] at this
      rw [this]
      have : pow2 1 = 2 := by decide!
      rw [this]
      ring
    have e4 : pow2 (e + 1 + 1) = ((2 ^ 54 : ℤ) : ℚ) * pow2 (e - 52) := by
      have := pow2_add (e - 52) 54
      have e' : e - 52 + 54 = e + 1 + 1 := by ring
      rw [e'] at this
      rw [this, mul_comm]
      congr 1
    have hexp : binaryExponent ((m : ℚ) * pow2 (e - 52)) = e + 1 := by
      apply binaryExponent_unique
      · rw [habs, e2, heq]
      · rw [habs, e4, heq]
        exact mul_lt_mul_of_pos_right (by norm_num) hs
    have hm2 : ∃ k : ℤ, m = 2 * k := by
      rcases abs_choice m with h | h
      · exact ⟨2 ^ 52, by rw [h] at heq; rw [heq]; norm_num⟩
      · exact ⟨-2 ^ 52, by rw [h] at heq; have : m = -(2 ^ 53) := by omega
                           rw [this]; norm_num⟩
    obtain ⟨k, hk⟩ := hm2
    have hq : (m : ℚ) * pow2 (e - 52) / pow2 (e + 1 - 52) = (k : ℤ) := by
      rw [e3, hk]
      field_simp
      ring
    rw [toDouble_eq _ hx0, hexp, hq, roundHalfEven_intCast, e3, hk]
    push_cast
    ring

/-- Rounding a rounded number changes nothing. -/
theorem toDouble_idem (x : ℚ) : toDouble (toDouble x) = toDouble x := by
  by_cases hx : x = 0
  · rw [hx, toDouble_zero, toDouble_zero]
  · obtain ⟨h1, h2⟩ := scaled_range x hx
    have hs := pow2_pos (binaryExponent x - 52)
    rw [toDouble_eq x hx]
    apply toDouble_of_scaled
    · rcases lt_or_gt_of_ne hx with hneg | hpos
      · have hq : x / pow2 (binaryExponent x - 52) ≤ ((-(2 ^ 52) : ℤ) : ℚ) := by
          rw [abs_of_neg hneg, neg_div] at h1
          push_cast
          linarith
        have := roundHalfEven_mono _ _ hq
        rw [roundHalfEven_intCast] at this
        rw [abs_of_nonpos (by omega)]
        omega
      · have hq : (((2 ^ 52) : ℤ) : ℚ) ≤ x / pow2 (binaryExponent x - 52) := by
          rw [abs_of_pos hpos] at h1
          push_cast
          linarith
        have := roundHalfEven_mono _ _ hq
        rw [roundHalfEven_intCast] at this
        rw [abs_of_nonneg (by omega)]
        omega
    · rcases lt_or_gt_of_ne hx with hneg | hpos
      · have hq : ((-(2 ^ 53) : ℤ) : ℚ) ≤ x / pow2 (binaryExponent x - 52) := by
          rw [abs_of_neg hneg, neg_div] at h2
          push_cast
          linarith
        have hq' : x / pow2 (binaryExponent x - 52) ≤ ((0 : ℤ) : ℚ) := by
          push_cast
          exact div_nonpos_of_nonpos_of_nonneg (le_of_lt hneg) (le_of_lt hs)
        have := roundHalfEven_mono _ _ hq
        have h0 := roundHalfEven_mono _ _ hq'
        rw [roundHalfEven_intCast] at this h0
        rw [abs_of_nonpos h0]
        omega
      · have hq : x / pow2 (binaryExponent x - 52) ≤ (((2 ^ 53) : ℤ) : ℚ) := by
          rw [abs_of_pos hpos] at h2
          push_cast
          linarith
        have hq' : ((0 : ℤ) : ℚ) ≤ x / pow2 (binaryExponent x - 52) := by
          push_cast
          exact div_nonneg (le_of_lt hpos) (le_of_lt hs)
        have := roundHalfEven_mono _ _ hq
        have h0 := roundHalfEven_mono _ _ hq'
        rw [roundHalfEven_intCast] at this h0
        rw [abs_of_nonneg h0]
        omega

theorem isValidPrice_iff (p : ℚ) :
    isValidPrice p = true ↔ (p = 0 ∨ 1 / 10 ^ 6 ≤ p) ∧ p ≤ 100000 := by
  unfold isValidPrice toStringHasE
  simp only [Bool.and_eq_true, Bool.not_eq_true', Bool.and_eq_false_iff,
    Bool.or_eq_false_iff, decide_eq_true_eq, decide_eq_false_iff_not, ge_iff_le]
  constructor
  · rintro ⟨⟨h0, h1⟩, h2⟩
    refine ⟨?_, h1⟩
    rcases h2 with h2 | ⟨h2, _⟩
    · left; simpa using h2
    · right
      rw [abs_of_nonneg h0] at h2
      exact not_lt.mp h2
  · rintro ⟨h | h, h1⟩
    · subst h
      simp
    · have h0 : (0 : ℚ) ≤ p := le_trans (by norm_num) h
      refine ⟨⟨h0, h1⟩, Or.inr ⟨?_, ?_⟩⟩
      · rw [abs_of_nonneg h0]; exact not_lt.mpr h
      · rw [abs_of_nonneg h0]
        have : p < (10 : ℚ) ^ 21 := lt_of_le_of_lt h1 (by norm_num)
        exact not_le.mpr this

theorem foldl_max_mem (rest : List FoundPrice) (first : FoundPrice) :
    rest.foldl (fun max current => if current.price > max.price then current else max) first
      ∈ first :: rest := by
  induction rest generalizing first with
  | nil => simp
  | cons x xs ih =>
    simp only [List.foldl_cons]
    have h := ih (if x.price > first.price then x else first)
    rcases List.mem_cons.mp h with h | h
    · rw [h]
      split_ifs <;> simp
    · exact List.mem_cons_of_mem _ (List.mem_cons_of_mem _ h)

theorem head?_filter_mem {α : Type} (p : α → Bool) (l : List α) (x : α)
    (h : (l.filter p).head? = some x) : x ∈ l :=
  (List.mem_filter.mp (List.mem_of_mem_head? h)).1

/-- The candidate chosen by `selectBestPrice` is one of the candidates. -/
theorem selectBestPrice_mem (foundPrices : List FoundPrice) (category : Category)
    (s : FoundPrice) (h : selectBestPrice foundPrices category = some s) :
    s ∈ foundPrices := by
  unfold selectBestPrice at h
  split at h
  · simp only [Option.some.injEq] at h
    simp [h]
  · simp only at h
    generalize hcf : (if (foundPrices.filter
          (fun p => isContextRelevant p.context category)).length = 0 then foundPrices
          else foundPrices.filter (fun p => isContextRelevant p.context category)) = cf at h
    have hsub : ∀ x, x ∈ cf → x ∈ foundPrices := by
      intro x hx
      rw [← hcf] at hx
      split_ifs at hx
      · exact hx
      · exact (List.mem_filter.mp hx).1
    split at h
    · split at h
      · exact absurd h (by simp)
      · next first rest =>
        simp only [Option.some.injEq] at h
        apply hsub
        rw [← h]
        exact foldl_max_mem rest first
    · split_ifs at h
      · exact hsub _ (head?_filter_mem _ _ _ h)
      · exact hsub _ (List.mem_of_mem_head? h)
    · split_ifs at h
      · exact hsub _ (head?_filter_mem _ _ _ h)
      · exact hsub _ (List.mem_of_mem_head? h)

theorem foundIn_keeps (category : Category) (method : Method) (elements : List ElementView)
    (s : FoundPrice) (h : s ∈ foundIn category method elements) :
    keepsPrice category s.price = true := by
  unfold foundIn at h
  obtain ⟨e, he, rfl⟩ := List.mem_map.mp h
  exact (List.mem_filter.mp he).2

theorem collectPrices_keeps (page : Page) (category : Category) (s : FoundPrice)
    (h : s ∈ collectPrices page category) : keepsPrice category s.price = true := by
  unfold collectPrices at h
  simp only at h
  split_ifs at h
  · obtain ⟨_, _, hs⟩ := List.mem_flatMap.mp h
    exact foundIn_keeps _ _ _ _ hs
  · obtain ⟨_, _, hs⟩ := List.mem_flatMap.mp h
    exact foundIn_keeps _ _ _ _ hs

theorem findPrice_fst (page : Page) (category : Category) (label : String) (pd : PriceData) :
    (findPrice page category label pd).1 = selectedValue page category := by
  unfold findPrice selectedValue selectedCandidate
  simp only
  generalize (if (collectPrices page category).length > 0 then
    selectBestPrice (collectPrices page category) category else none) = sel
  cases sel with
  | none => rfl
  | some s =>
    simp only [Option.map_some']
    split_ifs <;> rfl

/-- The value returned by `findPrice` is 0 or passed the keep test. -/
theorem selectedValue_keeps (page : Page) (category : Category) :
    selectedValue page category = 0 ∨
      keepsPrice category (selectedValue page category) = true := by
  unfold selectedValue
  cases hsel : selectedCandidate page category with
  | none => left; rfl
  | some s =>
    right
    unfold selectedCandidate at hsel
    split_ifs at hsel
    exact collectPrices_keeps page category s (selectBestPrice_mem _ _ _ hsel)

/-- The method `findPrice` changes no field of `priceData` other than `breakdown`. -/
theorem findPrice_snd (page : Page) (category : Category) (label : String) (pd : PriceData) :
    ∃ bd, (findPrice page category label pd).2 = { pd with breakdown := bd } := by
  unfold findPrice
  simp only
  generalize (if (collectPrices page category).length > 0 then
    selectBestPrice (collectPrices page category) category else none) = sel
  cases sel with
  | none => exact ⟨pd.breakdown, rfl⟩
  | some s =>
    simp only [Option.map_some']
    split_ifs
    · exact ⟨_, rfl⟩
    · exact ⟨pd.breakdown, rfl⟩

/-- The method `findPrice` in closed form: the selected value, and `priceData` with the
pushed entry appended to `breakdown`. -/
theorem findPrice_eq (page : Page) (category : Category) (label : String) (pd : PriceData) :
    findPrice page category label pd =
      (selectedValue page category,
        { pd with breakdown := pd.breakdown ++ breakdownEntries page category label }) := by
  unfold findPrice selectedValue breakdownEntries selectedCandidate
  simp only
  generalize (if (collectPrices page category).length > 0 then
    selectBestPrice (collectPrices page category) category else none) = sel
  cases sel with
  | none => simp
  | some s =>
    simp only [Option.map_some']
    split_ifs <;> simp

/-! ## Double-precision arithmetic -/

theorem toDouble_le (x c : ℚ) (h : x ≤ c) (hc : toDouble c = c) : toDouble x ≤ c := by
  rw [← hc]
  exact toDouble_mono x c h

theorem le_toDouble (x c : ℚ) (h : c ≤ x) (hc : toDouble c = c) : c ≤ toDouble x := by
  rw [← hc]
  exact toDouble_mono c x h

theorem toDouble_fadd (a b : ℚ) : toDouble (fadd a b) = fadd a b := toDouble_idem _

theorem toDouble_fsub (a b : ℚ) : toDouble (fsub a b) = fsub a b := toDouble_idem _

theorem toDouble_fmul (a b : ℚ) : toDouble (fmul a b) = fmul a b := toDouble_idem _

theorem toDouble_fdiv (a b : ℚ) : toDouble (fdiv a b) = fdiv a b := toDouble_idem _

theorem fadd_zero (a : ℚ) : fadd a 0 = toDouble a := by
  unfold fadd
  rw [toDouble_zero, add_zero, toDouble_idem]

theorem zero_fadd (a : ℚ) : fadd 0 a = toDouble a := by
  unfold fadd
  rw [toDouble_zero, zero_add, toDouble_idem]

theorem fsub_zero (a : ℚ) : fsub a 0 = toDouble a := by
  unfold fsub
  rw [toDouble_zero, sub_zero, toDouble_idem]

theorem fdiv_zero_left (b : ℚ) : fdiv 0 b = 0 := by
  unfold fdiv
  rw [toDouble_zero, zero_div, toDouble_zero]

theorem fmul_zero_left (b : ℚ) : fmul 0 b = 0 := by
  unfold fmul
  rw [toDouble_zero, zero_mul, toDouble_zero]

theorem fadd_nonneg (a b : ℚ) (ha : 0 ≤ a) (hb : 0 ≤ b) : 0 ≤ fadd a b :=
  toDouble_nonneg _ (add_nonneg (toDouble_nonneg a ha) (toDouble_nonneg b hb))

theorem fmul_nonneg (a b : ℚ) (ha : 0 ≤ a) (hb : 0 ≤ b) : 0 ≤ fmul a b :=
  toDouble_nonneg _ (mul_nonneg (toDouble_nonneg a ha) (toDouble_nonneg b hb))

theorem fdiv_nonneg (a b : ℚ) (ha : 0 ≤ a) (hb : 0 ≤ b) : 0 ≤ fdiv a b :=
  toDouble_nonneg _ (div_nonneg (toDouble_nonneg a ha) (toDouble_nonneg b hb))

theorem fadd_mono (a b c d : ℚ) (h1 : a ≤ c) (h2 : b ≤ d) : fadd a b ≤ fadd c d :=
  toDouble_mono _ _ (add_le_add (toDouble_mono a c h1) (toDouble_mono b d h2))

/-- A double-precision sum is at most a double that bounds the exact sum of
bounds of its operands. -/
theorem fadd_le (a b x y c : ℚ) (ha : a ≤ x) (hb : b ≤ y) (hx : toDouble x = x)
    (hy : toDouble y = y) (hc : toDouble c = c) (h : x + y ≤ c) : fadd a b ≤ c :=
  toDouble_le _ _ (le_trans (add_le_add (toDouble_le a x ha hx) (toDouble_le b y hb hy)) h) hc

/-- A double-precision sum is at least each operand, for operands that are
not negative. -/
theorem le_fadd_left (a b : ℚ) (hb : 0 ≤ b) : toDouble a ≤ fadd a b := by
  have h := toDouble_mono (toDouble a) (toDouble a + toDouble b)
    (by linarith [toDouble_nonneg b hb])
  rwa [toDouble_idem] at h

theorem le_fadd_right (a b : ℚ) (ha : 0 ≤ a) : toDouble b ≤ fadd a b := by
  have h := toDouble_mono (toDouble b) (toDouble a + toDouble b)
    (by linarith [toDouble_nonneg a ha])
  rwa [toDouble_idem] at h

/-- The fields of `priceData` after `extractPrices`, in terms of the five
values returned by `findPrice`. -/
theorem extractPrices_eq (page : Page) (pd : PriceData) :
    extractPrices page pd =
      { pd with
        basePrice :=
          if selectedValue page .basePrice = 0 ∧ selectedValue page .total > 0 then
            fsub (fsub (fsub (selectedValue page .total) (selectedValue page .deliveryFee))
              (selectedValue page .convenienceFee)) (selectedValue page .taxes)
          else selectedValue page .basePrice
        deliveryFee := selectedValue page .deliveryFee
        convenienceFee := selectedValue page .convenienceFee
        taxes := selectedValue page .taxes
        total := selectedValue page .total
        breakdown := pd.breakdown ++ breakdownEntries page .basePrice "Base Price" ++
          breakdownEntries page .deliveryFee "Delivery Fee" ++
          breakdownEntries page .convenienceFee "Convenience Fee" ++
          breakdownEntries page .taxes "Taxes" ++
          breakdownEntries page .total "Total" } := by
  unfold extractPrices
  simp only [findPrice_eq]
  split_ifs <;> rfl

/-! ## Reconciliation: the validated fields -/

theorem validatePrices_basePrice (pd : PriceData) :
    (validatePrices pd).basePrice = if isValidPrice pd.basePrice then pd.basePrice else 0 :=
  rfl

theorem validatePrices_taxes (pd : PriceData) :
    (validatePrices pd).taxes = if isValidPrice pd.taxes then pd.taxes else 0 := rfl

theorem validatePrices_otherFees (pd : PriceData) :
    (validatePrices pd).otherFees = if isValidPrice pd.otherFees then pd.otherFees else 0 :=
  rfl

theorem validatePrices_total (pd : PriceData) :
    (validatePrices pd).total = if isValidPrice pd.total then pd.total else 0 := rfl

theorem validatePrices_deliveryFee (pd : PriceData) :
    (validatePrices pd).deliveryFee =
      if (validatePrices pd).basePrice > 0 then
        (if toDouble (if isValidPrice pd.deliveryFee then pd.deliveryFee else 0) >
            fmul (validatePrices pd).basePrice 0.5 then 0
         else (if isValidPrice pd.deliveryFee then pd.deliveryFee else 0))
      else (if isValidPrice pd.deliveryFee then pd.deliveryFee else 0) := rfl

theorem validatePrices_convenienceFee (pd : PriceData) :
    (validatePrices pd).convenienceFee =
      if (validatePrices pd).basePrice > 0 then
        (if toDouble (if isValidPrice pd.convenienceFee then pd.convenienceFee else 0) >
            fmul (validatePrices pd).basePrice 0.2 then 0
         else (if isValidPrice pd.convenienceFee then pd.convenienceFee else 0))
      else (if isValidPrice pd.convenienceFee then pd.convenienceFee else 0) := rfl

theorem validatePrices_hiddenCharges (pd : PriceData) :
    (validatePrices pd).hiddenCharges = pd.hiddenCharges := rfl

theorem validatePrices_hiddenPercentage (pd : PriceData) :
    (validatePrices pd).hiddenPercentage = pd.hiddenPercentage := rfl

theorem validatePrices_rest (pd : PriceData) :
    (validatePrices pd).currency = pd.currency ∧ (validatePrices pd).site = pd.site ∧
      (validatePrices pd).breakdown = pd.breakdown := ⟨rfl, rfl, rfl⟩

/-- The steps after validation leave the five searched fields, the currency,
the site and the breakdown as they are. -/
theorem afterValidation_fields (pd : PriceData) :
    (imputeOtherFees (capPercentage (sumHiddenCharges pd))).basePrice = pd.basePrice ∧
    (imputeOtherFees (capPercentage (sumHiddenCharges pd))).deliveryFee = pd.deliveryFee ∧
    (imputeOtherFees (capPercentage (sumHiddenCharges pd))).convenienceFee
      = pd.convenienceFee ∧
    (imputeOtherFees (capPercentage (sumHiddenCharges pd))).taxes = pd.taxes ∧
    (imputeOtherFees (capPercentage (sumHiddenCharges pd))).total = pd.total ∧
    (imputeOtherFees (capPercentage (sumHiddenCharges pd))).currency = pd.currency ∧
    (imputeOtherFees (capPercentage (sumHiddenCharges pd))).site = pd.site ∧
    (imputeOtherFees (capPercentage (sumHiddenCharges pd))).breakdown = pd.breakdown := by
  unfold imputeOtherFees capPercentage sumHiddenCharges
  simp only
  split_ifs <;> simp

theorem calculateHiddenCharges_basePrice (pd : PriceData) :
    (calculateHiddenCharges pd).basePrice =
      if isValidPrice pd.basePrice then pd.basePrice else 0 :=
  (afterValidation_fields (validatePrices pd)).1

theorem calculateHiddenCharges_deliveryFee (pd : PriceData) :
    (calculateHiddenCharges pd).deliveryFee = (validatePrices pd).deliveryFee :=
  (afterValidation_fields (validatePrices pd)).2.1

theorem calculateHiddenCharges_convenienceFee (pd : PriceData) :
    (calculateHiddenCharges pd).convenienceFee = (validatePrices pd).convenienceFee :=
  (afterValidation_fields (validatePrices pd)).2.2.1

theorem calculateHiddenCharges_taxes (pd : PriceData) :
    (calculateHiddenCharges pd).taxes = if isValidPrice pd.taxes then pd.taxes else 0 :=
  (afterValidation_fields (validatePrices pd)).2.2.2.1

theorem calculateHiddenCharges_total (pd : PriceData) :
    (calculateHiddenCharges pd).total = if isValidPrice pd.total then pd.total else 0 :=
  (afterValidation_fields (validatePrices pd)).2.2.2.2.1

/-- The suppression test on a clamped fee: the clamp matters only when the
test fails. -/
theorem suppression_clamped (fee threshold : ℚ) (ht : 0 ≤ threshold) :
    (if toDouble (if isValidPrice fee then fee else 0) > threshold then 0
      else (if isValidPrice fee then fee else 0)) =
    (if toDouble fee > threshold then 0 else if isValidPrice fee then fee else 0) := by
  by_cases hv : isValidPrice fee = true
  · simp only [hv, if_true]
  · have h0 : isValidPrice fee = false := Bool.eq_false_iff.mpr hv
    simp only [h0, Bool.false_eq_true, if_false, toDouble_zero]
    rw [if_neg (not_lt.mpr ht)]
    split_ifs <;> rfl

/-- C5 (as amended). Outlier suppression: for a valid base price above 0, the
emitted delivery fee is 0 when the input delivery fee, as a double, exceeds
the double-precision product basePrice * 0.5, and is the clamped input
otherwise; the same holds for the convenience fee with the double-precision
product basePrice * 0.2. -/
theorem outlier_suppression (pd : PriceData)
    (hvalid : isValidPrice pd.basePrice = true) (hpos : pd.basePrice > 0) :
    (calculateHiddenCharges pd).deliveryFee =
        (if toDouble pd.deliveryFee > fmul pd.basePrice 0.5 then 0
         else if isValidPrice pd.deliveryFee then pd.deliveryFee else 0) ∧
    (calculateHiddenCharges pd).convenienceFee =
        (if toDouble pd.convenienceFee > fmul pd.basePrice 0.2 then 0
         else if isValidPrice pd.convenienceFee then pd.convenienceFee else 0) := by
  rw [calculateHiddenCharges_deliveryFee, calculateHiddenCharges_convenienceFee,
    validatePrices_deliveryFee, validatePrices_convenienceFee, validatePrices_basePrice]
  simp only [hvalid, if_true, hpos]
  exact ⟨suppression_clamped _ _ (fmul_nonneg _ _ (le_of_lt hpos) (by norm_num)),
    suppression_clamped _ _ (fmul_nonneg _ _ (le_of_lt hpos) (by norm_num))⟩

/-- C5 (as amended), the instance of the specification: basePrice = 1000 and
deliveryFee = 600 give an emitted deliveryFee of 0. -/
theorem outlier_suppression_witness :
    (calculateHiddenCharges
      { resetPriceData "shop.example" with basePrice := 1000, deliveryFee := 600 }).deliveryFee
      = 0 := by
  have h := (outlier_suppression
    { resetPriceData "shop.example" with basePrice := 1000, deliveryFee := 600 }
    (by decide!) (by norm_num)).1
  rw [h]
  decide!

/-- C5, counterexample. At a base price of 129.70 the convenience fee 25.94
does not exceed 0.2 * 129.70 = 25.94, and it is a valid price, yet the
emitted convenience fee is 0: the double-precision product 129.7 * 0.2 is
25.939999999999998, which is below the double 25.94. -/
theorem outlier_suppression_counterexample :
    ¬ ((25.94 : ℚ) > 0.2 * 129.7) ∧
    isValidPrice 25.94 = true ∧
    fmul 129.7 0.2 = toDouble 25.939999999999998 ∧
    toDouble 25.94 > fmul 129.7 0.2 ∧
    (calculateHiddenCharges tieFeeBasket).basePrice = 129.7 ∧
    (calculateHiddenCharges tieFeeBasket).convenienceFee = 0 := by
  decide!

/-! ## What an analysis pass feeds to the reconciliation -/

theorem keepsPrice_valid (category : Category) (p : ℚ) (h : keepsPrice category p = true) :
    isValidPrice p = true ∧ 1 / 100 ≤ p ∧ p ≤ 100000 := by
  unfold keepsPrice isReasonablePrice at h
  simp only [Bool.and_eq_true, decide_eq_true_eq] at h
  obtain ⟨⟨hv, _⟩, hr⟩ := h
  refine ⟨hv, ?_⟩
  split_ifs at hr with hc
  push_neg at hc
  norm_num at hc
  exact hc

theorem keepsPrice_upper (category : Category) (p : ℚ) (h : keepsPrice category p = true) :
    (category = .basePrice → 1 ≤ p ∧ p ≤ 50000) ∧
    (category = .deliveryFee → p ≤ 500) ∧
    (category = .convenienceFee → p ≤ 200) ∧
    (category = .taxes → p ≤ 5000) ∧
    (category = .total → 1 ≤ p) := by
  unfold keepsPrice isReasonablePrice at h
  simp only [Bool.and_eq_true, decide_eq_true_eq] at h
  obtain ⟨_, hr⟩ := h
  split_ifs at hr with hc
  cases category <;> simp_all

theorem selectedValue_deliveryFee (page : Page) :
    ZeroOrWithin (selectedValue page .deliveryFee) 500 := by
  rcases selectedValue_keeps page .deliveryFee with h | h
  · exact Or.inl h
  · exact Or.inr ⟨(keepsPrice_valid _ _ h).2.1, (keepsPrice_upper _ _ h).2.1 rfl⟩

theorem selectedValue_convenienceFee (page : Page) :
    ZeroOrWithin (selectedValue page .convenienceFee) 200 := by
  rcases selectedValue_keeps page .convenienceFee with h | h
  · exact Or.inl h
  · exact Or.inr ⟨(keepsPrice_valid _ _ h).2.1, (keepsPrice_upper _ _ h).2.2.1 rfl⟩

theorem selectedValue_taxes (page : Page) :
    ZeroOrWithin (selectedValue page .taxes) 5000 := by
  rcases selectedValue_keeps page .taxes with h | h
  · exact Or.inl h
  · exact Or.inr ⟨(keepsPrice_valid _ _ h).2.1, (keepsPrice_upper _ _ h).2.2.2.1 rfl⟩

theorem selectedValue_total (page : Page) :
    selectedValue page .total = 0 ∨
      (1 ≤ selectedValue page .total ∧ selectedValue page .total ≤ 100000) := by
  rcases selectedValue_keeps page .total with h | h
  · exact Or.inl h
  · exact Or.inr ⟨(keepsPrice_upper _ _ h).2.2.2.2 rfl, (keepsPrice_valid _ _ h).2.2⟩

theorem selectedValue_basePrice (page : Page) :
    selectedValue page .basePrice = 0 ∨
      (1 ≤ selectedValue page .basePrice ∧ selectedValue page .basePrice ≤ 50000) := by
  rcases selectedValue_keeps page .basePrice with h | h
  · exact Or.inl h
  · exact Or.inr ((keepsPrice_upper _ _ h).1 rfl)

theorem isValidPrice_of_within (x ub : ℚ) (h : ZeroOrWithin x ub) (hub : ub ≤ 100000) :
    isValidPrice x = true := by
  rw [isValidPrice_iff]
  rcases h with h | ⟨h1, h2⟩
  · exact ⟨Or.inl h, by rw [h]; norm_num⟩
  · exact ⟨Or.inr (le_trans (by norm_num) h1), le_trans h2 hub⟩

theorem validatePrices_deliveryFee_cases (pd : PriceData) :
    (validatePrices pd).deliveryFee = 0 ∨
      (isValidPrice pd.deliveryFee = true ∧ (validatePrices pd).deliveryFee = pd.deliveryFee) := by
  rw [validatePrices_deliveryFee]
  by_cases h : isValidPrice pd.deliveryFee = true
  · simp only [h, if_true]
    split_ifs <;> simp
  · have h0 : isValidPrice pd.deliveryFee = false := Bool.eq_false_iff.mpr h
    simp only [h0, Bool.false_eq_true, if_false]
    left
    split_ifs <;> rfl

theorem validatePrices_convenienceFee_cases (pd : PriceData) :
    (validatePrices pd).convenienceFee = 0 ∨
      (isValidPrice pd.convenienceFee = true ∧
        (validatePrices pd).convenienceFee = pd.convenienceFee) := by
  rw [validatePrices_convenienceFee]
  by_cases h : isValidPrice pd.convenienceFee = true
  · simp only [h, if_true]
    split_ifs <;> simp
  · have h0 : isValidPrice pd.convenienceFee = false := Bool.eq_false_iff.mpr h
    simp only [h0, Bool.false_eq_true, if_false]
    left
    split_ifs <;> rfl

/-- The validated state of an analysis pass: `otherFees` and
`hiddenPercentage` are still 0, the three fees are 0 or within the bounds of
their category, the total is the selected total. -/
theorem analysis_validated (page : Page) (site : String) :
    (validatePrices (extractPrices page (resetPriceData site))).otherFees = 0 ∧
    (validatePrices (extractPrices page (resetPriceData site))).hiddenPercentage = 0 ∧
    ZeroOrWithin (validatePrices (extractPrices page (resetPriceData site))).deliveryFee 500 ∧
    ZeroOrWithin (validatePrices (extractPrices page (resetPriceData site))).convenienceFee 200 ∧
    ZeroOrWithin (validatePrices (extractPrices page (resetPriceData site))).taxes 5000 ∧
    (validatePrices (extractPrices page (resetPriceData site))).total
      = selectedValue page .total := by
  refine ⟨?_, ?_, ?_, ?_, ?_, ?_⟩
  · rw [validatePrices_otherFees, extractPrices_eq]
    simp [resetPriceData]
  · rw [validatePrices_hiddenPercentage, extractPrices_eq]
    simp [resetPriceData]
  · rcases validatePrices_deliveryFee_cases (extractPrices page (resetPriceData site))
      with h | ⟨_, h⟩
    · exact Or.inl h
    · rw [h, extractPrices_eq]
      exact selectedValue_deliveryFee page
  · rcases validatePrices_convenienceFee_cases (extractPrices page (resetPriceData site))
      with h | ⟨_, h⟩
    · exact Or.inl h
    · rw [h, extractPrices_eq]
      exact selectedValue_convenienceFee page
  · rw [validatePrices_taxes, extractPrices_eq]
    simp only
    rw [isValidPrice_of_within _ _ (selectedValue_taxes page) (by norm_num)]
    exact selectedValue_taxes page
  · rw [validatePrices_total, extractPrices_eq]
    simp only
    have h : isValidPrice (selectedValue page .total) = true := by
      rw [isValidPrice_iff]
      rcases selectedValue_total page with h | ⟨h1, h2⟩
      · exact ⟨Or.inl h, by rw [h]; norm_num⟩
      · exact ⟨Or.inr (le_trans (by norm_num) h1), h2⟩
    rw [h]
    rfl

/-- The double-precision sum of three fees that are each 0 or at least one
hundredth and at most 500, 200 and 5000: it is a double, at most 5700, and 0
or at least the double nearest to one hundredth. -/
theorem feeSum_bounds (d c t : ℚ) (hd : ZeroOrWithin d 500) (hc : ZeroOrWithin c 200)
    (ht : ZeroOrWithin t 5000) :
    toDouble (fadd (fadd d c) t) = fadd (fadd d c) t ∧
    0 ≤ fadd (fadd d c) t ∧ fadd (fadd d c) t ≤ 5700 ∧
    (fadd (fadd d c) t = 0 ∨ toDouble (1 / 100) ≤ fadd (fadd d c) t) := by
  have hd0 : 0 ≤ d ∧ d ≤ 500 := by
    rcases hd with h | ⟨h1, h2⟩
    · rw [h]; norm_num
    · exact ⟨le_trans (by norm_num) h1, h2⟩
  have hc0 : 0 ≤ c ∧ c ≤ 200 := by
    rcases hc with h | ⟨h1, h2⟩
    · rw [h]; norm_num
    · exact ⟨le_trans (by norm_num) h1, h2⟩
  have ht0 : 0 ≤ t ∧ t ≤ 5000 := by
    rcases ht with h | ⟨h1, h2⟩
    · rw [h]; norm_num
    · exact ⟨le_trans (by norm_num) h1, h2⟩
  have k500 : toDouble 500 = 500 := by decide!
  have k200 : toDouble 200 = 200 := by decide!
  have k700 : toDouble 700 = 700 := by decide!
  have k5000 : toDouble 5000 = 5000 := by decide!
  have k5700 : toDouble 5700 = 5700 := by decide!
  have hdc : fadd d c ≤ 700 := fadd_le d c 500 200 700 hd0.2 hc0.2 k500 k200 k700 (by norm_num)
  have hdc0 : 0 ≤ fadd d c := fadd_nonneg d c hd0.1 hc0.1
  refine ⟨toDouble_fadd _ _, fadd_nonneg _ _ hdc0 ht0.1,
    fadd_le _ _ 700 5000 5700 hdc ht0.2 k700 k5000 k5700 (by norm_num), ?_⟩
  rcases hd with hd | ⟨hd, _⟩
  · rcases hc with hc | ⟨hc, _⟩
    · rcases ht with ht | ⟨ht, _⟩
      · left
        rw [hd, hc, ht]
        decide!
      · right
        exact le_trans (toDouble_mono _ _ ht) (le_fadd_right _ _ hdc0)
    · right
      have h1 : toDouble (1 / 100) ≤ fadd d c :=
        le_trans (toDouble_mono _ _ hc) (le_fadd_right _ _ hd0.1)
      have h2 := le_fadd_left (fadd d c) t ht0.1
      rw [toDouble_fadd] at h2
      exact le_trans h1 h2
  · right
    have h1 : toDouble (1 / 100) ≤ fadd d c :=
      le_trans (toDouble_mono _ _ hd) (le_fadd_left _ _ hc0.1)
    have h2 := le_fadd_left (fadd d c) t ht0.1
    rw [toDouble_fadd] at h2
    exact le_trans h1 h2

/-- The double-precision sum of the fees of an analysis pass is a valid
price. -/
theorem isValidPrice_feeSum (d c t : ℚ) (hd : ZeroOrWithin d 500) (hc : ZeroOrWithin c 200)
    (ht : ZeroOrWithin t 5000) : isValidPrice (fadd (fadd (fadd d c) t) 0) = true := by
  obtain ⟨h1, _, h3, h4⟩ := feeSum_bounds d c t hd hc ht
  rw [fadd_zero, h1, isValidPrice_iff]
  refine ⟨?_, by linarith⟩
  rcases h4 with h | h
  · exact Or.inl h
  · right
    have : (1 : ℚ) / 10 ^ 6 ≤ toDouble (1 / 100) := by decide!
    exact le_trans this h

/-! ## Reconciliation after validation -/

theorem mathRound_zero : mathRound 0 = 0 := by
  unfold mathRound
  norm_num

/-- The percentage of no hidden charges is 0. -/
theorem percentage_zero (b : ℚ) : mathRound (fmul (fdiv 0 b) 100) = 0 := by
  rw [fdiv_zero_left, fmul_zero_left, mathRound_zero]

/-- Hidden charges after the cap and the imputation, for a validated state
whose `otherFees` is 0 and whose fee sum is a valid price. -/
theorem reconcile_hiddenCharges (v : PriceData) (ho : v.otherFees = 0)
    (hF : isValidPrice (fadd (fadd (fadd v.deliveryFee v.convenienceFee) v.taxes) 0) = true) :
    (imputeOtherFees (capPercentage (sumHiddenCharges v))).hiddenCharges =
      if v.basePrice > 0 ∧
          ((mathRound (fmul (fdiv (fadd (fadd v.deliveryFee v.convenienceFee) v.taxes)
            v.basePrice) 100) : ℤ) : ℚ) > 100 then
        (imputeOtherFees (capPercentage (sumHiddenCharges v))).otherFees
      else fadd (fadd (fadd v.deliveryFee v.convenienceFee) v.taxes)
        (imputeOtherFees (capPercentage (sumHiddenCharges v))).otherFees := by
  have e0 : fadd (fadd (fadd v.deliveryFee v.convenienceFee) v.taxes) 0 =
      fadd (fadd v.deliveryFee v.convenienceFee) v.taxes := by
    rw [fadd_zero, toDouble_fadd]
  have hFd := toDouble_fadd (fadd v.deliveryFee v.convenienceFee) v.taxes
  rw [e0] at hF
  unfold imputeOtherFees capPercentage sumHiddenCharges
  simp only [ho, e0, hF]
  generalize fadd (fadd v.deliveryFee v.convenienceFee) v.taxes = F at hFd
  split_ifs <;> simp_all [zero_fadd, toDouble_fsub, fadd_zero, toDouble_fadd]

/-- Hidden percentage after the cap and the imputation, for a validated state
whose `hiddenPercentage` is 0 and whose fee sum is a valid price. -/
theorem reconcile_hiddenPercentage (v : PriceData) (hp : v.hiddenPercentage = 0)
    (hF : isValidPrice
      (fadd (fadd (fadd v.deliveryFee v.convenienceFee) v.taxes) v.otherFees) = true) :
    ((imputeOtherFees (capPercentage (sumHiddenCharges v))).basePrice > 0 →
      (imputeOtherFees (capPercentage (sumHiddenCharges v))).hiddenPercentage =
        mathRound (fmul (fdiv (imputeOtherFees (capPercentage (sumHiddenCharges v))).hiddenCharges
          (imputeOtherFees (capPercentage (sumHiddenCharges v))).basePrice) 100)) ∧
    ((imputeOtherFees (capPercentage (sumHiddenCharges v))).basePrice = 0 →
      (imputeOtherFees (capPercentage (sumHiddenCharges v))).hiddenPercentage = 0) := by
  have eb := (afterValidation_fields v).1
  by_cases hb : v.basePrice > 0
  · refine ⟨fun _ => ?_, fun h0 => ?_⟩
    · unfold imputeOtherFees capPercentage sumHiddenCharges
      simp only [hp, hF, hb, and_self, and_true, if_true]
      split_ifs <;> simp only [percentage_zero, Int.cast_zero]
    · rw [eb] at h0
      rw [h0] at hb
      exact absurd hb (lt_irrefl 0)
  · refine ⟨fun h0 => ?_, fun _ => ?_⟩
    · rw [eb] at h0
      exact absurd h0 hb
    · unfold imputeOtherFees capPercentage sumHiddenCharges
      simp only [hp, hb, false_and, and_false, if_false]

/-! ## Claims on the analysis pass -/

/-- C1 (as amended). After an analysis pass, `hiddenCharges` equals the
double-precision sum `deliveryFee + convenienceFee + taxes + otherFees` unless
the percentage cap fired, that is unless the emitted `basePrice` is positive
and Math.round of the double-precision value
`((deliveryFee + convenienceFee + taxes) / basePrice) * 100` exceeds 100; when
the cap fired the fee sum was discarded and `hiddenCharges` equals
`otherFees`. -/
theorem analysis_hiddenCharges (page : Page) (site : String) :
    (analyzePage page site).hiddenCharges =
      if (analyzePage page site).basePrice > 0 ∧
          ((mathRound (fmul (fdiv
              (fadd (fadd (analyzePage page site).deliveryFee
                (analyzePage page site).convenienceFee) (analyzePage page site).taxes)
              (analyzePage page site).basePrice) 100) : ℤ) : ℚ) > 100 then
        (analyzePage page site).otherFees
      else fadd (fadd (fadd (analyzePage page site).deliveryFee
          (analyzePage page site).convenienceFee) (analyzePage page site).taxes)
        (analyzePage page site).otherFees := by
  obtain ⟨ho, _, hd, hc, ht, _⟩ := analysis_validated page site
  have h := reconcile_hiddenCharges _ ho (isValidPrice_feeSum _ _ _ hd hc ht)
  obtain ⟨e1, e2, e3, e4, _⟩ :=
    afterValidation_fields (validatePrices (extractPrices page (resetPriceData site)))
  unfold analyzePage calculateHiddenCharges
  rw [e1, e2, e3, e4]
  exact h

/-- C2 (as amended). After an analysis pass, a positive emitted `basePrice`
gives `hiddenPercentage` = Math.round of the double-precision value
`(hiddenCharges / basePrice) * 100` (the quotient is rounded to a double, then
the product), and an emitted `basePrice` of 0 gives `hiddenPercentage = 0`. -/
theorem analysis_hiddenPercentage (page : Page) (site : String) :
    ((analyzePage page site).basePrice > 0 →
      (analyzePage page site).hiddenPercentage =
        mathRound (fmul (fdiv (analyzePage page site).hiddenCharges
          (analyzePage page site).basePrice) 100)) ∧
    ((analyzePage page site).basePrice = 0 → (analyzePage page site).hiddenPercentage = 0) := by
  obtain ⟨ho, hp, hd, hc, ht, _⟩ := analysis_validated page site
  have hF := isValidPrice_feeSum _ _ _ hd hc ht
  rw [← ho] at hF
  exact reconcile_hiddenPercentage _ hp hF

/-- C2, counterexample. On a page with an item price of 200 and a tax of 29
the emitted `hiddenCharges` is 29 and the emitted `hiddenPercentage` is 14,
while round(100 * 29 / 200) = round(14.5) is 15: the double-precision value of
(29 / 200) * 100 is 14.499999999999998. -/
theorem analysis_hiddenPercentage_counterexample :
    (analyzePage (domPage roundingTieBody) "shop.example").basePrice = 200 ∧
    (analyzePage (domPage roundingTieBody) "shop.example").hiddenCharges = 29 ∧
    (analyzePage (domPage roundingTieBody) "shop.example").hiddenPercentage = 14 ∧
    mathRound (100 * 29 / 200) = 15 ∧
    fmul (fdiv 29 200) 100 = toDouble 14.499999999999998 := by
  decide!

/-- C1, counterexample. On a page with an item price of 100 and a tax of
200 the percentage cap fires: the emitted `hiddenCharges` is 0 while
`deliveryFee + convenienceFee + taxes + otherFees` is 200. -/
theorem analysis_hiddenCharges_counterexample :
    (analyzePage (domPage taxHeavyBody) "shop.example").hiddenCharges = 0 ∧
    (analyzePage (domPage taxHeavyBody) "shop.example").deliveryFee +
      (analyzePage (domPage taxHeavyBody) "shop.example").convenienceFee +
      (analyzePage (domPage taxHeavyBody) "shop.example").taxes +
      (analyzePage (domPage taxHeavyBody) "shop.example").otherFees = 200 := by
  decide!

/-- C7. End-to-end scenario: on a page whose three elements read
"Item Price: ₹499", "Delivery Fee: ₹40" and "Total: ₹539", `parsePrice` gives
499, 40 and 539, `findPrice` returns 499, 40, 0, 0 and 539 for the five
categories, and the analysis pass emits basePrice 499, deliveryFee 40,
total 539, otherFees 0, hiddenCharges 40 and hiddenPercentage 8. -/
theorem scenario_end_to_end :
    parsePrice "Item Price: ₹499".toList = 499 ∧
    parsePrice "Delivery Fee: ₹40".toList = 40 ∧
    parsePrice "Total: ₹539".toList = 539 ∧
    (findPrice (domPage scenarioBody) .basePrice "Base Price"
      (resetPriceData "shop.example")).1 = 499 ∧
    (findPrice (domPage scenarioBody) .deliveryFee "Delivery Fee"
      (resetPriceData "shop.example")).1 = 40 ∧
    (findPrice (domPage scenarioBody) .convenienceFee "Convenience Fee"
      (resetPriceData "shop.example")).1 = 0 ∧
    (findPrice (domPage scenarioBody) .taxes "Taxes" (resetPriceData "shop.example")).1 = 0 ∧
    (findPrice (domPage scenarioBody) .total "Total" (resetPriceData "shop.example")).1 = 539 ∧
    (analyzePage (domPage scenarioBody) "shop.example").basePrice = 499 ∧
    (analyzePage (domPage scenarioBody) "shop.example").deliveryFee = 40 ∧
    (analyzePage (domPage scenarioBody) "shop.example").convenienceFee = 0 ∧
    (analyzePage (domPage scenarioBody) "shop.example").taxes = 0 ∧
    (analyzePage (domPage scenarioBody) "shop.example").total = 539 ∧
    (analyzePage (domPage scenarioBody) "shop.example").otherFees = 0 ∧
    (analyzePage (domPage scenarioBody) "shop.example").hiddenCharges = 40 ∧
    (analyzePage (domPage scenarioBody) "shop.example").hiddenPercentage = 8 := by
  decide!

/-- C4, counterexample. On a page that states only "Total: ₹60000" the base
price is back-filled from the total: the emitted `basePrice` is 60000, which
is neither 0 nor within [1, 50000]. -/
theorem analysis_bounds_counterexample :
    (analyzePage (domPage totalOnlyBody) "shop.example").basePrice = 60000 ∧
    ¬ ((analyzePage (domPage totalOnlyBody) "shop.example").basePrice = 0 ∨
       (1 ≤ (analyzePage (domPage totalOnlyBody) "shop.example").basePrice ∧
        (analyzePage (domPage totalOnlyBody) "shop.example").basePrice ≤ 50000)) := by
  decide!

/-- C3, counterexample. From a base price of 10, taxes of 5 and a total of 21
the first run emits otherFees 6 (hiddenCharges 11, hiddenPercentage 110); a
second run on that result emits otherFees 11. -/
theorem reconciliation_idempotent_counterexample :
    (calculateHiddenCharges smallBasket).otherFees = 6 ∧
    (calculateHiddenCharges smallBasket).hiddenPercentage = 110 ∧
    (calculateHiddenCharges (calculateHiddenCharges smallBasket)).otherFees = 11 ∧
    calculateHiddenCharges (calculateHiddenCharges smallBasket)
      ≠ calculateHiddenCharges smallBasket := by
  decide!

/-- The double-precision product basePrice * 0.1 of a valid base price is at
most 100000. -/
theorem fmul_tenth_le (b : ℚ) (hb : isValidPrice b = true) : fmul b 0.1 ≤ 100000 := by
  have h1 : toDouble b ≤ 100000 :=
    toDouble_le b 100000 ((isValidPrice_iff b).mp hb).2 (by decide!)
  have h0 : 0 ≤ toDouble b := toDouble_nonneg b (by
    rcases ((isValidPrice_iff b).mp hb).1 with h | h
    · rw [h]
    · exact le_trans (by norm_num) h)
  have h2 : toDouble 0.1 ≤ 1 := by decide!
  have h3 : (0 : ℚ) ≤ toDouble 0.1 := by decide!
  unfold fmul
  apply toDouble_le _ _ _ (by decide!)
  nlinarith

/-- A residual that passes the two comparisons of the imputation step is a
valid price. -/
theorem isValidPrice_residual (b diff : ℚ) (hb : isValidPrice b = true) (hlo : 1 < diff)
    (hhi : diff < max 100 (fmul b 0.1)) : isValidPrice diff = true := by
  rw [isValidPrice_iff]
  refine ⟨Or.inr (le_trans (by norm_num) (le_of_lt hlo)), ?_⟩
  have := fmul_tenth_le b hb
  rcases max_cases (100 : ℚ) (fmul b 0.1) with ⟨h, _⟩ | ⟨h, _⟩
  · rw [h] at hhi
    linarith
  · rw [h] at hhi
    linarith

/-- The imputation step on a validated state whose `otherFees` is 0, whose
fee sum passes the cap and whose residual lies strictly between 1 and
`max(100, basePrice * 0.1)`. -/
theorem reconcile_impute (v : PriceData) (ho : v.otherFees = 0) (hb : v.basePrice > 0)
    (hvb : isValidPrice v.basePrice = true) (ht : v.total > 0)
    (hpct : ((mathRound (fmul (fdiv (fadd (fadd v.deliveryFee v.convenienceFee) v.taxes)
      v.basePrice) 100) : ℤ) : ℚ) ≤ 100)
    (hlo : 1 < fsub v.total
      (fadd v.basePrice (fadd (fadd v.deliveryFee v.convenienceFee) v.taxes)))
    (hhi : fsub v.total (fadd v.basePrice (fadd (fadd v.deliveryFee v.convenienceFee) v.taxes))
      < max 100 (fmul v.basePrice 0.1)) :
    (imputeOtherFees (capPercentage (sumHiddenCharges v))).otherFees =
      fsub v.total (fadd v.basePrice (fadd (fadd v.deliveryFee v.convenienceFee) v.taxes)) ∧
    (imputeOtherFees (capPercentage (sumHiddenCharges v))).hiddenCharges =
      fadd (fadd (fadd v.deliveryFee v.convenienceFee) v.taxes)
        (fsub v.total
          (fadd v.basePrice (fadd (fadd v.deliveryFee v.convenienceFee) v.taxes))) ∧
    (imputeOtherFees (capPercentage (sumHiddenCharges v))).hiddenPercentage =
      mathRound (fmul (fdiv
        (fadd (fadd (fadd v.deliveryFee v.convenienceFee) v.taxes)
          (fsub v.total
            (fadd v.basePrice (fadd (fadd v.deliveryFee v.convenienceFee) v.taxes))))
        v.basePrice) 100) := by
  have hcap : ¬ (((mathRound (fmul (fdiv (fadd (fadd v.deliveryFee v.convenienceFee) v.taxes)
      v.basePrice) 100) : ℤ) : ℚ) > 100) := not_lt.mpr hpct
  have e0 : fadd (fadd (fadd v.deliveryFee v.convenienceFee) v.taxes) 0 =
      fadd (fadd v.deliveryFee v.convenienceFee) v.taxes := by
    rw [fadd_zero, toDouble_fadd]
  have hdiff := isValidPrice_residual _ _ hvb hlo hhi
  unfold imputeOtherFees capPercentage sumHiddenCharges
  simp only [ho, e0]
  generalize fadd (fadd v.deliveryFee v.convenienceFee) v.taxes = F at *
  by_cases hF : isValidPrice F = true
  · simp only [hb, hF, hcap, and_self, if_true, if_false, ht, hlo, hhi, hdiff, gt_iff_lt]
  · have hF0 : isValidPrice F = false := Bool.eq_false_iff.mpr hF
    simp only [hb, hF0, Bool.false_eq_true, and_false, and_self, if_true, if_false, ht, hlo,
      hhi, hdiff, gt_iff_lt]

/-- C6 (as amended). Other-fee imputation in double precision: for valid
inputs with basePrice > 0, total > 0 and otherFees 0, whose fees survive the
suppression, whose double-precision sum F = deliveryFee + convenienceFee +
taxes has Math.round((F / basePrice) * 100) ≤ 100, and whose computed residual
total - (basePrice + F) lies strictly between 1 and max(100, basePrice * 0.1),
the emitted otherFees is that residual, the emitted hiddenCharges is the
double-precision sum F + otherFees, and the emitted hiddenPercentage is
Math.round((hiddenCharges / basePrice) * 100). -/
theorem imputation (pd : PriceData)
    (hvb : isValidPrice pd.basePrice = true) (hvd : isValidPrice pd.deliveryFee = true)
    (hvc : isValidPrice pd.convenienceFee = true) (hvt : isValidPrice pd.taxes = true)
    (hvtot : isValidPrice pd.total = true) (ho : pd.otherFees = 0)
    (hb : pd.basePrice > 0) (htot : pd.total > 0)
    (hsd : ¬ toDouble pd.deliveryFee > fmul pd.basePrice 0.5)
    (hsc : ¬ toDouble pd.convenienceFee > fmul pd.basePrice 0.2)
    (hpct : mathRound (fmul (fdiv (fadd (fadd pd.deliveryFee pd.convenienceFee) pd.taxes)
      pd.basePrice) 100) ≤ 100)
    (hlo : 1 < fsub pd.total
      (fadd pd.basePrice (fadd (fadd pd.deliveryFee pd.convenienceFee) pd.taxes)))
    (hhi : fsub pd.total
        (fadd pd.basePrice (fadd (fadd pd.deliveryFee pd.convenienceFee) pd.taxes))
      < max 100 (fmul pd.basePrice 0.1)) :
    (calculateHiddenCharges pd).otherFees =
      fsub pd.total
        (fadd pd.basePrice (fadd (fadd pd.deliveryFee pd.convenienceFee) pd.taxes)) ∧
    (calculateHiddenCharges pd).hiddenCharges =
      fadd (fadd (fadd pd.deliveryFee pd.convenienceFee) pd.taxes)
        (calculateHiddenCharges pd).otherFees ∧
    (calculateHiddenCharges pd).hiddenPercentage =
      mathRound (fmul (fdiv (calculateHiddenCharges pd).hiddenCharges pd.basePrice) 100) := by
  have eb : (validatePrices pd).basePrice = pd.basePrice := by
    rw [validatePrices_basePrice, hvb]; rfl
  have ed : (validatePrices pd).deliveryFee = pd.deliveryFee := by
    rw [validatePrices_deliveryFee, eb, hvd]
    simp only [if_true, hb]
    rw [if_neg hsd]
  have ec : (validatePrices pd).convenienceFee = pd.convenienceFee := by
    rw [validatePrices_convenienceFee, eb, hvc]
    simp only [if_true, hb]
    rw [if_neg hsc]
  have et : (validatePrices pd).taxes = pd.taxes := by
    rw [validatePrices_taxes, hvt]; rfl
  have eo : (validatePrices pd).otherFees = 0 := by
    rw [validatePrices_otherFees, ho]; simp
  have etot : (validatePrices pd).total = pd.total := by
    rw [validatePrices_total, hvtot]; rfl
  have hpct2 : ((mathRound (fmul (fdiv (fadd (fadd pd.deliveryFee pd.convenienceFee) pd.taxes)
      pd.basePrice) 100) : ℤ) : ℚ) ≤ 100 := by
    exact_mod_cast hpct
  have key := reconcile_impute (validatePrices pd) eo (by rw [eb]; exact hb)
    (by rw [eb]; exact hvb) (by rw [etot]; exact htot)
    (by rw [ed, ec, et, eb]; exact hpct2) (by rw [ed, ec, et, eb, etot]; exact hlo)
    (by rw [ed, ec, et, eb, etot]; exact hhi)
  rw [ed, ec, et, eb, etot] at key
  unfold calculateHiddenCharges
  obtain ⟨k1, k2, k3⟩ := key
  refine ⟨k1, ?_, ?_⟩
  · rw [k2, k1]
  · rw [k3, k2]

/-- C6 (as amended), the instance of the specification: basePrice 900, fees
of 30 and 20 (50 together) and total 960 give otherFees 10 and
hiddenCharges 60. -/
theorem imputation_witness :
    (calculateHiddenCharges imputationBasket).otherFees = 10 ∧
    (calculateHiddenCharges imputationBasket).hiddenCharges = 60 ∧
    (calculateHiddenCharges imputationBasket).hiddenPercentage = 7 := by
  have h := imputation imputationBasket (by decide!) (by decide!) (by decide!) (by decide!)
    (by decide!) (by decide!) (by decide!) (by decide!) (by decide!) (by decide!) (by decide!)
    (by decide!) (by decide!)
  obtain ⟨h1, h2, h3⟩ := h
  rw [h3, h2, h1]
  decide!

/-- C6, counterexample. From a base price of 200 and a total of 229 (no
fees, so F = 0 and the residual is 29, between 1 and max(100, 20)) the
emitted otherFees and hiddenCharges are 29 and the emitted hiddenPercentage
is 14, while round(100 * 29 / 200) = round(14.5) is 15. -/
theorem imputation_counterexample :
    (calculateHiddenCharges tieImputationBasket).otherFees = 29 ∧
    (calculateHiddenCharges tieImputationBasket).hiddenCharges = 29 ∧
    (calculateHiddenCharges tieImputationBasket).hiddenPercentage = 14 ∧
    mathRound (100 * (calculateHiddenCharges tieImputationBasket).hiddenCharges /
      tieImputationBasket.basePrice) = 15 := by
  decide!

/-! ## Running the reconciliation twice -/

theorem isValidPrice_ite (p : ℚ) : isValidPrice (if isValidPrice p then p else 0) = true := by
  by_cases h : isValidPrice p = true
  · simp only [h, if_true]
  · have h0 : isValidPrice p = false := Bool.eq_false_iff.mpr h
    simp only [h0, Bool.false_eq_true, if_false]
    decide!

theorem isValidPrice_nonneg (p : ℚ) (h : isValidPrice p = true) : 0 ≤ p := by
  rcases ((isValidPrice_iff p).mp h).1 with h | h
  · rw [h]
  · exact le_trans (by norm_num) h

/-- A state whose six components are valid prices and whose delivery and
convenience fees are not disproportionate is left as it is by validation. -/
theorem validatePrices_fixed (r : PriceData)
    (hb : isValidPrice r.basePrice = true) (hd : isValidPrice r.deliveryFee = true)
    (hc : isValidPrice r.convenienceFee = true) (ht : isValidPrice r.taxes = true)
    (ho : isValidPrice r.otherFees = true) (htot : isValidPrice r.total = true)
    (hsd : r.basePrice > 0 → ¬ toDouble r.deliveryFee > fmul r.basePrice 0.5)
    (hsc : r.basePrice > 0 → ¬ toDouble r.convenienceFee > fmul r.basePrice 0.2) :
    validatePrices r = r := by
  ext
  · rw [validatePrices_basePrice, hb]; rfl
  · rw [validatePrices_deliveryFee, validatePrices_basePrice, hb, hd]
    simp only [if_true]
    split_ifs with h1 h2
    · exact absurd h2 (hsd h1)
    · rfl
    · rfl
  · rw [validatePrices_convenienceFee, validatePrices_basePrice, hb, hc]
    simp only [if_true]
    split_ifs with h1 h2
    · exact absurd h2 (hsc h1)
    · rfl
    · rfl
  · rw [validatePrices_taxes, ht]; rfl
  · rw [validatePrices_otherFees, ho]; rfl
  · rw [validatePrices_total, htot]; rfl
  · rfl
  · rfl
  · rfl
  · rfl
  · rfl

/-- The validated state has valid components and passes the suppression
tests. -/
theorem validatePrices_valid (x : PriceData) :
    isValidPrice (validatePrices x).basePrice = true ∧
    isValidPrice (validatePrices x).deliveryFee = true ∧
    isValidPrice (validatePrices x).convenienceFee = true ∧
    isValidPrice (validatePrices x).taxes = true ∧
    isValidPrice (validatePrices x).otherFees = true ∧
    isValidPrice (validatePrices x).total = true ∧
    ((validatePrices x).basePrice > 0 →
      ¬ toDouble (validatePrices x).deliveryFee > fmul (validatePrices x).basePrice 0.5) ∧
    ((validatePrices x).basePrice > 0 →
      ¬ toDouble (validatePrices x).convenienceFee > fmul (validatePrices x).basePrice 0.2) := by
  have z : isValidPrice 0 = true := by decide!
  have hd : isValidPrice (validatePrices x).deliveryFee = true := by
    rcases validatePrices_deliveryFee_cases x with h | ⟨h1, h2⟩
    · rw [h]; exact z
    · rw [h2]; exact h1
  have hc : isValidPrice (validatePrices x).convenienceFee = true := by
    rcases validatePrices_convenienceFee_cases x with h | ⟨h1, h2⟩
    · rw [h]; exact z
    · rw [h2]; exact h1
  refine ⟨?_, hd, hc, ?_, ?_, ?_, ?_, ?_⟩
  · rw [validatePrices_basePrice]; exact isValidPrice_ite _
  · rw [validatePrices_taxes]; exact isValidPrice_ite _
  · rw [validatePrices_otherFees]; exact isValidPrice_ite _
  · rw [validatePrices_total]; exact isValidPrice_ite _
  · intro hb
    have hb2 : 0 ≤ fmul (validatePrices x).basePrice 0.5 :=
      fmul_nonneg _ _ (le_of_lt hb) (by norm_num)
    generalize hB : (validatePrices x).basePrice = B at hb hb2
    rw [validatePrices_deliveryFee, hB]
    simp only [hb, if_true]
    generalize (if isValidPrice x.deliveryFee = true then x.deliveryFee else 0) = D
    split_ifs with h
    · rw [toDouble_zero]
      exact not_lt.mpr hb2
    · exact h
  · intro hb
    have hb2 : 0 ≤ fmul (validatePrices x).basePrice 0.2 :=
      fmul_nonneg _ _ (le_of_lt hb) (by norm_num)
    generalize hB : (validatePrices x).basePrice = B at hb hb2
    rw [validatePrices_convenienceFee, hB]
    simp only [hb, if_true]
    generalize (if isValidPrice x.convenienceFee = true then x.convenienceFee else 0) = D
    split_ifs with h
    · rw [toDouble_zero]
      exact not_lt.mpr hb2
    · exact h

theorem mathRound_mono (x y : ℚ) (h : x ≤ y) : mathRound x ≤ mathRound y := by
  unfold mathRound
  exact Int.floor_mono (by linarith)

/-- The percentage grows with the hidden charges. -/
theorem percentage_mono (h1 h2 b : ℚ) (hb : 0 < b) (h : toDouble h1 ≤ toDouble h2) :
    mathRound (fmul (fdiv h1 b) 100) ≤ mathRound (fmul (fdiv h2 b) 100) := by
  apply mathRound_mono
  unfold fmul fdiv
  apply toDouble_mono
  have h100 : (0 : ℚ) ≤ toDouble 100 := by decide!
  apply mul_le_mul_of_nonneg_right _ h100
  apply toDouble_mono
  apply toDouble_mono
  exact div_le_div_of_nonneg_right h (le_of_lt (toDouble_pos b hb))

/-- After an imputation the residual is at most 1: the stated total less the
base price and the hidden charges that now include the imputed residual is 0
up to four rounding errors. -/
theorem residual_after_imputation (tot b F : ℚ) (ht0 : 0 ≤ tot) (ht1 : tot ≤ 100000)
    (hb0 : 0 ≤ b) (hb1 : b ≤ 100000) (hF0 : 0 ≤ F) (hF1 : F ≤ 5700) :
    fsub tot (fadd b (fadd F (fsub tot (fadd b F)))) ≤ 1 := by
  have k5 : toDouble 100000 = 100000 := by decide!
  have k1 : toDouble 1 = 1 := by decide!
  have k57 : toDouble 5700 = 5700 := by decide!
  have hT0 := toDouble_nonneg tot ht0
  have hT1 := toDouble_le tot 100000 ht1 k5
  have hB0 := toDouble_nonneg b hb0
  have hB1 := toDouble_le b 100000 hb1 k5
  have hG0 := toDouble_nonneg F hF0
  have hG1 := toDouble_le F 5700 hF1 k57
  unfold fsub fadd
  simp only [toDouble_idem]
  generalize toDouble tot = T at hT0 hT1
  generalize toDouble b = B at hB0 hB1
  generalize toDouble F = G at hG0 hG1
  have u : (0 : ℚ) < 2 ^ 53 := by positivity
  -- the four rounding errors
  have e1 := toDouble_error (B + G)
  have e2 := toDouble_error (T - toDouble (B + G))
  have e3 := toDouble_error (G + toDouble (T - toDouble (B + G)))
  have e4 := toDouble_error (B + toDouble (G + toDouble (T - toDouble (B + G))))
  generalize toDouble (B + G) = A at e1 e2 e3 e4 ⊢
  generalize toDouble (T - A) = D at e2 e3 e4 ⊢
  generalize toDouble (G + D) = H at e3 e4 ⊢
  generalize toDouble (B + H) = A2 at e4 ⊢
  have a1 : |B + G| ≤ 105700 := by
    rw [abs_of_nonneg (by linarith)]
    linarith
  have b1 : |A - (B + G)| ≤ 105700 / 2 ^ 53 :=
    le_trans e1 (div_le_div_of_nonneg_right a1 (le_of_lt u))
  obtain ⟨b1l, b1u⟩ := abs_le.mp b1
  have a2 : |T - A| ≤ 300000 := by
    rw [abs_le]
    constructor <;> norm_num at b1l b1u ⊢ <;> linarith
  have b2 : |D - (T - A)| ≤ 300000 / 2 ^ 53 :=
    le_trans e2 (div_le_div_of_nonneg_right a2 (le_of_lt u))
  obtain ⟨b2l, b2u⟩ := abs_le.mp b2
  obtain ⟨a2l, a2u⟩ := abs_le.mp a2
  have a3 : |G + D| ≤ 400000 := by
    rw [abs_le]
    constructor <;> norm_num at b2l b2u ⊢ <;> linarith
  have b3 : |H - (G + D)| ≤ 400000 / 2 ^ 53 :=
    le_trans e3 (div_le_div_of_nonneg_right a3 (le_of_lt u))
  obtain ⟨b3l, b3u⟩ := abs_le.mp b3
  obtain ⟨a3l, a3u⟩ := abs_le.mp a3
  have a4 : |B + H| ≤ 600000 := by
    rw [abs_le]
    constructor <;> norm_num at b3l b3u ⊢ <;> linarith
  have b4 : |A2 - (B + H)| ≤ 600000 / 2 ^ 53 :=
    le_trans e4 (div_le_div_of_nonneg_right a4 (le_of_lt u))
  obtain ⟨b4l, b4u⟩ := abs_le.mp b4
  apply toDouble_le _ _ _ k1
  norm_num at b1l b1u b2l b2u b3l b3u b4l b4u ⊢
  linarith

/-- The double-precision product basePrice * 0.1 of a valid base price is at
most 10001. -/
theorem fmul_tenth_le_small (b : ℚ) (hb : isValidPrice b = true) : fmul b 0.1 ≤ 10001 := by
  have h1 : toDouble b ≤ 100000 :=
    toDouble_le b 100000 ((isValidPrice_iff b).mp hb).2 (by decide!)
  have h0 : 0 ≤ toDouble b := toDouble_nonneg b (isValidPrice_nonneg b hb)
  have h2 : toDouble 0.1 ≤ 10001 / 100000 := by decide!
  have h3 : (0 : ℚ) ≤ toDouble 0.1 := by decide!
  unfold fmul
  apply toDouble_le _ _ _ (by decide!)
  nlinarith

theorem capPercentage_exceed (x : PriceData) (hb : x.basePrice > 0)
    (hv : isValidPrice x.hiddenCharges = true)
    (hp : ((mathRound (fmul (fdiv x.hiddenCharges x.basePrice) 100) : ℤ) : ℚ) > 100) :
    capPercentage x = { x with hiddenPercentage := 0, hiddenCharges := 0 } := by
  unfold capPercentage
  simp only [hb, hv, hp, and_self, if_true]

theorem capPercentage_within (x : PriceData) (hb : x.basePrice > 0)
    (hv : isValidPrice x.hiddenCharges = true)
    (hp : ¬ ((mathRound (fmul (fdiv x.hiddenCharges x.basePrice) 100) : ℤ) : ℚ) > 100) :
    capPercentage x =
      { x with
        hiddenPercentage := mathRound (fmul (fdiv x.hiddenCharges x.basePrice) 100) } := by
  unfold capPercentage
  simp only [hb, hv, hp, and_self, if_true, if_false]

theorem capPercentage_skip (x : PriceData)
    (h : ¬ (x.basePrice > 0 ∧ isValidPrice x.hiddenCharges = true)) : capPercentage x = x := by
  unfold capPercentage
  rw [if_neg h]

theorem imputeOtherFees_fire (x : PriceData) (ht : x.total > 0) (hb : x.basePrice > 0)
    (h1 : fsub x.total (fadd x.basePrice x.hiddenCharges) > 1)
    (h2 : fsub x.total (fadd x.basePrice x.hiddenCharges) < max 100 (fmul x.basePrice 0.1))
    (h3 : isValidPrice (fsub x.total (fadd x.basePrice x.hiddenCharges)) = true) :
    imputeOtherFees x =
      { x with
        otherFees := fsub x.total (fadd x.basePrice x.hiddenCharges)
        hiddenCharges :=
          fadd x.hiddenCharges (fsub x.total (fadd x.basePrice x.hiddenCharges))
        hiddenPercentage :=
          mathRound (fmul (fdiv
            (fadd x.hiddenCharges (fsub x.total (fadd x.basePrice x.hiddenCharges)))
            x.basePrice) 100) } := by
  unfold imputeOtherFees
  simp only [ht, hb, h1, h2, h3, and_self, if_true]

theorem imputeOtherFees_skip (x : PriceData)
    (h : ¬ (x.total > 0 ∧ x.basePrice > 0 ∧
      fsub x.total (fadd x.basePrice x.hiddenCharges) > 1 ∧
      fsub x.total (fadd x.basePrice x.hiddenCharges) < max 100 (fmul x.basePrice 0.1) ∧
      isValidPrice (fsub x.total (fadd x.basePrice x.hiddenCharges)) = true)) :
    imputeOtherFees x = x := by
  unfold imputeOtherFees
  by_cases h1 : x.total > 0 ∧ x.basePrice > 0
  · rw [if_pos h1]
    simp only
    rw [if_neg]
    intro h2
    exact h ⟨h1.1, h1.2, h2⟩
  · rw [if_neg h1]

/-- Running the cap and the imputation twice on the validated state of an
analysis pass gives the result of running them once, when that result has a
percentage of at most 100. -/
theorem reconcile_twice (v : PriceData) (ho : v.otherFees = 0)
    (hvb : isValidPrice v.basePrice = true) (hvt : isValidPrice v.total = true)
    (hd : ZeroOrWithin v.deliveryFee 500) (hc : ZeroOrWithin v.convenienceFee 200)
    (htx : ZeroOrWithin v.taxes 5000)
    (hpct : (imputeOtherFees (capPercentage (sumHiddenCharges v))).hiddenPercentage ≤ 100) :
    imputeOtherFees (capPercentage (sumHiddenCharges
      (imputeOtherFees (capPercentage (sumHiddenCharges v))))) =
    imputeOtherFees (capPercentage (sumHiddenCharges v)) := by
  obtain ⟨hFd, hF0, hF1, hFz⟩ := feeSum_bounds _ _ _ hd hc htx
  have hFv := isValidPrice_feeSum _ _ _ hd hc htx
  have e0 : fadd (fadd (fadd v.deliveryFee v.convenienceFee) v.taxes) 0 =
      fadd (fadd v.deliveryFee v.convenienceFee) v.taxes := by
    rw [fadd_zero, toDouble_fadd]
  rw [e0] at hFv
  have hb0 := isValidPrice_nonneg _ hvb
  have hb1 := ((isValidPrice_iff _).mp hvb).2
  have ht0 := isValidPrice_nonneg _ hvt
  have ht1 := ((isValidPrice_iff _).mp hvt).2
  have hres := residual_after_imputation v.total v.basePrice
    (fadd (fadd v.deliveryFee v.convenienceFee) v.taxes) ht0 ht1 hb0 hb1 hF0 hF1
  have hsum : ∀ o h p : ℚ,
      sumHiddenCharges { v with otherFees := o, hiddenCharges := h, hiddenPercentage := p } =
        { v with otherFees := o
                 hiddenCharges := fadd (fadd (fadd v.deliveryFee v.convenienceFee) v.taxes) o
                 hiddenPercentage := p } := fun _ _ _ => rfl
  have hs : sumHiddenCharges v =
      { v with otherFees := 0
               hiddenCharges := fadd (fadd v.deliveryFee v.convenienceFee) v.taxes
               hiddenPercentage := v.hiddenPercentage } := by
    unfold sumHiddenCharges
    rw [ho, e0]
  generalize fadd (fadd v.deliveryFee v.convenienceFee) v.taxes = F at *
  rw [hs] at hpct ⊢
  by_cases hb : v.basePrice > 0
  · by_cases hp1 : ((mathRound (fmul (fdiv F v.basePrice) 100) : ℤ) : ℚ) > 100
    · have hc1 : capPercentage ({ v with otherFees := 0, hiddenCharges := F, hiddenPercentage := v.hiddenPercentage } : PriceData) = ({ v with otherFees := 0, hiddenCharges := 0, hiddenPercentage := 0 } : PriceData) := capPercentage_exceed ({ v with otherFees := 0, hiddenCharges := F, hiddenPercentage := v.hiddenPercentage } : PriceData) hb hFv hp1
      rw [hc1] at hpct ⊢
      by_cases hi : v.total > 0 ∧ v.basePrice > 0 ∧
          fsub v.total (fadd v.basePrice 0) > 1 ∧
          fsub v.total (fadd v.basePrice 0) < max 100 (fmul v.basePrice 0.1) ∧
          isValidPrice (fsub v.total (fadd v.basePrice 0)) = true
      · obtain ⟨i1, _, i2, i3, i4⟩ := hi
        have hi1 : imputeOtherFees ({ v with otherFees := 0, hiddenCharges := 0, hiddenPercentage := 0 } : PriceData) = ({ v with otherFees := (fsub v.total (fadd v.basePrice 0)), hiddenCharges := (fadd 0 (fsub v.total (fadd v.basePrice 0))), hiddenPercentage := (mathRound (fmul (fdiv (fadd 0 (fsub v.total (fadd v.basePrice 0))) v.basePrice) 100)) } : PriceData) := imputeOtherFees_fire ({ v with otherFees := 0, hiddenCharges := 0, hiddenPercentage := 0 } : PriceData) i1 hb i2 i3 i4
        have hi2 : imputeOtherFees ({ v with otherFees := (fsub v.total (fadd v.basePrice 0)), hiddenCharges := 0, hiddenPercentage := 0 } : PriceData) = ({ v with otherFees := (fsub v.total (fadd v.basePrice 0)), hiddenCharges := (fadd 0 (fsub v.total (fadd v.basePrice 0))), hiddenPercentage := (mathRound (fmul (fdiv (fadd 0 (fsub v.total (fadd v.basePrice 0))) v.basePrice) 100)) } : PriceData) := imputeOtherFees_fire ({ v with otherFees := (fsub v.total (fadd v.basePrice 0)), hiddenCharges := 0, hiddenPercentage := 0 } : PriceData) i1 hb i2 i3 i4
        rw [hi1, hsum]
        have hD : toDouble (fsub v.total (fadd v.basePrice 0)) =
            fsub v.total (fadd v.basePrice 0) := toDouble_fsub _ _
        have hD0 : 0 ≤ (fsub v.total (fadd v.basePrice 0)) := by linarith
        have hsumle : F ≤ fadd F (fsub v.total (fadd v.basePrice 0)) := by
          have := le_fadd_left F (fsub v.total (fadd v.basePrice 0)) hD0
          rwa [hFd] at this
        have hDle : (fsub v.total (fadd v.basePrice 0)) ≤ fadd F (fsub v.total (fadd v.basePrice 0)) := by
          have := le_fadd_right F (fsub v.total (fadd v.basePrice 0)) hF0
          rwa [hD] at this
        have hM := fmul_tenth_le_small _ hvb
        have hDu : (fsub v.total (fadd v.basePrice 0)) ≤ 10001 := by
          rcases max_cases (100 : ℚ) (fmul v.basePrice 0.1) with ⟨h, _⟩ | ⟨h, _⟩
          · rw [h] at i3; linarith
          · rw [h] at i3; linarith
        have hv2 : isValidPrice (fadd F (fsub v.total (fadd v.basePrice 0))) = true := by
          rw [isValidPrice_iff]
          refine ⟨Or.inr (by linarith), ?_⟩
          have : fadd F (fsub v.total (fadd v.basePrice 0)) ≤ 15701 :=
            fadd_le F (fsub v.total (fadd v.basePrice 0)) 5700 10001 15701 hF1 hDu (by decide!) (by decide!) (by decide!)
              (by norm_num)
          linarith
        have hp2 : ((mathRound (fmul (fdiv (fadd F (fsub v.total (fadd v.basePrice 0))) v.basePrice) 100) : ℤ) : ℚ) > 100 := by
          have := percentage_mono F (fadd F (fsub v.total (fadd v.basePrice 0))) v.basePrice hb (by
            rw [hFd, toDouble_fadd]; exact hsumle)
          have h' : (100 : ℤ) < mathRound (fmul (fdiv F v.basePrice) 100) := by
            exact_mod_cast hp1
          have : (100 : ℤ) < mathRound (fmul (fdiv (fadd F (fsub v.total (fadd v.basePrice 0))) v.basePrice) 100) := by
            omega
          exact_mod_cast this
        have hc2 : capPercentage ({ v with otherFees := (fsub v.total (fadd v.basePrice 0)), hiddenCharges := (fadd F (fsub v.total (fadd v.basePrice 0))), hiddenPercentage := (mathRound (fmul (fdiv (fadd 0 (fsub v.total (fadd v.basePrice 0))) v.basePrice) 100)) } : PriceData) = ({ v with otherFees := (fsub v.total (fadd v.basePrice 0)), hiddenCharges := 0, hiddenPercentage := 0 } : PriceData) := capPercentage_exceed ({ v with otherFees := (fsub v.total (fadd v.basePrice 0)), hiddenCharges := (fadd F (fsub v.total (fadd v.basePrice 0))), hiddenPercentage := (mathRound (fmul (fdiv (fadd 0 (fsub v.total (fadd v.basePrice 0))) v.basePrice) 100)) } : PriceData) hb hv2 hp2
        rw [hc2, hi2]
      · have hi1 : imputeOtherFees ({ v with otherFees := 0, hiddenCharges := 0, hiddenPercentage := 0 } : PriceData) = ({ v with otherFees := 0, hiddenCharges := 0, hiddenPercentage := 0 } : PriceData) := imputeOtherFees_skip ({ v with otherFees := 0, hiddenCharges := 0, hiddenPercentage := 0 } : PriceData) hi
        have hc2 : capPercentage
            ({ v with otherFees := 0, hiddenCharges := F, hiddenPercentage := 0 } : PriceData) =
            ({ v with otherFees := 0, hiddenCharges := 0, hiddenPercentage := 0 } : PriceData) :=
          capPercentage_exceed
            ({ v with otherFees := 0, hiddenCharges := F, hiddenPercentage := 0 } : PriceData)
            hb hFv hp1
        rw [hi1, hsum, e0, hc2, hi1]
    · have hc1 : capPercentage ({ v with otherFees := 0, hiddenCharges := F, hiddenPercentage := v.hiddenPercentage } : PriceData) = ({ v with otherFees := 0, hiddenCharges := F, hiddenPercentage := (mathRound (fmul (fdiv F v.basePrice) 100)) } : PriceData) := capPercentage_within ({ v with otherFees := 0, hiddenCharges := F, hiddenPercentage := v.hiddenPercentage } : PriceData) hb hFv hp1
      rw [hc1] at hpct ⊢
      by_cases hi : v.total > 0 ∧ v.basePrice > 0 ∧
          fsub v.total (fadd v.basePrice F) > 1 ∧
          fsub v.total (fadd v.basePrice F) < max 100 (fmul v.basePrice 0.1) ∧
          isValidPrice (fsub v.total (fadd v.basePrice F)) = true
      · obtain ⟨i1, _, i2, i3, i4⟩ := hi
        have hi1 : imputeOtherFees ({ v with otherFees := 0, hiddenCharges := F, hiddenPercentage := (mathRound (fmul (fdiv F v.basePrice) 100)) } : PriceData) = ({ v with otherFees := (fsub v.total (fadd v.basePrice F)), hiddenCharges := (fadd F (fsub v.total (fadd v.basePrice F))), hiddenPercentage := (mathRound (fmul (fdiv (fadd F (fsub v.total (fadd v.basePrice F))) v.basePrice) 100)) } : PriceData) := imputeOtherFees_fire ({ v with otherFees := 0, hiddenCharges := F, hiddenPercentage := (mathRound (fmul (fdiv F v.basePrice) 100)) } : PriceData) i1 hb i2 i3 i4
        rw [hi1] at hpct ⊢
        have hpct' : ((mathRound (fmul (fdiv (fadd F (fsub v.total (fadd v.basePrice F))) v.basePrice) 100) : ℤ) : ℚ) ≤ 100 :=
          hpct
        rw [hsum]
        have hc2 : capPercentage ({ v with otherFees := (fsub v.total (fadd v.basePrice F)), hiddenCharges := (fadd F (fsub v.total (fadd v.basePrice F))), hiddenPercentage := (mathRound (fmul (fdiv (fadd F (fsub v.total (fadd v.basePrice F))) v.basePrice) 100)) } : PriceData) = ({ v with otherFees := (fsub v.total (fadd v.basePrice F)), hiddenCharges := (fadd F (fsub v.total (fadd v.basePrice F))), hiddenPercentage := (mathRound (fmul (fdiv (fadd F (fsub v.total (fadd v.basePrice F))) v.basePrice) 100)) } : PriceData) := by
          by_cases hv2 : isValidPrice (fadd F (fsub v.total (fadd v.basePrice F))) = true
          · exact capPercentage_within ({ v with otherFees := (fsub v.total (fadd v.basePrice F)), hiddenCharges := (fadd F (fsub v.total (fadd v.basePrice F))), hiddenPercentage := (mathRound (fmul (fdiv (fadd F (fsub v.total (fadd v.basePrice F))) v.basePrice) 100)) } : PriceData) hb hv2 (not_lt.mpr hpct')
          · exact capPercentage_skip ({ v with otherFees := (fsub v.total (fadd v.basePrice F)), hiddenCharges := (fadd F (fsub v.total (fadd v.basePrice F))), hiddenPercentage := (mathRound (fmul (fdiv (fadd F (fsub v.total (fadd v.basePrice F))) v.basePrice) 100)) } : PriceData) (fun h => hv2 h.2)
        rw [hc2]
        apply imputeOtherFees_skip ({ v with otherFees := (fsub v.total (fadd v.basePrice F)), hiddenCharges := (fadd F (fsub v.total (fadd v.basePrice F))), hiddenPercentage := (mathRound (fmul (fdiv (fadd F (fsub v.total (fadd v.basePrice F))) v.basePrice) 100)) } : PriceData)
        rintro ⟨_, _, h1, _⟩
        exact absurd h1 (not_lt.mpr hres)
      · have hi1 : imputeOtherFees ({ v with otherFees := 0, hiddenCharges := F, hiddenPercentage := (mathRound (fmul (fdiv F v.basePrice) 100)) } : PriceData) = ({ v with otherFees := 0, hiddenCharges := F, hiddenPercentage := (mathRound (fmul (fdiv F v.basePrice) 100)) } : PriceData) := imputeOtherFees_skip ({ v with otherFees := 0, hiddenCharges := F, hiddenPercentage := (mathRound (fmul (fdiv F v.basePrice) 100)) } : PriceData) hi
        rw [hi1, hsum, e0]
        have hc2 : capPercentage
            ({ v with otherFees := 0, hiddenCharges := F,
                      hiddenPercentage := (mathRound (fmul (fdiv F v.basePrice) 100)) } :
              PriceData) = ({ v with otherFees := 0, hiddenCharges := F, hiddenPercentage := (mathRound (fmul (fdiv F v.basePrice) 100)) } : PriceData) :=
          capPercentage_within ({ v with otherFees := 0, hiddenCharges := F, hiddenPercentage := (mathRound (fmul (fdiv F v.basePrice) 100)) } : PriceData) hb hFv hp1
        rw [hc2, hi1]
  · have hc1 : capPercentage ({ v with otherFees := 0, hiddenCharges := F, hiddenPercentage := v.hiddenPercentage } : PriceData) = ({ v with otherFees := 0, hiddenCharges := F, hiddenPercentage := v.hiddenPercentage } : PriceData) := capPercentage_skip ({ v with otherFees := 0, hiddenCharges := F, hiddenPercentage := v.hiddenPercentage } : PriceData) (fun h => hb h.1)
    have hi1 : imputeOtherFees ({ v with otherFees := 0, hiddenCharges := F, hiddenPercentage := v.hiddenPercentage } : PriceData) = ({ v with otherFees := 0, hiddenCharges := F, hiddenPercentage := v.hiddenPercentage } : PriceData) := imputeOtherFees_skip ({ v with otherFees := 0, hiddenCharges := F, hiddenPercentage := v.hiddenPercentage } : PriceData) (fun h => hb h.2.1)
    rw [hc1, hi1, hsum, e0, hc1, hi1]

/-- The `otherFees` emitted by the reconciliation is a valid price when the
validated `otherFees` is. -/
theorem reconcile_otherFees_valid (v : PriceData) (ho : isValidPrice v.otherFees = true) :
    isValidPrice (imputeOtherFees (capPercentage (sumHiddenCharges v))).otherFees = true := by
  unfold imputeOtherFees capPercentage sumHiddenCharges
  simp only
  split_ifs <;> simp_all

/-- C3 (as amended). Reconciliation is idempotent on every result of an
analysis pass whose `hiddenPercentage` is at most 100: running
`calculateHiddenCharges` again on such a result leaves every field as it
is. -/
theorem reconciliation_idempotent (page : Page) (site : String)
    (hpct : (analyzePage page site).hiddenPercentage ≤ 100) :
    calculateHiddenCharges (analyzePage page site) = analyzePage page site := by
  obtain ⟨ho, _, hd, hc, ht, htot⟩ := analysis_validated page site
  obtain ⟨vb, vd, vc, vt, vo, vtot, vsd, vsc⟩ :=
    validatePrices_valid (extractPrices page (resetPriceData site))
  obtain ⟨e1, e2, e3, e4, e5, _⟩ :=
    afterValidation_fields (validatePrices (extractPrices page (resetPriceData site)))
  have hO := reconcile_otherFees_valid
    (validatePrices (extractPrices page (resetPriceData site))) vo
  have hr : analyzePage page site =
      imputeOtherFees (capPercentage (sumHiddenCharges
        (validatePrices (extractPrices page (resetPriceData site))))) := rfl
  have htw := reconcile_twice (validatePrices (extractPrices page (resetPriceData site)))
    ho vb vtot hd hc ht (by rw [← hr]; exact hpct)
  rw [← hr] at e1 e2 e3 e4 e5 hO htw
  generalize analyzePage page site = r at *
  have hfix : validatePrices r = r := by
    apply validatePrices_fixed
    · rw [e1]; exact vb
    · rw [e2]; exact vd
    · rw [e3]; exact vc
    · rw [e4]; exact vt
    · exact hO
    · rw [e5]; exact vtot
    · rw [e1, e2]; exact vsd
    · rw [e1, e3]; exact vsc
  show imputeOtherFees (capPercentage (sumHiddenCharges (validatePrices r))) = r
  rw [hfix]
  exact htw

/-- C3 (as amended), on the page with an item price of 900, a delivery fee
of 30 and a total of 960, where the first run imputes other fees of 30. -/
theorem reconciliation_idempotent_witness :
    (analyzePage (domPage imputationBody) "shop.example").otherFees = 30 ∧
    calculateHiddenCharges (analyzePage (domPage imputationBody) "shop.example")
      = analyzePage (domPage imputationBody) "shop.example" :=
  ⟨by decide!, reconciliation_idempotent (domPage imputationBody) "shop.example" (by decide!)⟩

/-- A capped result is left as it is by a second run: on the page with an item
price of 100 and a tax of 200 the percentage and the hidden charges are reset
to 0 by both runs. -/
theorem reconciliation_idempotent_capped :
    (analyzePage (domPage taxHeavyBody) "shop.example").hiddenCharges = 0 ∧
    calculateHiddenCharges (analyzePage (domPage taxHeavyBody) "shop.example")
      = analyzePage (domPage taxHeavyBody) "shop.example" := by
  decide!

theorem ZeroOrWithin.bounds {x ub : ℚ} (h : ZeroOrWithin x ub) :
    x = 0 ∨ (0 ≤ x ∧ x ≤ ub) := by
  rcases h with h | ⟨h1, h2⟩
  · exact Or.inl h
  · exact Or.inr ⟨le_trans (by norm_num) h1, h2⟩

/-- C4 (as amended). After an analysis pass each of the emitted deliveryFee,
convenienceFee, taxes and total is 0 or within the inclusive bounds of its
category ([0, 500], [0, 200], [0, 5000], [1, 100000]); the emitted basePrice
lies in [1, 50000] when `findPrice` found a base price, and in [0, 100000]
when it found none (the base price is then 0 or back-filled from the total). -/
theorem analysis_bounds (page : Page) (site : String) :
    ((analyzePage page site).deliveryFee = 0 ∨
      (0 ≤ (analyzePage page site).deliveryFee ∧ (analyzePage page site).deliveryFee ≤ 500)) ∧
    ((analyzePage page site).convenienceFee = 0 ∨
      (0 ≤ (analyzePage page site).convenienceFee ∧
        (analyzePage page site).convenienceFee ≤ 200)) ∧
    ((analyzePage page site).taxes = 0 ∨
      (0 ≤ (analyzePage page site).taxes ∧ (analyzePage page site).taxes ≤ 5000)) ∧
    ((analyzePage page site).total = 0 ∨
      (1 ≤ (analyzePage page site).total ∧ (analyzePage page site).total ≤ 100000)) ∧
    (if (findPrice page .basePrice "Base Price" (resetPriceData site)).1 = 0 then
      0 ≤ (analyzePage page site).basePrice ∧ (analyzePage page site).basePrice ≤ 100000
     else
      1 ≤ (analyzePage page site).basePrice ∧ (analyzePage page site).basePrice ≤ 50000) := by
  obtain ⟨_, _, hd, hc, ht, htot⟩ := analysis_validated page site
  obtain ⟨e1, e2, e3, e4, e5, _⟩ :=
    afterValidation_fields (validatePrices (extractPrices page (resetPriceData site)))
  unfold analyzePage calculateHiddenCharges
  rw [e1, e2, e3, e4, e5, htot, findPrice_fst]
  refine ⟨hd.bounds, hc.bounds, ht.bounds,
    selectedValue_total page, ?_⟩
  have hv := (validatePrices_valid (extractPrices page (resetPriceData site))).1
  have hv0 := isValidPrice_nonneg _ hv
  have hv1 := ((isValidPrice_iff _).mp hv).2
  split_ifs with h0
  · exact ⟨hv0, hv1⟩
  · rw [validatePrices_basePrice, extractPrices_eq]
    simp only [h0, false_and, if_false]
    rcases selectedValue_basePrice page with h | h
    · exact absurd h h0
    · have hvb : isValidPrice (selectedValue page .basePrice) = true := by
        rw [isValidPrice_iff]
        exact ⟨Or.inr (le_trans (by norm_num) h.1), le_trans h.2 (by norm_num)⟩
      rw [hvb]
      exact h

/-! ## The analysis trigger: the ceiling -/

theorem sendResults_trigger (s : Detector) :
    (sendResults s).analysisCount = s.analysisCount ∧
    (sendResults s).reanalysisPending = s.reanalysisPending ∧
    (sendResults s).isAnalyzing = s.isAnalyzing := by
  unfold sendResults
  simp only
  split_ifs <;> simp

theorem step_invariant (s : Detector) (e : Event) (h : CeilingInvariant s) :
    CeilingInvariant (step s e) := by
  obtain ⟨h1, h2, h3⟩ := h
  cases e with
  | pageReady =>
    simp only [step]
    split_ifs
    · exact ⟨h1, h2, h3⟩
    · exact ⟨h1, h2, h3⟩
  | pollTick p f =>
    simp only [step]
    split_ifs
    · unfold startAnalysis CeilingInvariant
      simp only
      split_ifs with ha
      · exact ⟨h1, h2, h3⟩
      · have h0 := h3 (by simpa using ha)
        simp only [h0]
        simp
    · exact ⟨h1, h2, h3⟩
    · exact ⟨h1, h2, h3⟩
  | hardTimeout =>
    simp only [step]
    split_ifs
    · unfold startAnalysis CeilingInvariant
      simp only
      split_ifs with ha
      · exact ⟨h1, h2, h3⟩
      · have h0 := h3 (by simpa using ha)
        simp only [h0]
        simp
    · exact ⟨h1, h2, h3⟩
    · exact ⟨h1, h2, h3⟩
  | mutation q =>
    simp only [step]
    split_ifs with hq
    · simp only [Bool.and_eq_true, decide_eq_true_eq] at hq
      exact ⟨h1, fun _ => Nat.le_of_lt_succ hq.2, h3⟩
    · exact ⟨h1, h2, h3⟩
  | reanalysisTimer =>
    simp only [step]
    split_ifs with hp
    · have := h2 hp
      unfold startAnalysis CeilingInvariant
      simp
      omega
    · exact ⟨h1, h2, h3⟩
  | settleTimer page =>
    simp only [step]
    split_ifs
    · obtain ⟨e1, e2, e3⟩ := sendResults_trigger
        { s with settlePending := s.settlePending - 1,
                 priceData := analyzePage page s.priceData.site }
      unfold CeilingInvariant
      rw [e1, e2, e3]
      exact ⟨h1, h2, h3⟩
    · exact ⟨h1, h2, h3⟩

theorem run_invariant (events : List Event) (s : Detector) (h : CeilingInvariant s) :
    CeilingInvariant (run s events) := by
  induction events generalizing s with
  | nil => exact h
  | cons e es ih => exact ih (step s e) (step_invariant s e h)

/-- The ceiling is reached: three debounced re-analyses give an
`analysisCount` of 3. -/
theorem ceiling_reached :
    (run (Detector.initial "shop.example")
      [.mutation true, .reanalysisTimer, .mutation true, .reanalysisTimer,
       .mutation true, .reanalysisTimer]).analysisCount = 3 := by
  decide!

/-- C8. Re-analysis ceiling: whatever the sequence of events (page ready, poll
tick, 10 s hard timeout, mutation batch, debounced re-analysis timer,
settle-delay timer), `analysisCount` is at most 3 in the state reached, so
`startAnalysis` never begins a fourth pass on one page view. -/
theorem reanalysis_ceiling (site : String) (events : List Event) :
    (run (Detector.initial site) events).analysisCount ≤ 3 :=
  (run_invariant events (Detector.initial site)
    ⟨Nat.zero_le 3, ⟨fun _ => Nat.zero_le 2, fun _ => rfl⟩⟩).1

/-! ## The price tokenizer -/

theorem isDigit_iff (c : Char) : isDigit c = true ↔ 48 ≤ c.toNat ∧ c.toNat ≤ 57 := by
  unfold isDigit
  simp only [Bool.and_eq_true, decide_eq_true_eq]
  exact Iff.rfl

theorem keptChar_toNat (c : Char) (h : keptChar c = true) : 45 ≤ c.toNat ∧ c.toNat ≤ 57 := by
  unfold keptChar at h
  simp only [Bool.or_eq_true, decide_eq_true_eq] at h
  rcases h with (h | h) | h
  · have := (isDigit_iff c).mp h
    omega
  · subst h; decide
  · subst h; decide

theorem keptChar_not_space (c : Char) (h : keptChar c = true) : isJsSpace c = false := by
  have := keptChar_toNat c h
  unfold isJsSpace
  simp
  omega

theorem keptChar_not_currency (c : Char) (h : keptChar c = true) :
    currencyClass.contains c = false := by
  have := keptChar_toNat c h
  unfold currencyClass
  simp only [List.contains_eq_any_beq, List.any_cons, List.any_nil, Bool.or_false,
    Bool.or_eq_false_iff, beq_eq_false_iff_ne, ne_eq]
  refine ⟨?_, ?_, ?_, ?_, ?_, ?_, ?_, ?_⟩ <;> (intro h; subst h; revert this; decide)


theorem dropWhile_eq_self {α : Type} (p : α → Bool) (l : List α)
    (h : ∀ x ∈ l, p x = false) : l.dropWhile p = l := by
  cases l with
  | nil => rfl
  | cons a t =>
    have ha : p a = false := h a (List.mem_cons_self a t)
    simp [List.dropWhile_cons, ha]

theorem trim_eq_self (l : List Char) (h : ∀ c ∈ l, isJsSpace c = false) : trim l = l := by
  unfold trim
  rw [dropWhile_eq_self _ l h, dropWhile_eq_self _ l.reverse, List.reverse_reverse]
  intro c hc
  exact h c (List.mem_reverse.mp hc)

theorem filters_eq (text : List Char) :
    ((text.filter (fun c => !(currencyClass.contains c))).filter
        (fun c => !(c = ',' || isJsSpace c))).filter
      (fun c => isDigit c || c = '.' || c = '-') = text.filter keptChar := by
  rw [List.filter_filter, List.filter_filter]
  apply List.filter_congr
  intro c _
  by_cases hk : keptChar c = true
  · have h1 := keptChar_not_currency c hk
    have h2 := keptChar_not_space c hk
    have h3 : c ≠ ',' := by
      intro h
      subst h
      exact absurd hk (by decide)
    have hk' : (isDigit c || decide (c = '.') || decide (c = '-')) = true := hk
    simp only [hk, hk', h1, h2, h3, decide_False, Bool.or_false, Bool.not_false, Bool.and_self]
  · have hk0 : keptChar c = false := Bool.eq_false_iff.mpr hk
    have hk' : (isDigit c || decide (c = '.') || decide (c = '-')) = false := hk0
    simp only [hk0, hk', Bool.false_and]

/-- The cleaned text consists of the digits, dots and hyphens of the input. -/
theorem cleanText_eq (text : List Char) : cleanText text = text.filter keptChar := by
  unfold cleanText
  rw [filters_eq]
  apply trim_eq_self
  intro c hc
  exact keptChar_not_space c (List.mem_filter.mp hc).2

/-- C10. For every string whose first character is a hyphen, `parsePrice`
returns 0. -/
theorem parsePrice_leading_hyphen (rest : List Char) : parsePrice ('-' :: rest) = 0 := by
  have hc : cleanText ('-' :: rest) = '-' :: rest.filter keptChar := by
    rw [cleanText_eq]
    rfl
  unfold parsePrice
  simp only [List.isEmpty_cons, Bool.false_eq_true, if_false, hc, List.head?_cons, if_true]
  split
  · split_ifs <;> rfl
  · rfl


theorem takeWhile_append_stop {α : Type} (p : α → Bool) (l r : List α) (a : α)
    (hl : ∀ x ∈ l, p x = true) (ha : p a = false) : (l ++ a :: r).takeWhile p = l := by
  induction l with
  | nil => simp [List.takeWhile_cons, ha]
  | cons x t ih =>
    have hx : p x = true := hl x (List.mem_cons_self x t)
    simp only [List.cons_append, List.takeWhile_cons, hx, if_true]
    rw [ih (fun y hy => hl y (List.mem_cons_of_mem x hy))]

theorem dropWhile_append_stop {α : Type} (p : α → Bool) (l r : List α) (a : α)
    (hl : ∀ x ∈ l, p x = true) (ha : p a = false) : (l ++ a :: r).dropWhile p = a :: r := by
  induction l with
  | nil => simp [List.dropWhile_cons, ha]
  | cons x t ih =>
    have hx : p x = true := hl x (List.mem_cons_self x t)
    simp only [List.cons_append, List.dropWhile_cons, hx, if_true]
    exact ih (fun y hy => hl y (List.mem_cons_of_mem x hy))

theorem takeWhile_eq_self {α : Type} (p : α → Bool) (l : List α)
    (hl : ∀ x ∈ l, p x = true) : l.takeWhile p = l := by
  induction l with
  | nil => rfl
  | cons x t ih =>
    have hx : p x = true := hl x (List.mem_cons_self x t)
    simp only [List.takeWhile_cons, hx, if_true]
    rw [ih (fun y hy => hl y (List.mem_cons_of_mem x hy))]

theorem isDigit_dot : isDigit '.' = false := by decide

/-- The pattern matches a text `int.frac` (digits, a dot, one or two digits)
as a whole. -/
theorem matchPricePattern_decimal (int frac : List Char) (hint : int ≠ [])
    (hintd : ∀ c ∈ int, isDigit c = true)
    (hfrac : frac.length = 1 ∨ frac.length = 2) (hfracd : ∀ c ∈ frac, isDigit c = true) :
    matchPricePattern (int ++ '.' :: frac) = some (int ++ '.' :: frac) := by
  obtain ⟨d, t, rfl⟩ := List.exists_cons_of_ne_nil hint
  have hd : isDigit d = true := hintd d (List.mem_cons_self d t)
  unfold matchPricePattern
  have h1 : ((d :: t) ++ '.' :: frac).dropWhile (fun c => !isDigit c)
      = (d :: t) ++ '.' :: frac := by
    simp [List.dropWhile_cons, hd]
  simp only [h1]
  rw [takeWhile_append_stop isDigit (d :: t) frac '.' hintd isDigit_dot,
    dropWhile_append_stop isDigit (d :: t) frac '.' hintd isDigit_dot]
  simp only [List.cons_append]
  rw [takeWhile_eq_self isDigit frac hfracd]
  have h2 : frac.take 2 = frac := List.take_of_length_le (by omega)
  have h3 : frac.length > 0 := by omega
  rw [h2]
  simp only [h3, if_true]

theorem parseFloat_decimal (int frac : List Char)
    (hintd : ∀ c ∈ int, isDigit c = true) (hfracd : ∀ c ∈ frac, isDigit c = true) :
    parseFloat (int ++ '.' :: frac) =
      (digitsValue int : ℚ) + (digitsValue frac : ℚ) / 10 ^ frac.length := by
  unfold parseFloat
  rw [takeWhile_append_stop isDigit int frac '.' hintd isDigit_dot,
    dropWhile_append_stop isDigit int frac '.' hintd isDigit_dot]
  simp only
  rw [takeWhile_eq_self isDigit frac hfracd]

theorem decimal_no_exponent (n m : ℕ) (k : ℕ) (hk : k ≤ 2)
    (h : (n : ℚ) + (m : ℚ) / 10 ^ k ≤ 100000) :
    ¬ ((n : ℚ) + (m : ℚ) / 10 ^ k < 0) ∧ toStringHasE ((n : ℚ) + (m : ℚ) / 10 ^ k) = false := by
  have hpow : (0 : ℚ) < 10 ^ k := by positivity
  have hn : (0 : ℚ) ≤ n := Nat.cast_nonneg n
  have hm : (0 : ℚ) ≤ (m : ℚ) / 10 ^ k := by positivity
  have h0 : (0 : ℚ) ≤ (n : ℚ) + (m : ℚ) / 10 ^ k := by linarith
  refine ⟨not_lt.mpr h0, ?_⟩
  have hv : isValidPrice ((n : ℚ) + (m : ℚ) / 10 ^ k) = true := by
    rw [isValidPrice_iff]
    refine ⟨?_, h⟩
    rcases Nat.eq_zero_or_pos n with hn0 | hn1
    · rcases Nat.eq_zero_or_pos m with hm0 | hm1
      · left
        rw [hn0, hm0]
        simp
      · right
        have hm1' : (1 : ℚ) ≤ m := by exact_mod_cast hm1
        have hp : (10 : ℚ) ^ k ≤ 10 ^ 2 := pow_le_pow_right₀ (by norm_num) hk
        have : (1 : ℚ) / 10 ^ 2 ≤ (m : ℚ) / 10 ^ k := by
          rw [div_le_div_iff₀ (by positivity) hpow]
          nlinarith
        have h6 : (1 : ℚ) / 10 ^ 6 ≤ 1 / 10 ^ 2 := by norm_num
        linarith
    · right
      have hn1' : (1 : ℚ) ≤ n := by exact_mod_cast hn1
      have h6 : (1 : ℚ) / 10 ^ 6 ≤ 1 := by norm_num
      linarith
  unfold isValidPrice at hv
  simp only [Bool.and_eq_true, Bool.not_eq_true'] at hv
  exact hv.2


/-- C9 (as amended). For a string made of one symbol (any character other
than a digit, a dot and a hyphen), a decimal integer part, a dot and a
fraction of one or two digits, `parsePrice` returns the number int.frac
exactly when that number is at most 100000, and 0 when it exceeds 100000. -/
theorem parsePrice_decimal (sym : Char) (int frac : List Char)
    (hsym : isDigit sym = false ∧ sym ≠ '.' ∧ sym ≠ '-')
    (hint : int ≠ []) (hintd : ∀ c ∈ int, isDigit c = true)
    (hfrac : frac.length = 1 ∨ frac.length = 2) (hfracd : ∀ c ∈ frac, isDigit c = true) :
    parsePrice (sym :: (int ++ '.' :: frac)) =
      if (digitsValue int : ℚ) + (digitsValue frac : ℚ) / 10 ^ frac.length ≤ 100000 then
        (digitsValue int : ℚ) + (digitsValue frac : ℚ) / 10 ^ frac.length
      else 0 := by
  have hks : keptChar sym = false := by
    unfold keptChar
    simp [hsym.1, hsym.2.1, hsym.2.2]
  have hkept : ∀ c ∈ int ++ '.' :: frac, keptChar c = true := by
    intro c hc
    unfold keptChar
    rcases List.mem_append.mp hc with h | h
    · simp [hintd c h]
    · rcases List.mem_cons.mp h with h | h
      · simp [h]
      · simp [hfracd c h]
  have hc : cleanText (sym :: (int ++ '.' :: frac)) = int ++ '.' :: frac := by
    rw [cleanText_eq, List.filter_cons, hks]
    simp only [Bool.false_eq_true, if_false]
    exact List.filter_eq_self.mpr hkept
  have hhead : ¬ ((int ++ '.' :: frac).head? = some '-') := by
    obtain ⟨d, t, rfl⟩ := List.exists_cons_of_ne_nil hint
    have hd : isDigit d = true := hintd d (List.mem_cons_self d t)
    simp only [List.cons_append, List.head?_cons, Option.some.injEq]
    intro h
    subst h
    exact absurd hd (by decide)
  unfold parsePrice
  simp only [List.isEmpty_cons, Bool.false_eq_true, if_false, hc, hhead,
    matchPricePattern_decimal int frac hint hintd hfrac hfracd,
    parseFloat_decimal int frac hintd hfracd]
  by_cases hle : (digitsValue int : ℚ) + (digitsValue frac : ℚ) / 10 ^ frac.length ≤ 100000
  · obtain ⟨h1, h2⟩ := decimal_no_exponent (digitsValue int) (digitsValue frac) frac.length
      (by omega) hle
    simp only [hle, if_true, h1, h2, not_lt.mpr hle, Bool.false_eq_true, or_self, if_false]
  · simp only [hle, if_false, not_le.mp hle, true_or, or_true, if_true]

/-- C9 (as amended), at the string "₹499.50". -/
theorem parsePrice_decimal_witness :
    parsePrice "₹499.50".toList = 499.5 := by
  have h := parsePrice_decimal '₹' "499".toList "50".toList (by decide) (by decide)
    (by decide) (by decide) (by decide)
  have e : "₹499.50".toList = '₹' :: ("499".toList ++ '.' :: "50".toList) := by decide
  rw [e, h]
  decide!

/-- C9, counterexample. For the string "₹100001.5" the number int.frac is
100001.5, and `parsePrice` returns 0. -/
theorem parsePrice_decimal_counterexample :
    parsePrice "₹100001.5".toList = 0 ∧
    parsePrice "₹100001.5".toList ≠
      (digitsValue "100001".toList : ℚ) + (digitsValue "5".toList : ℚ) / 10 ^ 1 := by
  decide!

/-! ## Plausibility filter, trigger condition and selection rules -/

/-- C14. For every price and each of the five categories, `isReasonablePrice`
is true exactly when the price lies in [0.01, 100000] and in the inclusive
range of the category: basePrice [1, 50000], deliveryFee [0, 500],
convenienceFee [0, 200], taxes [0, 5000], total [1, 100000]. -/
theorem isReasonablePrice_iff (p : ℚ) :
    (isReasonablePrice p .basePrice = true ↔
      (0.01 ≤ p ∧ p ≤ 100000) ∧ (1 ≤ p ∧ p ≤ 50000)) ∧
    (isReasonablePrice p .deliveryFee = true ↔
      (0.01 ≤ p ∧ p ≤ 100000) ∧ (0 ≤ p ∧ p ≤ 500)) ∧
    (isReasonablePrice p .convenienceFee = true ↔
      (0.01 ≤ p ∧ p ≤ 100000) ∧ (0 ≤ p ∧ p ≤ 200)) ∧
    (isReasonablePrice p .taxes = true ↔
      (0.01 ≤ p ∧ p ≤ 100000) ∧ (0 ≤ p ∧ p ≤ 5000)) ∧
    (isReasonablePrice p .total = true ↔
      (0.01 ≤ p ∧ p ≤ 100000) ∧ (1 ≤ p ∧ p ≤ 100000)) := by
  unfold isReasonablePrice
  refine ⟨?_, ?_, ?_, ?_, ?_⟩ <;>
  · by_cases h : p < 0.01 ∨ p > 100000
    · rw [if_pos h]
      simp only [Bool.false_eq_true, false_iff, not_and, not_le]
      rintro ⟨h1, h2⟩
      rcases h with h | h
      · exact absurd h1 (not_le.mpr h)
      · exact absurd h2 (not_le.mpr h)
    · rw [if_neg h]
      push_neg at h
      simp only [Bool.and_eq_true, decide_eq_true_eq, ge_iff_le]
      constructor
      · intro hr
        exact ⟨h, hr⟩
      · intro hr
        exact hr.2

/-- C19. For all values of the two flags and of `analysisCount`,
`shouldTriggerAnalysis` is true exactly when both flags are set, or one of them
is set and `analysisCount` is 0; it is false whenever both flags are false. -/
theorem shouldTriggerAnalysis_iff (s : Detector) :
    (shouldTriggerAnalysis s = true ↔
      (s.paymentMethodDetected = true ∧ s.finalAmountDetected = true) ∨
      ((s.paymentMethodDetected = true ∨ s.finalAmountDetected = true) ∧
        s.analysisCount = 0)) ∧
    ((s.paymentMethodDetected = false ∧ s.finalAmountDetected = false) →
      shouldTriggerAnalysis s = false) := by
  unfold shouldTriggerAnalysis
  cases s.paymentMethodDetected <;> cases s.finalAmountDetected <;> simp


theorem head?_filter_eq_find? {α : Type} (p : α → Bool) (l : List α) :
    (l.filter p).head? = l.find? p := by
  induction l with
  | nil => rfl
  | cons a t ih =>
    by_cases h : p a = true
    · simp [List.filter_cons, List.find?_cons, h]
    · have h0 : p a = false := Bool.eq_false_iff.mpr h
      simp [List.filter_cons, List.find?_cons, h0, ih]

/-- The fold of `reduce` in `selectBestPrice` returns the first element of
maximal price. -/
theorem foldl_max_first (rest : List FoundPrice) (first : FoundPrice) :
    ∃ l1 l2, first :: rest =
        l1 ++ rest.foldl (fun max current => if current.price > max.price then current else max)
          first :: l2 ∧
      (∀ x ∈ l1, x.price <
        (rest.foldl (fun max current => if current.price > max.price then current else max)
          first).price) ∧
      (∀ x ∈ l2, x.price ≤
        (rest.foldl (fun max current => if current.price > max.price then current else max)
          first).price) := by
  induction rest using List.reverseRecOn with
  | nil => exact ⟨[], [], rfl, by simp, by simp⟩
  | append_singleton xs x ih =>
    obtain ⟨l1, l2, he, h1, h2⟩ := ih
    rw [List.foldl_append]
    simp only [List.foldl_cons, List.foldl_nil]
    generalize xs.foldl (fun max current => if current.price > max.price then current else max)
      first = r at he h1 h2
    by_cases hx : x.price > r.price
    · rw [if_pos hx]
      refine ⟨l1 ++ r :: l2, [], ?_, ?_, by simp⟩
      · rw [← List.cons_append, he]
      · intro y hy
        rcases List.mem_append.mp hy with hy | hy
        · exact lt_trans (h1 y hy) hx
        · rcases List.mem_cons.mp hy with hy | hy
          · rw [hy]; exact hx
          · exact lt_of_le_of_lt (h2 y hy) hx
    · rw [if_neg hx]
      refine ⟨l1, l2 ++ [x], ?_, h1, ?_⟩
      · rw [← List.cons_append, he]
        simp
      · intro y hy
        rcases List.mem_append.mp hy with hy | hy
        · exact h2 y hy
        · rw [List.mem_singleton.mp hy]
          exact not_lt.mp hx

/-- C15. For every category and every page (the candidate lists of the
selector pass and of the text pass), the value returned by `findPrice` is 0 or
a value that is positive, valid and reasonable for the category; the selected
candidate is one of the kept candidates and the returned value is its price. -/
theorem findPrice_returns_kept (page : Page) (category : Category) (label : String)
    (pd : PriceData) :
    ((findPrice page category label pd).1 = 0 ∨
      ((findPrice page category label pd).1 > 0 ∧
       isValidPrice (findPrice page category label pd).1 = true ∧
       isReasonablePrice (findPrice page category label pd).1 category = true)) ∧
    (∀ s, selectedCandidate page category = some s →
      s ∈ collectPrices page category ∧ (findPrice page category label pd).1 = s.price) := by
  rw [findPrice_fst]
  constructor
  · rcases selectedValue_keeps page category with h | h
    · exact Or.inl h
    · right
      unfold keepsPrice at h
      simp only [Bool.and_eq_true, decide_eq_true_eq] at h
      exact ⟨h.1.2, h.1.1, h.2⟩
  · intro s hs
    constructor
    · unfold selectedCandidate at hs
      split_ifs at hs
      exact selectBestPrice_mem _ _ _ hs
    · unfold selectedValue
      rw [hs]

/-- C16. For category total and a non-empty candidate list, `selectBestPrice`
returns a candidate of maximal price among the candidates with total keywords
(among all candidates when none has them), and the first such candidate in
list order: every candidate before it in that set has a smaller price. -/
theorem selectBestPrice_total (foundPrices : List FoundPrice) (hne : foundPrices ≠ []) :
    ∃ r l1 l2, selectBestPrice foundPrices .total = some r ∧
      (if foundPrices.filter (fun p => p.context.hasTotalKeywords) = [] then foundPrices
       else foundPrices.filter (fun p => p.context.hasTotalKeywords)) = l1 ++ r :: l2 ∧
      (∀ x ∈ l1, x.price < r.price) ∧ (∀ x ∈ l2, x.price ≤ r.price) := by
  cases foundPrices with
  | nil => exact absurd rfl hne
  | cons a t =>
    cases t with
    | nil =>
      refine ⟨a, [], [], rfl, ?_, by simp, by simp⟩
      by_cases ha : a.context.hasTotalKeywords = true
      · simp [List.filter_cons, ha]
      · simp [List.filter_cons, ha]
    | cons b t =>
      have hpool : ∀ pool : List FoundPrice, pool ≠ [] →
          ∃ r l1 l2,
            (match pool with
              | [] => none
              | first :: rest =>
                some (rest.foldl
                  (fun max current => if current.price > max.price then current else max)
                  first)) = some r ∧
            pool = l1 ++ r :: l2 ∧
            (∀ x ∈ l1, x.price < r.price) ∧ (∀ x ∈ l2, x.price ≤ r.price) := by
        intro pool hp
        cases pool with
        | nil => exact absurd rfl hp
        | cons first rest =>
          obtain ⟨l1, l2, he, h1, h2⟩ := foldl_max_first rest first
          exact ⟨_, l1, l2, rfl, he, h1, h2⟩
      unfold selectBestPrice
      simp only [isContextRelevant, List.length_eq_zero]
      apply hpool
      split_ifs with h
      · simp
      · exact h

/-- C16, on three candidates with total keywords and prices 120, 539, 539: the
first of the two candidates at 539 is returned. -/
theorem selectBestPrice_total_witness :
    selectBestPrice
      [sampleCandidate 0 120 true false, sampleCandidate 1 539 true false,
       sampleCandidate 2 539 true false] .total = some (sampleCandidate 1 539 true false) ∧
    ∃ r l1 l2,
      selectBestPrice
        [sampleCandidate 0 120 true false, sampleCandidate 1 539 true false,
         sampleCandidate 2 539 true false] .total = some r ∧
      (if [sampleCandidate 0 120 true false, sampleCandidate 1 539 true false,
           sampleCandidate 2 539 true false].filter (fun p => p.context.hasTotalKeywords) = []
       then [sampleCandidate 0 120 true false, sampleCandidate 1 539 true false,
           sampleCandidate 2 539 true false]
       else [sampleCandidate 0 120 true false, sampleCandidate 1 539 true false,
           sampleCandidate 2 539 true false].filter (fun p => p.context.hasTotalKeywords))
        = l1 ++ r :: l2 ∧
      (∀ x ∈ l1, x.price < r.price) ∧ (∀ x ∈ l2, x.price ≤ r.price) :=
  ⟨by decide!,
   selectBestPrice_total
    [sampleCandidate 0 120 true false, sampleCandidate 1 539 true false,
     sampleCandidate 2 539 true false] (by simp)⟩

theorem two_not_singleton {α : Type} (a b : α) (t : List α) : ∀ p : α, a :: b :: t ≠ [p] := by
  intro p h
  simp at h

/-- The first element that passes a test, or the first element when none
passes, written with `filter` as in `selectBestPrice`. -/
theorem first_passing_or_head {α : Type} (q : α → Bool) (pool : List α) :
    (if (pool.filter q).length > 0 then (pool.filter q).head? else pool.head?) =
      (pool.find? q).or pool.head? := by
  rw [head?_filter_eq_find?]
  cases hf : pool.find? q with
  | none =>
    have h0 : pool.filter q = [] := by
      rw [List.filter_eq_nil_iff]
      exact List.find?_eq_none.mp hf
    rw [h0]
    rfl
  | some x =>
    have hpos : (pool.filter q).length > 0 := by
      rw [gt_iff_lt, List.length_pos]
      intro h0
      rw [List.filter_eq_nil_iff] at h0
      have hn := List.find?_eq_none.mpr h0
      rw [hf] at hn
      exact absurd hn (by simp)
    rw [if_pos hpos]
    rfl

/-- C17. For category basePrice and a candidate list with more than one
element, `selectBestPrice` returns the first candidate of the context-filtered
set (the candidates with base keywords, or all candidates when none has them)
whose price lies strictly between 10 and 50000, and the first candidate of
that set when none qualifies. -/
theorem selectBestPrice_basePrice (foundPrices : List FoundPrice)
    (hlen : foundPrices.length > 1) :
    selectBestPrice foundPrices .basePrice =
      ((if foundPrices.filter (fun p => p.context.hasBaseKeywords) = [] then foundPrices
        else foundPrices.filter (fun p => p.context.hasBaseKeywords)).find?
          (fun p => decide (10 < p.price ∧ p.price < 50000))).or
      (if foundPrices.filter (fun p => p.context.hasBaseKeywords) = [] then foundPrices
        else foundPrices.filter (fun p => p.context.hasBaseKeywords)).head? := by
  cases foundPrices with
  | nil => simp at hlen
  | cons a t =>
    cases t with
    | nil => simp at hlen
    | cons b t =>
      unfold selectBestPrice
      simp only [isContextRelevant, List.length_eq_zero]
      exact first_passing_or_head _ _

/-- C17, on the candidates 5 and 499, both with base keywords: 499 is
returned. -/
theorem selectBestPrice_basePrice_witness :
    selectBestPrice [sampleCandidate 0 5 false true, sampleCandidate 1 499 false true]
      .basePrice = some (sampleCandidate 1 499 false true) := by
  rw [selectBestPrice_basePrice _ (by decide)]
  decide!

/-- C18. For the categories deliveryFee, convenienceFee and taxes and a
non-empty candidate list, `selectBestPrice` returns the first candidate whose
context matches the category, and the first candidate of the list when no
context matches. -/
theorem selectBestPrice_fee (foundPrices : List FoundPrice) (category : Category)
    (hne : foundPrices ≠ [])
    (hcat : category = .deliveryFee ∨ category = .convenienceFee ∨ category = .taxes) :
    selectBestPrice foundPrices category =
      (foundPrices.find? (fun p => isContextRelevant p.context category)).or
        foundPrices.head? := by
  cases foundPrices with
  | nil => exact absurd rfl hne
  | cons a t =>
    cases t with
    | nil =>
      unfold selectBestPrice
      simp only [List.find?_cons, List.find?_nil, List.head?_cons]
      cases isContextRelevant a.context category <;> rfl
    | cons b t =>
      have hgen : selectBestPrice (a :: b :: t) category =
          (if ((if ((a :: b :: t).filter
                (fun p => isContextRelevant p.context category)).length = 0
              then a :: b :: t
              else (a :: b :: t).filter (fun p => isContextRelevant p.context category)).filter
                (fun p => isContextRelevant p.context category)).length > 0
           then ((if ((a :: b :: t).filter
                (fun p => isContextRelevant p.context category)).length = 0
              then a :: b :: t
              else (a :: b :: t).filter (fun p => isContextRelevant p.context category)).filter
                (fun p => isContextRelevant p.context category)).head?
           else (if ((a :: b :: t).filter
                (fun p => isContextRelevant p.context category)).length = 0
              then a :: b :: t
              else (a :: b :: t).filter
                (fun p => isContextRelevant p.context category)).head?) := by
        rcases hcat with h | h | h <;> subst h <;> rfl
      rw [hgen, first_passing_or_head]
      generalize a :: b :: t = l
      by_cases h0 : (l.filter (fun p => isContextRelevant p.context category)).length = 0
      · rw [if_pos h0]
      · rw [if_neg h0, ← head?_filter_eq_find?, ← head?_filter_eq_find?, List.filter_filter]
        simp only [Bool.and_self]
        cases hh : (l.filter (fun p => isContextRelevant p.context category)).head? with
        | none =>
          exfalso
          apply h0
          rw [List.length_eq_zero]
          exact List.head?_eq_none_iff.mp hh
        | some x => rfl

/-- C18, on two candidates for a category none of whose contexts matches: the
first candidate of the list is returned. -/
theorem selectBestPrice_fee_witness :
    selectBestPrice [sampleCandidate 0 40 true false, sampleCandidate 1 25 false true]
      .deliveryFee = some (sampleCandidate 0 40 true false) := by
  rw [selectBestPrice_fee _ _ (by simp) (Or.inl rfl)]
  decide!

/-! ## Base-price back-fill -/

/-- C13 (as amended). When `findPrice` found no base price and a positive
total, the `basePrice` emitted by the analysis pass is the double-precision
difference total - deliveryFee - convenienceFee - taxes (of the values
`findPrice` returned, subtracted from left to right) when that difference
passes `isValidPrice`, and 0 when it does not; in particular a negative
difference is emitted as 0, because `calculateHiddenCharges` clamps the
back-filled value. -/
theorem backfill_basePrice (page : Page) (site : String)
    (hbase : (findPrice page .basePrice "Base Price" (resetPriceData site)).1 = 0)
    (htotal : (findPrice page .total "Total" (resetPriceData site)).1 > 0) :
    ((analyzePage page site).basePrice =
      if isValidPrice
          (fsub (fsub (fsub (findPrice page .total "Total" (resetPriceData site)).1
                (findPrice page .deliveryFee "Delivery Fee" (resetPriceData site)).1)
              (findPrice page .convenienceFee "Convenience Fee" (resetPriceData site)).1)
            (findPrice page .taxes "Taxes" (resetPriceData site)).1) then
        fsub (fsub (fsub (findPrice page .total "Total" (resetPriceData site)).1
              (findPrice page .deliveryFee "Delivery Fee" (resetPriceData site)).1)
            (findPrice page .convenienceFee "Convenience Fee" (resetPriceData site)).1)
          (findPrice page .taxes "Taxes" (resetPriceData site)).1
      else 0) ∧
    (fsub (fsub (fsub (findPrice page .total "Total" (resetPriceData site)).1
            (findPrice page .deliveryFee "Delivery Fee" (resetPriceData site)).1)
          (findPrice page .convenienceFee "Convenience Fee" (resetPriceData site)).1)
        (findPrice page .taxes "Taxes" (resetPriceData site)).1 < 0 →
      (analyzePage page site).basePrice = 0) := by
  rw [findPrice_fst] at hbase htotal
  simp only [findPrice_fst]
  have key : (analyzePage page site).basePrice =
      if isValidPrice (fsub (fsub (fsub (selectedValue page .total)
          (selectedValue page .deliveryFee)) (selectedValue page .convenienceFee))
          (selectedValue page .taxes)) then
        fsub (fsub (fsub (selectedValue page .total) (selectedValue page .deliveryFee))
          (selectedValue page .convenienceFee)) (selectedValue page .taxes)
      else 0 := by
    unfold analyzePage
    rw [calculateHiddenCharges_basePrice, extractPrices_eq]
    simp only [hbase, htotal, and_self, if_true]
  refine ⟨key, fun hneg => ?_⟩
  rw [key, if_neg]
  intro hv
  exact absurd (isValidPrice_nonneg _ hv) (not_le.mpr hneg)

/-- C13 (as amended), on the page that states a total of 60000 only. -/
theorem backfill_basePrice_witness :
    (analyzePage (domPage totalOnlyBody) "shop.example").basePrice = 60000 := by
  rw [(backfill_basePrice (domPage totalOnlyBody) "shop.example" (by decide!) (by decide!)).1]
  decide!

/-- C13, counterexample. On a page with a delivery fee of 40 and a total of 10
no base price is found and the total is positive; total - deliveryFee -
convenienceFee - taxes is -30, and the emitted `basePrice` is 0. -/
theorem backfill_basePrice_counterexample :
    (findPrice (domPage feeAboveTotalBody) .basePrice "Base Price"
      (resetPriceData "shop.example")).1 = 0 ∧
    (findPrice (domPage feeAboveTotalBody) .total "Total"
      (resetPriceData "shop.example")).1 > 0 ∧
    (findPrice (domPage feeAboveTotalBody) .total "Total" (resetPriceData "shop.example")).1 -
      (findPrice (domPage feeAboveTotalBody) .deliveryFee "Delivery Fee"
        (resetPriceData "shop.example")).1 -
      (findPrice (domPage feeAboveTotalBody) .convenienceFee "Convenience Fee"
        (resetPriceData "shop.example")).1 -
      (findPrice (domPage feeAboveTotalBody) .taxes "Taxes"
        (resetPriceData "shop.example")).1 = -30 ∧
    (analyzePage (domPage feeAboveTotalBody) "shop.example").basePrice = 0 := by
  decide!

/-! ## The analysis trigger: disclosures -/

/-- The two outcomes of `sendResults`: the state is left as it is, or the
popup is shown, which requires `hasShownPopup` to be false. -/
theorem sendResults_cases (s : Detector) :
    sendResults s = s ∨
      (s.hasShownPopup = false ∧
        sendResults s = { s with hasShownPopup := true, popupsShown := s.popupsShown + 1 }) := by
  unfold sendResults
  simp only
  split_ifs with h1 h2
  · exact Or.inl rfl
  · right
    refine ⟨?_, rfl⟩
    simp only [Bool.and_eq_true, Bool.not_eq_true'] at h2
    exact h2.1.1
  · exact Or.inl rfl

theorem startAnalysis_disclosure (s : Detector) :
    (startAnalysis s).popupsShown = s.popupsShown ∧
    (startAnalysis s).hasShownPopup = s.hasShownPopup := by
  unfold startAnalysis
  split_ifs <;> exact ⟨rfl, rfl⟩

/-- One event adds at most one open disclosure, and only when it is the
re-analysis timer. -/
theorem step_disclosureOpen (s : Detector) (e : Event) :
    (step s e).popupsShown + disclosureOpen (step s e) ≤
      s.popupsShown + disclosureOpen s + (if e.isReanalysisTimer then 1 else 0) := by
  have hstart : ∀ t : Detector,
      (startAnalysis t).popupsShown + disclosureOpen (startAnalysis t) =
        t.popupsShown + disclosureOpen t := by
    intro t
    unfold disclosureOpen
    rw [(startAnalysis_disclosure t).1, (startAnalysis_disclosure t).2]
  cases e with
  | pageReady =>
    simp only [step, Event.isReanalysisTimer, Bool.false_eq_true, if_false, Nat.add_zero]
    split_ifs
    · exact Nat.le_refl _
    · exact Nat.le_refl _
  | pollTick p f =>
    simp only [step, Event.isReanalysisTimer, Bool.false_eq_true, if_false, Nat.add_zero]
    split_ifs
    · rw [hstart]
      exact Nat.le_refl _
    · exact Nat.le_refl _
    · exact Nat.le_refl _
  | hardTimeout =>
    simp only [step, Event.isReanalysisTimer, Bool.false_eq_true, if_false, Nat.add_zero]
    split_ifs
    · rw [hstart]
      exact Nat.le_refl _
    · exact Nat.le_refl _
    · exact Nat.le_refl _
  | mutation q =>
    simp only [step, Event.isReanalysisTimer, Bool.false_eq_true, if_false, Nat.add_zero]
    split_ifs
    · exact Nat.le_refl _
    · exact Nat.le_refl _
  | reanalysisTimer =>
    simp only [step, Event.isReanalysisTimer, if_true]
    split_ifs
    · rw [hstart]
      unfold disclosureOpen
      simp only [Bool.false_eq_true, if_false]
      split_ifs <;> omega
    · omega
  | settleTimer page =>
    simp only [step, Event.isReanalysisTimer, Bool.false_eq_true, if_false, Nat.add_zero]
    split_ifs
    · have hc := sendResults_cases
        { s with settlePending := s.settlePending - 1,
                 priceData := analyzePage page s.priceData.site }
      rcases hc with h | ⟨h0, h⟩
      · rw [h]
        exact Nat.le_refl _
      · rw [h]
        have h0' : s.hasShownPopup = false := h0
        unfold disclosureOpen
        simp only [h0', Bool.false_eq_true, if_false, if_true]
        omega
    · exact Nat.le_refl _

theorem run_disclosureOpen (events : List Event) (s : Detector) :
    (run s events).popupsShown + disclosureOpen (run s events) ≤
      s.popupsShown + disclosureOpen s + events.countP Event.isReanalysisTimer := by
  induction events generalizing s with
  | nil => simp [run]
  | cons e es ih =>
    have h1 := ih (step s e)
    have h2 := step_disclosureOpen s e
    have h3 : (e :: es).countP Event.isReanalysisTimer =
        es.countP Event.isReanalysisTimer + (if e.isReanalysisTimer then 1 else 0) := by
      rw [List.countP_cons]
    have h4 : run s (e :: es) = run (step s e) es := rfl
    rw [h3, h4]
    omega


/-- Every disclosure made or still possible for a pending pass is covered by
a started analysis. -/
theorem step_disclosurePending (s : Detector) (e : Event)
    (h : s.popupsShown + disclosurePending s ≤ s.analysisCount) :
    (step s e).popupsShown + disclosurePending (step s e) ≤ (step s e).analysisCount := by
  have hle : ∀ t : Detector, disclosurePending t ≤ 1 := by
    intro t
    unfold disclosurePending
    split_ifs <;> omega
  have hstart : ∀ t : Detector, t.popupsShown + disclosurePending t ≤ t.analysisCount →
      (startAnalysis t).popupsShown + disclosurePending (startAnalysis t)
        ≤ (startAnalysis t).analysisCount := by
    intro t ht
    unfold startAnalysis
    split_ifs
    · exact ht
    · have h1 := hle { t with isAnalyzing := true, analysisCount := t.analysisCount + 1,
                              settlePending := t.settlePending + 1 }
      have h2 : 0 ≤ disclosurePending t := Nat.zero_le _
      simp only at h1 ⊢
      omega
  cases e with
  | pageReady =>
    simp only [step]
    split_ifs
    · exact h
    · exact h
  | pollTick p f =>
    simp only [step]
    split_ifs
    · exact hstart _ h
    · exact h
    · exact h
  | hardTimeout =>
    simp only [step]
    split_ifs
    · exact hstart _ h
    · exact h
    · exact h
  | mutation q =>
    simp only [step]
    split_ifs
    · exact h
    · exact h
  | reanalysisTimer =>
    simp only [step]
    split_ifs
    · unfold startAnalysis
      simp only [Bool.false_eq_true, if_false]
      have h1 := hle { s with reanalysisPending := false, isAnalyzing := true,
                              hasShownPopup := false, analysisCount := s.analysisCount + 1,
                              settlePending := s.settlePending + 1 }
      simp only at h1 ⊢
      omega
    · exact h
  | settleTimer page =>
    simp only [step]
    split_ifs with hs
    · have hc := sendResults_cases
        { s with settlePending := s.settlePending - 1,
                 priceData := analyzePage page s.priceData.site }
      rcases hc with h0 | ⟨h0, h1⟩
      · rw [h0]
        unfold disclosurePending at h ⊢
        simp only
        split_ifs at h ⊢ with ha hb
        · exact h
        · exact absurd ⟨ha.1, hs⟩ hb
        · omega
        · exact h
      · rw [h1]
        have h0' : s.hasShownPopup = false := h0
        unfold disclosurePending at h ⊢
        simp only [h0', true_and, hs, if_true, Bool.true_eq_false, false_and, if_false] at h ⊢
        omega
    · exact h

theorem run_disclosurePending (events : List Event) (s : Detector)
    (h : s.popupsShown + disclosurePending s ≤ s.analysisCount) :
    (run s events).popupsShown + disclosurePending (run s events)
      ≤ (run s events).analysisCount := by
  induction events generalizing s with
  | nil => exact h
  | cons e es ih => exact ih (step s e) (step_disclosurePending s e h)

/-- C20 (as amended). A disclosure is signalled at most once between two
firings of the debounced re-analysis timer: from every state of the detector,
over every sequence of events, the number of calls of `showComprehensivePopup`
grows by at most the number of re-analysis firings in the sequence, plus 1 if
`hasShownPopup` was false at the start; so over a sequence without a firing
at most one popup is shown, and none once `hasShownPopup` is true, however
many passes complete (two passes that complete after one firing show one
popup).  From the initial state the number of popups is therefore at most 1
plus the number of firings; it is also at most the number of analyses started
and at most 3. -/
theorem disclosure_bound (site : String) (events : List Event) :
    (∀ (s : Detector) (segment : List Event),
      (run s segment).popupsShown + disclosureOpen (run s segment) ≤
        s.popupsShown + disclosureOpen s + segment.countP Event.isReanalysisTimer) ∧
    (∀ (s : Detector) (segment : List Event),
      segment.countP Event.isReanalysisTimer = 0 →
        (run s segment).popupsShown ≤ s.popupsShown + (if s.hasShownPopup then 0 else 1)) ∧
    (run (Detector.initial "shop.example")
      [.mutation true, .pageReady, .pollTick true true, .reanalysisTimer,
       .settleTimer (domPage scenarioBody), .settleTimer (domPage scenarioBody)]).popupsShown
      = 1 ∧
    (run (Detector.initial site) events).popupsShown
      ≤ 1 + events.countP Event.isReanalysisTimer ∧
    (run (Detector.initial site) events).popupsShown
      ≤ (run (Detector.initial site) events).analysisCount ∧
    (run (Detector.initial site) events).popupsShown ≤ 3 := by
  have h1 := run_disclosureOpen events (Detector.initial site)
  have h2 := run_disclosurePending events (Detector.initial site) (Nat.le_refl 0)
  have h3 := (run_invariant events (Detector.initial site)
    ⟨Nat.zero_le 3, ⟨fun _ => Nat.zero_le 2, fun _ => rfl⟩⟩).1
  have e1 : (Detector.initial site).popupsShown = 0 := rfl
  have e2 : disclosureOpen (Detector.initial site) = 1 := rfl
  rw [e1, e2] at h1
  refine ⟨fun s segment => run_disclosureOpen segment s, ?_, by decide!, by omega, by omega,
    by omega⟩
  intro s segment h0
  have h := run_disclosureOpen segment s
  rw [h0] at h
  have e : disclosureOpen s = if s.hasShownPopup then 0 else 1 := rfl
  rw [e] at h
  omega

/-- C20, counterexample. Page ready, a poll tick that starts the first pass,
its settle timer (popup shown), a qualifying mutation, the re-analysis timer
(which resets `hasShownPopup` and starts the second pass) and its settle
timer: `showComprehensivePopup` has been called twice. -/
theorem disclosure_once_counterexample :
    (run (Detector.initial "shop.example")
      [.pageReady, .pollTick true true, .settleTimer (domPage scenarioBody),
       .mutation true, .reanalysisTimer, .settleTimer (domPage scenarioBody)]).popupsShown
      = 2 := by
  decide!

/-! ## The price tokenizer: reference definition and upper bound -/

theorem fractionDigits_digits (rest : List Char) :
    (∀ c ∈ fractionDigits rest, isDigit c = true) ∧ (fractionDigits rest).length ≤ 2 := by
  unfold fractionDigits
  split
  · constructor
    · intro c hc
      exact List.mem_takeWhile_imp (List.mem_of_mem_take hc)
    · exact List.length_take_le 2 _
  · exact ⟨by simp, by simp⟩

theorem parseFloat_digits (l : List Char) (hl : ∀ c ∈ l, isDigit c = true) :
    parseFloat l = (digitsValue l : ℚ) := by
  unfold parseFloat
  rw [takeWhile_eq_self isDigit l hl, List.dropWhile_eq_nil_iff.mpr hl]

theorem fractionDigits_dot (r : List Char) :
    fractionDigits ('.' :: r) = (r.takeWhile isDigit).take 2 := rfl

theorem fractionDigits_other (rest : List Char) (h : ∀ r, rest = '.' :: r → False) :
    fractionDigits rest = [] := by
  cases rest with
  | nil => rfl
  | cons b u =>
    by_cases hb : b = '.'
    · exact absurd (by rw [hb]) (h u)
    · unfold fractionDigits
      split
      · next r heq =>
        simp only [List.cons.injEq] at heq
        exact absurd heq.1 hb
      · rfl

/-- The number `parseFloat` reads from the match of the price pattern is the
value of the first numeric run. -/
theorem parseFloat_match (s m : List Char) (h : matchPricePattern s = some m) :
    parseFloat m = firstRunValue s := by
  unfold matchPricePattern at h
  unfold firstRunValue
  generalize s.dropWhile (fun c => !isDigit c) = fromDigit at h
  have hint : ∀ c ∈ fromDigit.takeWhile isDigit, isDigit c = true :=
    fun c hc => List.mem_takeWhile_imp hc
  have e0 : digitsValue [] = 0 := rfl
  cases fromDigit with
  | nil => exact absurd h (by simp)
  | cons a t =>
    simp only at h
    cases hrest : (a :: t).dropWhile isDigit with
    | nil =>
      rw [hrest] at h
      simp only [Option.some.injEq] at h
      rw [← h, parseFloat_digits _ hint, fractionDigits_other [] (by simp)]
      simp only [e0, Nat.cast_zero, List.length_nil, pow_zero, div_one, add_zero]
    | cons b u =>
      rw [hrest] at h
      by_cases hb : b = '.'
      · subst hb
        simp only at h
        have hfr : ∀ c ∈ (u.takeWhile isDigit).take 2, isDigit c = true :=
          fun c hc => List.mem_takeWhile_imp (List.mem_of_mem_take hc)
        rw [fractionDigits_dot]
        split_ifs at h with hlen
        · simp only [Option.some.injEq] at h
          rw [← h, parseFloat_decimal _ _ hint hfr]
        · simp only [Option.some.injEq] at h
          have h0 : (u.takeWhile isDigit).take 2 = [] := by
            rw [← List.length_eq_zero]
            omega
          rw [← h, parseFloat_digits _ hint, h0]
          simp only [e0, Nat.cast_zero, List.length_nil, pow_zero, div_one, add_zero]
      · have hnot : ∀ r, b :: u = '.' :: r → False := by
          intro r heq
          simp only [List.cons.injEq] at heq
          exact hb heq.1
        have hm : some ((a :: t).takeWhile isDigit) = some m := by
          rw [← h]
          split
          · next r heq => exact absurd heq (hnot r)
          · rfl
        simp only [Option.some.injEq] at hm
        rw [← hm, parseFloat_digits _ hint, fractionDigits_other _ hnot]
        simp only [e0, Nat.cast_zero, List.length_nil, pow_zero, div_one, add_zero]

theorem firstRunValue_form (s : List Char) :
    ∃ n d k : ℕ, k ≤ 2 ∧ firstRunValue s = (n : ℚ) + (d : ℚ) / 10 ^ k :=
  ⟨_, _, _, (fractionDigits_digits _).2, rfl⟩

/-- The method `parsePrice` in closed form: the sign test and the bound on the
first match of the cleaned text. -/
theorem parsePrice_closed (text : List Char) :
    parsePrice text =
      if text = [] then 0
      else if (text.filter keptChar).head? = some '-' then 0
      else
        match matchPricePattern (text.filter keptChar) with
        | none => 0
        | some m => if parseFloat m > 100000 then 0 else parseFloat m := by
  unfold parsePrice
  rw [cleanText_eq]
  cases text with
  | nil => rfl
  | cons a t =>
    simp only [List.isEmpty_cons, Bool.false_eq_true, if_false, reduceCtorEq]
    generalize (a :: t).filter keptChar = c
    by_cases hneg : c.head? = some '-'
    · simp only [hneg, if_true]
      split
      · split_ifs <;> rfl
      · rfl
    · simp only [hneg, if_false]
      cases hm : matchPricePattern c with
      | none => rfl
      | some m =>
        simp only
        obtain ⟨n, d, k, hk, hv⟩ := firstRunValue_form c
        rw [parseFloat_match c m hm, hv]
        by_cases hle : (n : ℚ) + (d : ℚ) / 10 ^ k ≤ 100000
        · obtain ⟨h1, h2⟩ := decimal_no_exponent n d k hk hle
          simp only [h1, h2, not_lt.mpr hle, Bool.false_eq_true, or_self, if_false, gt_iff_lt]
        · simp only [not_le.mp hle, true_or, or_true, if_true, gt_iff_lt]

/-- C12. The method `parsePrice` equals its reference definition on every
string; consequently its result lies in [0, 100000], is never negative, and
has at most two fractional digits (it is a whole number of hundredths). -/
theorem parsePrice_eq_reference (text : List Char) :
    parsePrice text = parsePriceReference text ∧
    0 ≤ parsePrice text ∧ parsePrice text ≤ 100000 ∧
    ∃ n : ℕ, parsePrice text = (n : ℚ) / 100 := by
  have href : parsePrice text = parsePriceReference text := by
    rw [parsePrice_closed]
    rfl
  refine ⟨href, ?_⟩
  rw [parsePrice_closed]
  have hzero : (0 : ℚ) ≤ 0 ∧ (0 : ℚ) ≤ 100000 ∧ ∃ n : ℕ, (0 : ℚ) = (n : ℚ) / 100 :=
    ⟨le_refl 0, by norm_num, 0, by simp⟩
  split_ifs
  · exact hzero
  · exact hzero
  · split
    · exact hzero
    · next m hm =>
      obtain ⟨n, d, k, hk, hv⟩ := firstRunValue_form (text.filter keptChar)
      rw [parseFloat_match _ m hm, hv]
      split_ifs with hgt
      · exact hzero
      · have hpow : (0 : ℚ) < 10 ^ k := by positivity
        have hd : (0 : ℚ) ≤ (d : ℚ) / 10 ^ k := by positivity
        have hn : (0 : ℚ) ≤ n := Nat.cast_nonneg n
        refine ⟨by linarith, not_lt.mp hgt, ?_⟩
        refine ⟨100 * n + d * 10 ^ (2 - k), ?_⟩
        rw [eq_div_iff (by norm_num)]
        interval_cases k <;> push_cast <;> ring


theorem digitsValue_foldl (b : List Char) (n : ℕ) :
    b.foldl (fun n c => 10 * n + (c.toNat - '0'.toNat)) n = n * 10 ^ b.length + digitsValue b := by
  induction b generalizing n with
  | nil => simp [digitsValue]
  | cons c t ih =>
    unfold digitsValue
    simp only [List.foldl_cons, List.length_cons]
    rw [ih, ih (10 * 0 + (c.toNat - '0'.toNat))]
    ring

theorem digitsValue_append (a b : List Char) :
    digitsValue (a ++ b) = digitsValue a * 10 ^ b.length + digitsValue b := by
  unfold digitsValue
  rw [List.foldl_append]
  exact digitsValue_foldl b _

theorem digitsValue_le_append (a b : List Char) : digitsValue a ≤ digitsValue (a ++ b) := by
  rw [digitsValue_append]
  have h : 1 ≤ 10 ^ b.length := Nat.one_le_pow _ _ (by norm_num)
  nlinarith [Nat.zero_le (digitsValue b), Nat.zero_le (digitsValue a)]

/-- Reading more digits of a fraction does not lower its value. -/
theorem fraction_le_append (f g : List Char) :
    (digitsValue f : ℚ) / 10 ^ f.length ≤
      (digitsValue (f ++ g) : ℚ) / 10 ^ (f ++ g).length := by
  rw [digitsValue_append, List.length_append, pow_add]
  rw [div_le_div_iff₀ (by positivity) (by positivity)]
  push_cast
  have h : (0 : ℚ) ≤ (digitsValue g : ℚ) := Nat.cast_nonneg _
  have hp : (0 : ℚ) < 10 ^ f.length := by positivity
  nlinarith [mul_nonneg h (le_of_lt hp)]

theorem takeWhile_append_all {α : Type} (p : α → Bool) (l r : List α)
    (hl : ∀ x ∈ l, p x = true) : (l ++ r).takeWhile p = l ++ r.takeWhile p := by
  induction l with
  | nil => rfl
  | cons x t ih =>
    have hx : p x = true := hl x (List.mem_cons_self x t)
    simp only [List.cons_append, List.takeWhile_cons, hx, if_true]
    rw [ih (fun y hy => hl y (List.mem_cons_of_mem x hy))]

theorem dropWhile_append_all {α : Type} (p : α → Bool) (l r : List α)
    (hl : ∀ x ∈ l, p x = true) : (l ++ r).dropWhile p = r.dropWhile p := by
  induction l with
  | nil => rfl
  | cons x t ih =>
    have hx : p x = true := hl x (List.mem_cons_self x t)
    simp only [List.cons_append, List.dropWhile_cons, hx, if_true]
    exact ih (fun y hy => hl y (List.mem_cons_of_mem x hy))

/-- Deleting characters that are not digits can only lengthen a leading run
of digits. -/
theorem takeWhile_prefix_filter (l : List Char) :
    l.takeWhile isDigit <+: (l.filter keptChar).takeWhile isDigit := by
  induction l with
  | nil => exact List.prefix_refl _
  | cons a t ih =>
    by_cases ha : isDigit a = true
    · have hk : keptChar a = true := by
        unfold keptChar
        simp [ha]
      simp only [List.filter_cons, hk, if_true, List.takeWhile_cons, ha]
      exact (List.prefix_cons_inj a).mpr ih
    · have ha0 : isDigit a = false := Bool.eq_false_iff.mpr ha
      simp only [List.takeWhile_cons, ha0, Bool.false_eq_true, if_false]
      exact List.nil_prefix

theorem firstRunValue_nonneg (s : List Char) : 0 ≤ firstRunValue s := by
  unfold firstRunValue
  positivity


theorem keptChar_of_isDigit (c : Char) (h : isDigit c = true) : keptChar c = true := by
  unfold keptChar
  simp [h]

/-- The first numeric run of the cleaned text denotes at least what the first
numeric run of the text denotes: cleaning can only append digits to it. -/
theorem firstRunValue_le_cleaned (text : List Char) :
    firstRunValue text ≤ firstRunValue (text.filter keptChar) := by
  have hsplit := List.takeWhile_append_dropWhile (fun c => !isDigit c) text
  have hpre : ∀ c ∈ text.takeWhile (fun c => !isDigit c), (fun c => !isDigit c) c = true :=
    fun c hc => @List.mem_takeWhile_imp _ (fun c => !isDigit c) text c hc
  generalize text.takeWhile (fun c => !isDigit c) = pre at hsplit hpre
  have htail : ∀ a t, text.dropWhile (fun c => !isDigit c) = a :: t → isDigit a = true := by
    intro a t h
    have hne : text.dropWhile (fun c => !isDigit c) ≠ [] := by rw [h]; simp
    have := List.head_dropWhile_not (fun c => !isDigit c) text hne
    simp only [h, List.head_cons, Bool.not_eq_false'] at this
    exact this
  have hraw : firstRunValue text =
      (digitsValue ((text.dropWhile (fun c => !isDigit c)).takeWhile isDigit) : ℚ) +
        (digitsValue (fractionDigits
          ((text.dropWhile (fun c => !isDigit c)).dropWhile isDigit)) : ℚ) /
          10 ^ (fractionDigits
            ((text.dropWhile (fun c => !isDigit c)).dropWhile isDigit)).length := rfl
  generalize text.dropWhile (fun c => !isDigit c) = s at hsplit htail hraw
  cases s with
  | nil =>
    rw [hraw]
    have h0 : (0 : ℚ) ≤ firstRunValue (text.filter keptChar) := firstRunValue_nonneg _
    simpa [fractionDigits, digitsValue] using h0
  | cons a t =>
    have ha : isDigit a = true := htail a t rfl
    have hs2 := List.takeWhile_append_dropWhile isDigit (a :: t)
    have hint : ∀ c ∈ (a :: t).takeWhile isDigit, isDigit c = true :=
      fun c hc => List.mem_takeWhile_imp hc
    have hintne : (a :: t).takeWhile isDigit ≠ [] := by
      simp [List.takeWhile_cons, ha]
    have hrest : ∀ b u, (a :: t).dropWhile isDigit = b :: u → isDigit b = false := by
      intro b u h
      have hne : (a :: t).dropWhile isDigit ≠ [] := by rw [h]; simp
      have := List.head_dropWhile_not isDigit (a :: t) hne
      simp only [h, List.head_cons] at this
      exact this
    rw [hraw]
    generalize (a :: t).takeWhile isDigit = int at hs2 hint hintne
    generalize (a :: t).dropWhile isDigit = r at hs2 hrest
    obtain ⟨d, int', rfl⟩ := List.exists_cons_of_ne_nil hintne
    have hd : isDigit d = true := hint d (List.mem_cons_self d int')
    have hclean : text.filter keptChar =
        pre.filter keptChar ++ (d :: int') ++ r.filter keptChar := by
      rw [← hsplit, ← hs2, List.filter_append, List.filter_append,
        List.filter_eq_self.mpr (fun c hc => keptChar_of_isDigit c (hint c hc)),
        List.append_assoc]
    have hprec : ∀ c ∈ pre.filter keptChar, (fun c => !isDigit c) c = true :=
      fun c hc => hpre c (List.mem_filter.mp hc).1
    have hdrop : (text.filter keptChar).dropWhile (fun c => !isDigit c) =
        (d :: int') ++ r.filter keptChar := by
      rw [hclean, List.append_assoc, List.cons_append]
      exact dropWhile_append_stop (fun c => !isDigit c) _ _ d hprec (by simp [hd])
    unfold firstRunValue
    rw [hdrop, takeWhile_append_all isDigit _ _ hint, dropWhile_append_all isDigit _ _ hint]
    cases r with
    | nil =>
      simp only [List.filter_nil, List.takeWhile_nil, List.dropWhile_nil, List.append_nil]
      exact le_refl _
    | cons b u =>
      have hb : isDigit b = false := hrest b u rfl
      by_cases hdot : b = '.'
      · subst hdot
        have hkd : keptChar '.' = true := by decide
        have hf : ('.' :: u).filter keptChar = '.' :: u.filter keptChar := by
          rw [List.filter_cons, hkd]
          rfl
        rw [hf]
        simp only [List.takeWhile_cons, isDigit_dot, Bool.false_eq_true, if_false,
          List.append_nil, List.dropWhile_cons]
        have hpref : (u.takeWhile isDigit).take 2 <+: ((u.filter keptChar).takeWhile isDigit).take 2 :=
          (takeWhile_prefix_filter u).take 2
        obtain ⟨g, hg⟩ := hpref
        have e1 : fractionDigits ('.' :: u) = (u.takeWhile isDigit).take 2 := rfl
        have e2 : fractionDigits ('.' :: u.filter keptChar) =
            ((u.filter keptChar).takeWhile isDigit).take 2 := rfl
        rw [e1, e2, ← hg]
        have := fraction_le_append ((u.takeWhile isDigit).take 2) g
        linarith
      · have e1 : fractionDigits (b :: u) = [] := by
          apply fractionDigits_other
          intro r heq
          simp only [List.cons.injEq] at heq
          exact hdot heq.1
        rw [e1]
        have h1 : (digitsValue (d :: int') : ℚ) ≤
            (digitsValue (d :: int' ++ ((b :: u).filter keptChar).takeWhile isDigit) : ℚ) := by
          exact_mod_cast digitsValue_le_append _ _
        have h2 : (0 : ℚ) ≤
            (digitsValue (fractionDigits (((b :: u).filter keptChar).dropWhile isDigit)) : ℚ) /
              10 ^ (fractionDigits (((b :: u).filter keptChar).dropWhile isDigit)).length := by
          positivity
        have e0 : digitsValue [] = 0 := rfl
        simp only [e0, Nat.cast_zero, List.length_nil, pow_zero, div_one, add_zero]
        linarith

/-- C11 (as amended). For every string whose first numeric run (the first
match of digits, optionally followed by a dot and one or two digits, in the
string) denotes a value above 100000, `parsePrice` returns 0. -/
theorem parsePrice_above_limit (text m : List Char)
    (hmatch : matchPricePattern text = some m) (hvalue : parseFloat m > 100000) :
    parsePrice text = 0 := by
  rw [parseFloat_match text m hmatch] at hvalue
  have hle := firstRunValue_le_cleaned text
  rw [parsePrice_closed]
  split_ifs
  · rfl
  · rfl
  · split
    · rfl
    · next mc hmc =>
      rw [parseFloat_match _ mc hmc]
      rw [if_pos (lt_of_lt_of_le hvalue hle)]


/-- C11 (as amended), at the string "₹250000.00". -/
theorem parsePrice_above_limit_witness : parsePrice "₹250000.00".toList = 0 :=
  parsePrice_above_limit "₹250000.00".toList "250000.00".toList (by decide!) (by decide!)

/-- C11, counterexample. The first numeric run of "100000" and of "₹100000.00"
denotes 100000, and `parsePrice` returns 100000 for both, not 0. -/
theorem parsePrice_limit_counterexample :
    matchPricePattern "100000".toList = some "100000".toList ∧
    parseFloat "100000".toList = 100000 ∧
    parsePrice "100000".toList = 100000 ∧
    parsePrice "₹100000.00".toList = 100000 := by
  decide!

/-! ## The price tokenizer: merged digit groups and leading hyphens -/

theorem keptChar_false_of (c : Char) (h : isDigit c = false ∧ c ≠ '.' ∧ c ≠ '-') :
    keptChar c = false := by
  unfold keptChar
  simp [h.1, h.2.1, h.2.2]

theorem filter_keptChar_dropped (w : List Char)
    (hw : ∀ c ∈ w, isDigit c = false ∧ c ≠ '.' ∧ c ≠ '-') : w.filter keptChar = [] := by
  rw [List.filter_eq_nil_iff]
  intro c hc
  rw [keptChar_false_of c (hw c hc)]
  simp

theorem filter_keptChar_digits (a : List Char) (ha : ∀ c ∈ a, isDigit c = true) :
    a.filter keptChar = a :=
  List.filter_eq_self.mpr (fun c hc => keptChar_of_isDigit c (ha c hc))

theorem matchPricePattern_none (s : List Char) (h : matchPricePattern s = none) :
    s.dropWhile (fun c => !isDigit c) = [] := by
  unfold matchPricePattern at h
  generalize s.dropWhile (fun c => !isDigit c) = fromDigit at h
  cases fromDigit with
  | nil => rfl
  | cons a t =>
    exfalso
    simp only at h
    cases hrest : (a :: t).dropWhile isDigit with
    | nil =>
      rw [hrest] at h
      exact absurd h (by simp)
    | cons b u =>
      rw [hrest] at h
      by_cases hb : b = '.'
      · subst hb
        simp only at h
        split_ifs at h
      · have hnot : ∀ r, b :: u = '.' :: r → False := by
          intro r heq
          simp only [List.cons.injEq] at heq
          exact hb heq.1
        revert h
        split
        · next r heq => exact absurd heq (hnot r)
        · simp

/-- The first numeric run of a string of digits is the whole string. -/
theorem firstRunValue_digits (l : List Char) (hl : ∀ c ∈ l, isDigit c = true) :
    firstRunValue l = (digitsValue l : ℚ) := by
  have h1 : l.dropWhile (fun c => !isDigit c) = l := by
    cases l with
    | nil => rfl
    | cons a t =>
      have ha : isDigit a = true := hl a (List.mem_cons_self a t)
      simp [List.dropWhile_cons, ha]
  have e0 : digitsValue [] = 0 := rfl
  unfold firstRunValue
  rw [h1, takeWhile_eq_self isDigit l hl, List.dropWhile_eq_nil_iff.mpr hl,
    fractionDigits_other [] (by simp)]
  simp only [e0, Nat.cast_zero, List.length_nil, pow_zero, div_one, add_zero]

/-- C28. Digit groups separated by non-numeric text are merged: for digit
strings `a` and `b` and a separator `w` without digit, dot and hyphen,
`parsePrice (a ++ w ++ b)` is the value of the digit string `a ++ b` when that
value is at most 100000, and 0 when it is larger. -/
theorem parsePrice_merges_groups (a w b : List Char)
    (ha : ∀ c ∈ a, isDigit c = true) (hb : ∀ c ∈ b, isDigit c = true)
    (hw : ∀ c ∈ w, isDigit c = false ∧ c ≠ '.' ∧ c ≠ '-') :
    parsePrice (a ++ w ++ b) =
      if (digitsValue (a ++ b) : ℚ) ≤ 100000 then (digitsValue (a ++ b) : ℚ) else 0 := by
  have hab : ∀ c ∈ a ++ b, isDigit c = true := by
    intro c hc
    rcases List.mem_append.mp hc with h | h
    · exact ha c h
    · exact hb c h
  have hclean : (a ++ w ++ b).filter keptChar = a ++ b := by
    rw [List.filter_append, List.filter_append, filter_keptChar_digits a ha,
      filter_keptChar_digits b hb, filter_keptChar_dropped w hw, List.append_nil]
  have hhead : ¬ ((a ++ b).head? = some '-') := by
    cases hl : a ++ b with
    | nil => simp
    | cons d t =>
      have hd : isDigit d = true := hab d (by rw [hl]; exact List.mem_cons_self d t)
      simp only [List.head?_cons, Option.some.injEq]
      intro h
      subst h
      exact absurd hd (by decide)
  have e0 : digitsValue [] = 0 := rfl
  rw [parsePrice_closed, hclean, if_neg hhead]
  by_cases hempty : a ++ w ++ b = []
  · rw [if_pos hempty]
    have h1 : a ++ b = [] := by
      rw [← hclean, hempty]
      rfl
    rw [h1, e0]
    simp
  · rw [if_neg hempty]
    cases hm : matchPricePattern (a ++ b) with
    | none =>
      have h1 := matchPricePattern_none _ hm
      have h2 : a ++ b = [] := by
        cases hl : a ++ b with
        | nil => rfl
        | cons d t =>
          have hd : isDigit d = true := hab d (by rw [hl]; exact List.mem_cons_self d t)
          rw [hl] at h1
          simp [List.dropWhile_cons, hd] at h1
      rw [h2, e0]
      simp
    | some m =>
      simp only
      rw [parseFloat_match _ m hm, firstRunValue_digits _ hab]
      by_cases hle : (digitsValue (a ++ b) : ℚ) ≤ 100000
      · rw [if_neg (not_lt.mpr hle), if_pos hle]
      · rw [if_pos (not_le.mp hle), if_neg hle]

/-- C28, the instance of the specification: "2 x ₹499" gives 2499. -/
theorem parsePrice_merges_groups_witness : parsePrice "2 x ₹499".toList = 2499 := by
  have h := parsePrice_merges_groups "2".toList " x ₹".toList "499".toList
    (by decide) (by decide) (by decide)
  have e : "2 x ₹499".toList = "2".toList ++ " x ₹".toList ++ "499".toList := by decide
  rw [e, h]
  decide!

/-- C29. A hyphen before the first digit suppresses the price: for every
string in which the first character that is a digit, a dot or a hyphen is a
hyphen, `parsePrice` returns 0 whatever follows. -/
theorem parsePrice_hyphen_first (pre rest : List Char)
    (hpre : ∀ c ∈ pre, isDigit c = false ∧ c ≠ '.' ∧ c ≠ '-') :
    parsePrice (pre ++ '-' :: rest) = 0 := by
  have hk : keptChar '-' = true := by decide
  have hclean : (pre ++ '-' :: rest).filter keptChar = '-' :: rest.filter keptChar := by
    rw [List.filter_append, filter_keptChar_dropped pre hpre, List.filter_cons, hk]
    rfl
  rw [parsePrice_closed, hclean]
  split_ifs
  · rfl
  · rfl
  · next h => exact absurd rfl h

/-- C29, the instance of the specification: "Non-refundable fee: ₹40" gives 0. -/
theorem parsePrice_hyphen_first_witness : parsePrice "Non-refundable fee: ₹40".toList = 0 := by
  have h := parsePrice_hyphen_first "Non".toList "refundable fee: ₹40".toList (by decide)
  have e : "Non-refundable fee: ₹40".toList =
      "Non".toList ++ '-' :: "refundable fee: ₹40".toList := by decide
  rw [e, h]

/-! ## The percentage cap -/

theorem fsub_fadd_zero (t b : ℚ) : fsub t (fadd b 0) = fsub t b := by
  rw [fadd_zero]
  unfold fsub
  rw [toDouble_idem]

/-- The cap step on a state whose fee sum is valid and whose percentage
exceeds 100, followed by an imputation step that does not fire. -/
theorem reconcile_capped (v : PriceData) (hb : v.basePrice > 0)
    (hF : isValidPrice
      (fadd (fadd (fadd v.deliveryFee v.convenienceFee) v.taxes) v.otherFees) = true)
    (hpct : ((mathRound (fmul (fdiv
      (fadd (fadd (fadd v.deliveryFee v.convenienceFee) v.taxes) v.otherFees)
      v.basePrice) 100) : ℤ) : ℚ) > 100)
    (hno : v.total = 0 ∨
      ¬ (1 < fsub v.total v.basePrice ∧ fsub v.total v.basePrice < max 100 (fmul v.basePrice 0.1))) :
    (imputeOtherFees (capPercentage (sumHiddenCharges v))).hiddenCharges = 0 ∧
    (imputeOtherFees (capPercentage (sumHiddenCharges v))).hiddenPercentage = 0 := by
  have hcap : capPercentage (sumHiddenCharges v) =
      { v with hiddenPercentage := 0, hiddenCharges := 0 } := by
    unfold capPercentage sumHiddenCharges
    simp only [hb, hF, and_self, if_true, hpct]
  rw [hcap]
  have hskip : imputeOtherFees { v with hiddenPercentage := 0, hiddenCharges := 0 } =
      { v with hiddenPercentage := 0, hiddenCharges := 0 } := by
    apply imputeOtherFees_skip
    rintro ⟨ht, _, h1, h2, _⟩
    simp only [fsub_fadd_zero] at h1 h2
    rcases hno with h0 | hno
    · rw [h0] at ht
      exact absurd ht (lt_irrefl 0)
    · exact hno ⟨h1, h2⟩
  rw [hskip]
  exact ⟨rfl, rfl⟩

/-- C22 (as amended). Percentage cap in double precision: for valid inputs
with basePrice > 0 whose double-precision fee sum F after suppression passes
`isValidPrice` (so is at most 100000) and has
Math.round((F / basePrice) * 100) > 100, and for which the other-fee step does
not fire (total = 0, or the computed total - basePrice outside the open
interval from 1 to max(100, basePrice * 0.1)), the emitted hiddenCharges and
hiddenPercentage are both 0. -/
theorem percentage_cap (pd : PriceData)
    (hvb : isValidPrice pd.basePrice = true) (hvd : isValidPrice pd.deliveryFee = true)
    (hvc : isValidPrice pd.convenienceFee = true) (hvt : isValidPrice pd.taxes = true)
    (hvo : isValidPrice pd.otherFees = true) (hvtot : isValidPrice pd.total = true)
    (hb : pd.basePrice > 0)
    (hF : isValidPrice (fadd (fadd (fadd
        (if toDouble pd.deliveryFee > fmul pd.basePrice 0.5 then 0 else pd.deliveryFee)
        (if toDouble pd.convenienceFee > fmul pd.basePrice 0.2 then 0 else pd.convenienceFee))
        pd.taxes) pd.otherFees) = true)
    (hpct : mathRound (fmul (fdiv (fadd (fadd (fadd
        (if toDouble pd.deliveryFee > fmul pd.basePrice 0.5 then 0 else pd.deliveryFee)
        (if toDouble pd.convenienceFee > fmul pd.basePrice 0.2 then 0 else pd.convenienceFee))
        pd.taxes) pd.otherFees) pd.basePrice) 100) > 100)
    (hno : pd.total = 0 ∨
      ¬ (1 < fsub pd.total pd.basePrice ∧
        fsub pd.total pd.basePrice < max 100 (fmul pd.basePrice 0.1))) :
    (calculateHiddenCharges pd).hiddenCharges = 0 ∧
    (calculateHiddenCharges pd).hiddenPercentage = 0 := by
  have eb : (validatePrices pd).basePrice = pd.basePrice := by
    rw [validatePrices_basePrice, hvb]; rfl
  have ed : (validatePrices pd).deliveryFee =
      (if toDouble pd.deliveryFee > fmul pd.basePrice 0.5 then 0 else pd.deliveryFee) := by
    rw [validatePrices_deliveryFee, eb, hvd]
    simp only [if_true, hb]
  have ec : (validatePrices pd).convenienceFee =
      (if toDouble pd.convenienceFee > fmul pd.basePrice 0.2 then 0
        else pd.convenienceFee) := by
    rw [validatePrices_convenienceFee, eb, hvc]
    simp only [if_true, hb]
  have et : (validatePrices pd).taxes = pd.taxes := by
    rw [validatePrices_taxes, hvt]; rfl
  have eo : (validatePrices pd).otherFees = pd.otherFees := by
    rw [validatePrices_otherFees, hvo]; rfl
  have etot : (validatePrices pd).total = pd.total := by
    rw [validatePrices_total, hvtot]; rfl
  have hpct2 : ((mathRound (fmul (fdiv (fadd (fadd (fadd
        (if toDouble pd.deliveryFee > fmul pd.basePrice 0.5 then 0 else pd.deliveryFee)
        (if toDouble pd.convenienceFee > fmul pd.basePrice 0.2 then 0 else pd.convenienceFee))
        pd.taxes) pd.otherFees) pd.basePrice) 100) : ℤ) : ℚ) > 100 := by
    exact_mod_cast hpct
  unfold calculateHiddenCharges
  exact reconcile_capped (validatePrices pd) (by rw [eb]; exact hb)
    (by rw [ed, ec, et, eo]; exact hF) (by rw [ed, ec, et, eo, eb]; exact hpct2)
    (by rw [etot, eb]; exact hno)

/-- C22 (as amended), at a base price of 100 with taxes of 200 and no stated
total. -/
theorem percentage_cap_witness :
    (calculateHiddenCharges taxHeavyBasket).hiddenCharges = 0 ∧
    (calculateHiddenCharges taxHeavyBasket).hiddenPercentage = 0 :=
  percentage_cap taxHeavyBasket (by decide!) (by decide!) (by decide!) (by decide!)
    (by decide!) (by decide!) (by decide!) (by decide!) (by decide!) (by decide!)

/-- C22, counterexample. At a base price of 1000 with taxes of 1005 and no
stated total the fee sum is 1005 and round(100 * 1005 / 1000) = round(100.5)
is 101, above 100, yet the cap does not fire: the double-precision value of
(1005 / 1000) * 100 is 100.49999999999999, and the emitted hiddenCharges and
hiddenPercentage are 1005 and 100. -/
theorem percentage_cap_counterexample :
    mathRound (100 * (nearCapBasket.deliveryFee + nearCapBasket.convenienceFee +
      nearCapBasket.taxes + nearCapBasket.otherFees) / nearCapBasket.basePrice) = 101 ∧
    fmul (fdiv 1005 1000) 100 = toDouble 100.49999999999999 ∧
    (calculateHiddenCharges nearCapBasket).hiddenCharges = 1005 ∧
    (calculateHiddenCharges nearCapBasket).hiddenPercentage = 100 := by
  decide!

/-- C23, the failing input. On a page with an item price of 10, a tax of 5
and a total of 21 the known fees give 50 percent, the residual of 6 is imputed
to `otherFees`, and the percentage recomputed by the imputation step is 110:
the cap of the first computation is not applied to the second. -/
theorem percentage_above_cap :
    (analyzePage (domPage smallBasketBody) "shop.example").basePrice = 10 ∧
    (analyzePage (domPage smallBasketBody) "shop.example").otherFees = 6 ∧
    (analyzePage (domPage smallBasketBody) "shop.example").hiddenCharges = 11 ∧
    (analyzePage (domPage smallBasketBody) "shop.example").hiddenPercentage = 110 := by
  decide!

/-! ## Other fees, suppression after back-fill, and valid data -/

theorem capPercentage_fields (pd : PriceData) :
    (capPercentage pd).otherFees = pd.otherFees ∧ (capPercentage pd).total = pd.total ∧
      (capPercentage pd).basePrice = pd.basePrice := by
  unfold capPercentage
  simp only
  split_ifs <;> exact ⟨rfl, rfl, rfl⟩

/-- The imputation step on a state whose `otherFees` is 0. -/
theorem imputeOtherFees_otherFees (c : PriceData) (ho : c.otherFees = 0) :
    ((imputeOtherFees c).otherFees ≠ 0 →
      c.total > 0 ∧ c.basePrice > 0 ∧ 1 < (imputeOtherFees c).otherFees ∧
      (imputeOtherFees c).otherFees < max 100 (fmul c.basePrice 0.1) ∧
      (imputeOtherFees c).otherFees = residual c) ∧
    ((residual c = 1 ∨ residual c = max 100 (fmul c.basePrice 0.1)) →
      (imputeOtherFees c).otherFees = 0) := by
  by_cases h : c.total > 0 ∧ c.basePrice > 0 ∧
      fsub c.total (fadd c.basePrice c.hiddenCharges) > 1 ∧
      fsub c.total (fadd c.basePrice c.hiddenCharges) < max 100 (fmul c.basePrice 0.1) ∧
      isValidPrice (fsub c.total (fadd c.basePrice c.hiddenCharges)) = true
  · obtain ⟨h1, h2, h3, h4, h5⟩ := h
    rw [imputeOtherFees_fire c h1 h2 h3 h4 h5]
    unfold residual
    refine ⟨fun _ => ⟨h1, h2, h3, h4, rfl⟩, ?_⟩
    rintro (hr | hr)
    · exact absurd h3 (by rw [hr]; exact lt_irrefl 1)
    · exact absurd h4 (by rw [hr]; exact lt_irrefl _)
  · rw [imputeOtherFees_skip c h, ho]
    exact ⟨fun h => absurd rfl h, fun _ => rfl⟩

/-- C24 (as amended). Other fees are populated only by the residual rule:
after an analysis pass `otherFees` is non-zero only if the emitted total and
base price are positive, and then it is the residual as the source computes
it, in double precision, and lies strictly between 1 and
max(100, basePrice * 0.1); a computed residual of exactly 1 or exactly
max(100, basePrice * 0.1) leaves `otherFees` at 0. -/
theorem otherFees_residual_rule (page : Page) (site : String) :
    ((analyzePage page site).otherFees ≠ 0 →
      (analyzePage page site).total > 0 ∧ (analyzePage page site).basePrice > 0 ∧
      1 < (analyzePage page site).otherFees ∧
      (analyzePage page site).otherFees <
        max 100 (fmul (analyzePage page site).basePrice 0.1) ∧
      (analyzePage page site).otherFees = residual (beforeImputation page site)) ∧
    ((residual (beforeImputation page site) = 1 ∨
        residual (beforeImputation page site) =
          max 100 (fmul (analyzePage page site).basePrice 0.1)) →
      (analyzePage page site).otherFees = 0) := by
  have ho : (beforeImputation page site).otherFees = 0 := by
    unfold beforeImputation
    rw [(capPercentage_fields _).1]
    exact (analysis_validated page site).1
  obtain ⟨e1, _, _, _, e5, _⟩ :=
    afterValidation_fields (validatePrices (extractPrices page (resetPriceData site)))
  have hb : (analyzePage page site).basePrice = (beforeImputation page site).basePrice := by
    unfold beforeImputation
    rw [(capPercentage_fields _).2.2]
    exact e1
  have ht : (analyzePage page site).total = (beforeImputation page site).total := by
    unfold beforeImputation
    rw [(capPercentage_fields _).2.1]
    exact e5
  have key := imputeOtherFees_otherFees (beforeImputation page site) ho
  have ha : analyzePage page site = imputeOtherFees (beforeImputation page site) := rfl
  rw [hb, ht]
  rw [ha]
  exact key

/-- C24, counterexample. On a page with an item price of 127.30 and a total
of 128.30 the total less the base price and the hidden charges (0) is exactly
1, yet `otherFees` is not left at 0: the double-precision difference
128.3 - 127.3 is 1.0000000000000142, which is above 1, and is imputed (the
emitted hiddenPercentage is 1). -/
theorem otherFees_residual_counterexample :
    (analyzePage (domPage unitResidualBody) "shop.example").total -
      ((analyzePage (domPage unitResidualBody) "shop.example").basePrice +
        (beforeImputation (domPage unitResidualBody) "shop.example").hiddenCharges) = 1 ∧
    residual (beforeImputation (domPage unitResidualBody) "shop.example") =
      toDouble 1.0000000000000142 ∧
    (analyzePage (domPage unitResidualBody) "shop.example").otherFees =
      toDouble 1.0000000000000142 ∧
    (analyzePage (domPage unitResidualBody) "shop.example").otherFees ≠ 0 ∧
    (analyzePage (domPage unitResidualBody) "shop.example").hiddenPercentage = 1 := by
  decide!

/-- The delivery and convenience fees an analysis pass emits, in terms of the
emitted base price and the fees `findPrice` returned. -/
theorem analysis_suppression (page : Page) (site : String) :
    (analyzePage page site).deliveryFee =
      (if (analyzePage page site).basePrice > 0 ∧
          toDouble (selectedValue page .deliveryFee) >
            fmul (analyzePage page site).basePrice 0.5 then 0
       else selectedValue page .deliveryFee) ∧
    (analyzePage page site).convenienceFee =
      (if (analyzePage page site).basePrice > 0 ∧
          toDouble (selectedValue page .convenienceFee) >
            fmul (analyzePage page site).basePrice 0.2 then 0
       else selectedValue page .convenienceFee) := by
  obtain ⟨e1, e2, e3, _⟩ :=
    afterValidation_fields (validatePrices (extractPrices page (resetPriceData site)))
  have hb : (analyzePage page site).basePrice =
      (validatePrices (extractPrices page (resetPriceData site))).basePrice := e1
  have hd : (analyzePage page site).deliveryFee =
      (validatePrices (extractPrices page (resetPriceData site))).deliveryFee := e2
  have hc : (analyzePage page site).convenienceFee =
      (validatePrices (extractPrices page (resetPriceData site))).convenienceFee := e3
  have hvd : isValidPrice (selectedValue page .deliveryFee) = true :=
    isValidPrice_of_within _ _ (selectedValue_deliveryFee page) (by norm_num)
  have hvc : isValidPrice (selectedValue page .convenienceFee) = true :=
    isValidPrice_of_within _ _ (selectedValue_convenienceFee page) (by norm_num)
  have hxd : (extractPrices page (resetPriceData site)).deliveryFee =
      selectedValue page .deliveryFee := by rw [extractPrices_eq]
  have hxc : (extractPrices page (resetPriceData site)).convenienceFee =
      selectedValue page .convenienceFee := by rw [extractPrices_eq]
  rw [hd, hc, hb, validatePrices_deliveryFee, validatePrices_convenienceFee, hxd, hxc, hvd, hvc]
  simp only [if_true]
  generalize (validatePrices (extractPrices page (resetPriceData site))).basePrice = B
  constructor
  · by_cases h1 : B > 0
    · simp only [h1, if_true, true_and]
    · simp only [h1, if_false, false_and]
  · by_cases h1 : B > 0
    · simp only [h1, if_true, true_and]
    · simp only [h1, if_false, false_and]

/-- C25 (as amended). When `findPrice` returns 0 for the base price and a
positive total, the analysis pass emits the back-filled base price (the
double-precision difference of the total and the three selected fees, or 0
when that difference is not a valid price), and outlier suppression is
applied relative to it: the emitted delivery fee is 0 when the back-filled
base price is positive and the selected delivery fee, as a double, exceeds the
double-precision product of the back-filled base price and 0.5, and the
selected fee otherwise; likewise for the convenience fee with the factor
0.2. -/
theorem suppression_after_backfill (page : Page) (site : String)
    (hbase : (findPrice page .basePrice "Base Price" (resetPriceData site)).1 = 0)
    (htotal : (findPrice page .total "Total" (resetPriceData site)).1 > 0) :
    (analyzePage page site).basePrice = backfilledBasePrice page site ∧
    (analyzePage page site).deliveryFee =
      (if backfilledBasePrice page site > 0 ∧
          toDouble (findPrice page .deliveryFee "Delivery Fee" (resetPriceData site)).1 >
            fmul (backfilledBasePrice page site) 0.5 then 0
       else (findPrice page .deliveryFee "Delivery Fee" (resetPriceData site)).1) ∧
    (analyzePage page site).convenienceFee =
      (if backfilledBasePrice page site > 0 ∧
          toDouble (findPrice page .convenienceFee "Convenience Fee" (resetPriceData site)).1 >
            fmul (backfilledBasePrice page site) 0.2 then 0
       else (findPrice page .convenienceFee "Convenience Fee" (resetPriceData site)).1) := by
  have hB : (analyzePage page site).basePrice = backfilledBasePrice page site := by
    rw [findPrice_fst] at hbase htotal
    unfold backfilledBasePrice analyzePage
    simp only [findPrice_fst]
    rw [calculateHiddenCharges_basePrice, extractPrices_eq]
    simp only [hbase, htotal, and_self, if_true]
  obtain ⟨hd, hc⟩ := analysis_suppression page site
  rw [hB] at hd hc
  simp only [findPrice_fst]
  exact ⟨hB, hd, hc⟩

/-- C25 (as amended), on two pages. With a delivery fee of 40 and a total of
10 the back-filled base price is 0 and the delivery fee is emitted as
selected. With a convenience fee of 25.94 and a total of 155.64 the
back-filled base price is the double 129.7, the double-precision product
129.7 * 0.2 is below 25.94, and the convenience fee is emitted as 0. -/
theorem suppression_after_backfill_witness :
    (analyzePage (domPage feeAboveTotalBody) "shop.example").deliveryFee = 40 ∧
    (analyzePage (domPage tieBackfillBody) "shop.example").basePrice = toDouble 129.7 ∧
    (analyzePage (domPage tieBackfillBody) "shop.example").convenienceFee = 0 := by
  refine ⟨?_, ?_, ?_⟩
  · rw [(suppression_after_backfill (domPage feeAboveTotalBody) "shop.example"
      (by decide!) (by decide!)).2.1]
    decide!
  · rw [(suppression_after_backfill (domPage tieBackfillBody) "shop.example"
      (by decide!) (by decide!)).1]
    decide!
  · rw [(suppression_after_backfill (domPage tieBackfillBody) "shop.example"
      (by decide!) (by decide!)).2.2]
    decide!

/-- C25, counterexample. On a page with a delivery fee of 60 and a total of
100 no base price is found and the total is positive; the base price is
back-filled to 40, the selected delivery fee of 60 exceeds half of it, and the
emitted delivery fee is 0. -/
theorem suppression_after_backfill_counterexample :
    (findPrice (domPage largeFeeBody) .basePrice "Base Price"
      (resetPriceData "shop.example")).1 = 0 ∧
    (findPrice (domPage largeFeeBody) .total "Total" (resetPriceData "shop.example")).1 > 0 ∧
    (findPrice (domPage largeFeeBody) .deliveryFee "Delivery Fee"
      (resetPriceData "shop.example")).1 = 60 ∧
    isValidPrice 60 = true ∧
    (analyzePage (domPage largeFeeBody) "shop.example").basePrice = 40 ∧
    (analyzePage (domPage largeFeeBody) "shop.example").deliveryFee = 0 := by
  decide!

/-- The guard of `sendResults` written with `hasValidData`. -/
theorem sendResults_eq (s : Detector) :
    sendResults s =
      if !hasValidData s.priceData then s
      else if !s.hasShownPopup && hasValidData s.priceData &&
          (decide (s.priceData.hiddenCharges > 0) || decide (s.priceData.total > 10)) then
        { s with hasShownPopup := true, popupsShown := s.popupsShown + 1 }
      else s := rfl

/-- C30. For every price-data state produced by `calculateHiddenCharges` the
base price is a valid price, so the `hasValidData` test of `sendResults` is
true and `sendResults` never takes its early return on such a state: it
reduces to the popup decision alone. This includes the state computed from a
freshly reset record, where every field is 0. -/
theorem valid_data_always (pd : PriceData) :
    isValidPrice (calculateHiddenCharges pd).basePrice = true ∧
    hasValidData (calculateHiddenCharges pd) = true ∧
    (∀ s : Detector, s.priceData = calculateHiddenCharges pd →
      sendResults s =
        if !s.hasShownPopup &&
            (decide (s.priceData.hiddenCharges > 0) || decide (s.priceData.total > 10)) then
          { s with hasShownPopup := true, popupsShown := s.popupsShown + 1 }
        else s) ∧
    (∀ site : String, hasValidData (calculateHiddenCharges (resetPriceData site)) = true) := by
  have hv : ∀ x : PriceData, isValidPrice (calculateHiddenCharges x).basePrice = true := by
    intro x
    have h := (validatePrices_valid x).1
    have e := (afterValidation_fields (validatePrices x)).1
    have e2 : (calculateHiddenCharges x).basePrice = (validatePrices x).basePrice := e
    rw [e2]
    exact h
  have hd : ∀ x : PriceData, hasValidData (calculateHiddenCharges x) = true := by
    intro x
    unfold hasValidData
    rw [hv x]
    rfl
  refine ⟨hv pd, hd pd, ?_, fun site => hd _⟩
  intro s hs
  rw [sendResults_eq, hs, hd pd]
  simp only [Bool.not_true, Bool.false_eq_true, if_false, Bool.and_true]

/-! ## The breakdown after extraction -/

/-- A selected candidate passed the keep test, so `findPrice` pushes an entry
exactly when the value it returns is non-zero. -/
theorem breakdownEntries_map (page : Page) (category : Category) (label : String) :
    (breakdownEntries page category label).map (fun e => (e.label, e.amount, e.isHidden)) =
      if selectedValue page category ≠ 0 then
        [(label, selectedValue page category,
          decide (category ≠ .basePrice) && decide (category ≠ .total))]
      else [] := by
  unfold breakdownEntries selectedValue
  cases hsel : selectedCandidate page category with
  | none => simp
  | some s =>
    have hk : keepsPrice category s.price = true := by
      unfold selectedCandidate at hsel
      split_ifs at hsel
      exact collectPrices_keeps page category s (selectBestPrice_mem _ _ _ hsel)
    obtain ⟨hv, hlo, _⟩ := keepsPrice_valid category s.price hk
    have hpos : s.price > 0 := lt_of_lt_of_le (by norm_num) hlo
    have hne : s.price ≠ 0 := ne_of_gt hpos
    simp only [hv, hpos, and_self, if_true, ne_eq, hne, not_false_eq_true, List.map_cons,
      List.map_nil]

/-- Without a kept candidate `findPrice` returns 0 and leaves `priceData` as it is. -/
theorem findPrice_no_candidate (page : Page) (category : Category) (label : String)
    (pd : PriceData) (h : collectPrices page category = []) :
    findPrice page category label pd = (0, pd) := by
  unfold findPrice
  simp only [h, List.length_nil, gt_iff_lt, lt_self_iff_false, if_false, Option.map_none']

/-- C21 (as amended). After `extractPrices` on a freshly reset `priceData`,
the breakdown lists, in the order Base Price, Delivery Fee, Convenience Fee,
Taxes, Total, exactly the labels for which `findPrice` returned a non-zero
value; each amount is that value and `isHidden` is true exactly for Delivery
Fee, Convenience Fee and Taxes. A category without a kept candidate makes
`findPrice` return 0 and push no entry. The delivery fee, convenience fee,
taxes and total fields hold the returned values; the base price field holds
the returned value unless that is 0 and the returned total is positive, in
which case it holds the total minus the three fees (subtracted from left to
right in double precision). -/
theorem extractPrices_breakdown (page : Page) (site : String) :
    (extractPrices page (resetPriceData site)).breakdown.map
        (fun e => (e.label, e.amount, e.isHidden)) =
      extractionOrder.filterMap (fun x =>
        if (findPrice page x.2.1 x.1 (resetPriceData site)).1 ≠ 0 then
          some (x.1, (findPrice page x.2.1 x.1 (resetPriceData site)).1, x.2.2)
        else none) ∧
    (∀ (category : Category) (label : String) (pd : PriceData),
      collectPrices page category = [] →
        (findPrice page category label pd).1 = 0 ∧ (findPrice page category label pd).2 = pd) ∧
    (extractPrices page (resetPriceData site)).deliveryFee =
      (findPrice page .deliveryFee "Delivery Fee" (resetPriceData site)).1 ∧
    (extractPrices page (resetPriceData site)).convenienceFee =
      (findPrice page .convenienceFee "Convenience Fee" (resetPriceData site)).1 ∧
    (extractPrices page (resetPriceData site)).taxes =
      (findPrice page .taxes "Taxes" (resetPriceData site)).1 ∧
    (extractPrices page (resetPriceData site)).total =
      (findPrice page .total "Total" (resetPriceData site)).1 ∧
    (extractPrices page (resetPriceData site)).basePrice =
      (if (findPrice page .basePrice "Base Price" (resetPriceData site)).1 = 0 ∧
          (findPrice page .total "Total" (resetPriceData site)).1 > 0 then
        fsub (fsub (fsub (findPrice page .total "Total" (resetPriceData site)).1
              (findPrice page .deliveryFee "Delivery Fee" (resetPriceData site)).1)
            (findPrice page .convenienceFee "Convenience Fee" (resetPriceData site)).1)
          (findPrice page .taxes "Taxes" (resetPriceData site)).1
       else (findPrice page .basePrice "Base Price" (resetPriceData site)).1) := by
  refine ⟨?_, ?_, ?_, ?_, ?_, ?_, ?_⟩
  · rw [extractPrices_eq]
    simp only [findPrice_fst, extractionOrder, resetPriceData, List.nil_append, List.map_append,
      breakdownEntries_map]
    simp only [List.filterMap_cons, List.filterMap_nil]
    by_cases h1 : selectedValue page .basePrice = 0 <;>
    by_cases h2 : selectedValue page .deliveryFee = 0 <;>
    by_cases h3 : selectedValue page .convenienceFee = 0 <;>
    by_cases h4 : selectedValue page .taxes = 0 <;>
    by_cases h5 : selectedValue page .total = 0 <;>
    simp [h1, h2, h3, h4, h5]
  · intro category label pd h
    rw [findPrice_no_candidate page category label pd h]
    exact ⟨rfl, rfl⟩
  all_goals
    rw [extractPrices_eq]
    simp only [findPrice_fst]

/-- C21, counterexample. The page that states only a total of 60000 has no
kept candidate for the base price, and `findPrice` returns 0 for it, yet the
`basePrice` field after `extractPrices` is 60000. -/
theorem extractPrices_breakdown_counterexample :
    (collectPrices (domPage totalOnlyBody) .basePrice).length = 0 ∧
    (findPrice (domPage totalOnlyBody) .basePrice "Base Price"
      (resetPriceData "shop.example")).1 = 0 ∧
    (extractPrices (domPage totalOnlyBody) (resetPriceData "shop.example")).basePrice = 60000 := by
  decide!

/-! ## The analysis trigger: pending passes -/

/-- One event raises the number of pending passes beyond what the guard
accounts for only when it is a firing of the re-analysis timer. -/
theorem step_settlePending (s : Detector) (e : Event) (k : Nat)
    (h : s.settlePending ≤ guardedPasses s + k) :
    (step s e).settlePending ≤
      guardedPasses (step s e) + (k + if e.isReanalysisTimer then 1 else 0) := by
  have hstart : ∀ t : Detector, t.settlePending ≤ guardedPasses t + k →
      (startAnalysis t).settlePending ≤ guardedPasses (startAnalysis t) + k := by
    intro t ht
    unfold startAnalysis
    split_ifs with ha
    · exact ht
    · unfold guardedPasses at ht ⊢
      simp only [ha, Bool.false_eq_true, if_false, if_true] at ht ⊢
      omega
  have hsend : ∀ t : Detector, (sendResults t).settlePending = t.settlePending ∧
      (sendResults t).isAnalyzing = t.isAnalyzing := by
    intro t
    rcases sendResults_cases t with h0 | ⟨_, h0⟩
    · rw [h0]
      exact ⟨rfl, rfl⟩
    · rw [h0]
      exact ⟨rfl, rfl⟩
  cases e with
  | pageReady =>
    simp only [step, Event.isReanalysisTimer, Bool.false_eq_true, if_false, Nat.add_zero]
    split_ifs
    · exact h
    · exact h
  | pollTick p f =>
    simp only [step, Event.isReanalysisTimer, Bool.false_eq_true, if_false, Nat.add_zero]
    split_ifs
    · exact hstart _ h
    · exact h
    · exact h
  | hardTimeout =>
    simp only [step, Event.isReanalysisTimer, Bool.false_eq_true, if_false, Nat.add_zero]
    split_ifs
    · exact hstart _ h
    · exact h
    · exact h
  | mutation q =>
    simp only [step, Event.isReanalysisTimer, Bool.false_eq_true, if_false, Nat.add_zero]
    split_ifs
    · exact h
    · exact h
  | reanalysisTimer =>
    simp only [step, Event.isReanalysisTimer, if_true]
    split_ifs
    · unfold startAnalysis
      simp only [Bool.false_eq_true, if_false]
      unfold guardedPasses at h ⊢
      simp only [if_true]
      split_ifs at h <;> omega
    · omega
  | settleTimer page =>
    simp only [step, Event.isReanalysisTimer, Bool.false_eq_true, if_false, Nat.add_zero]
    split_ifs
    · have hc := hsend
        { s with settlePending := s.settlePending - 1,
                 priceData := analyzePage page s.priceData.site }
      unfold guardedPasses at h ⊢
      rw [hc.1, hc.2]
      simp only
      omega
    · exact h

theorem run_settlePending (events : List Event) (s : Detector) (k : Nat)
    (h : s.settlePending ≤ guardedPasses s + k) :
    (run s events).settlePending ≤
      guardedPasses (run s events) + (k + events.countP Event.isReanalysisTimer) := by
  induction events generalizing s k with
  | nil => simpa [run] using h
  | cons e es ih =>
    have h1 := ih (step s e) _ (step_settlePending s e k h)
    have h3 : (e :: es).countP Event.isReanalysisTimer =
        es.countP Event.isReanalysisTimer + (if e.isReanalysisTimer then 1 else 0) := by
      rw [List.countP_cons]
    have h4 : run s (e :: es) = run (step s e) es := rfl
    rw [h3, h4]
    omega

/-- Every pending pass was counted by `analysisCount` when it started. -/
theorem step_settlePending_le_count (s : Detector) (e : Event)
    (h : s.settlePending ≤ s.analysisCount) :
    (step s e).settlePending ≤ (step s e).analysisCount := by
  have hstart : ∀ t : Detector, t.settlePending ≤ t.analysisCount →
      (startAnalysis t).settlePending ≤ (startAnalysis t).analysisCount := by
    intro t ht
    unfold startAnalysis
    split_ifs
    · exact ht
    · simp only
      omega
  cases e with
  | pageReady =>
    simp only [step]
    split_ifs
    · exact h
    · exact h
  | pollTick p f =>
    simp only [step]
    split_ifs
    · exact hstart _ h
    · exact h
    · exact h
  | hardTimeout =>
    simp only [step]
    split_ifs
    · exact hstart _ h
    · exact h
    · exact h
  | mutation q =>
    simp only [step]
    split_ifs
    · exact h
    · exact h
  | reanalysisTimer =>
    simp only [step]
    split_ifs
    · exact hstart _ h
    · exact h
  | settleTimer page =>
    simp only [step]
    split_ifs
    · have hc := sendResults_cases
        { s with settlePending := s.settlePending - 1,
                 priceData := analyzePage page s.priceData.site }
      rcases hc with h0 | ⟨_, h0⟩
      · rw [h0]
        simp only
        omega
      · rw [h0]
        simp only
        omega
    · exact h

theorem run_settlePending_le_count (events : List Event) (s : Detector)
    (h : s.settlePending ≤ s.analysisCount) :
    (run s events).settlePending ≤ (run s events).analysisCount := by
  induction events generalizing s with
  | nil => exact h
  | cons e es ih => exact ih (step s e) (step_settlePending_le_count s e h)

/-- C26 (as amended). In every run of the trigger state machine the number of
analysis passes pending between `startAnalysis` and their `analyzePage` run is
at most 1 plus the number of firings of the debounced re-analysis timer (whose
callback clears `isAnalyzing` before it calls `startAnalysis`), is at most the
number of analyses started, and is at most 3; a call of `startAnalysis` while
`isAnalyzing` is true leaves the whole state unchanged. -/
theorem pending_passes_bound (site : String) (events : List Event) :
    (run (Detector.initial site) events).settlePending
      ≤ 1 + events.countP Event.isReanalysisTimer ∧
    (run (Detector.initial site) events).settlePending
      ≤ (run (Detector.initial site) events).analysisCount ∧
    (run (Detector.initial site) events).settlePending ≤ 3 ∧
    (∀ s : Detector, s.isAnalyzing = true → startAnalysis s = s) := by
  have h1 := run_settlePending events (Detector.initial site) 0 (Nat.zero_le _)
  have h2 := run_settlePending_le_count events (Detector.initial site) (Nat.le_refl 0)
  have h3 := (run_invariant events (Detector.initial site)
    ⟨Nat.zero_le 3, ⟨fun _ => Nat.zero_le 2, fun _ => rfl⟩⟩).1
  have hg : guardedPasses (run (Detector.initial site) events) ≤ 1 := by
    unfold guardedPasses
    split_ifs <;> omega
  refine ⟨by omega, h2, by omega, ?_⟩
  intro s hs
  unfold startAnalysis
  rw [if_pos hs]

/-- C26, counterexample. A qualifying mutation arms the re-analysis timer,
monitoring starts, a poll tick starts the first pass, and the re-analysis
timer fires before the settle delay of that pass has elapsed: it clears
`isAnalyzing` and starts a second pass, so two passes are pending. -/
theorem overlapping_passes_counterexample :
    (run (Detector.initial "shop.example")
      [.mutation true, .pageReady, .pollTick true true, .reanalysisTimer]).settlePending = 2 ∧
    (run (Detector.initial "shop.example")
      [.mutation true, .pageReady, .pollTick true true, .reanalysisTimer]).analysisCount = 2 := by
  decide

/-! ## The stored average of the background worker -/

/-- C27. The average `updateAnalytics` stores is the rounded update of the
previously stored (already rounded) average, not the rounded mean of the
values seen: after results with hidden percentages 1, 0 and 0 the stored
`averageHiddenPercentage` is 1, while the rounded mean of the three values
is 0. -/
theorem average_drift :
    (∀ (analytics : Analytics) (monthKey : String) (feeData : PriceData),
      (updateAnalytics (some analytics) monthKey feeData).averageHiddenPercentage =
        mathRound
          ((analytics.averageHiddenPercentage * analytics.totalScans +
              feeData.hiddenPercentage) / (analytics.totalScans + 1))) ∧
    sampleResults.map (fun r => r.2.hiddenPercentage) = [1, 0, 0] ∧
    (processResults sampleResults).totalScans = 3 ∧
    (processResults sampleResults).averageHiddenPercentage = 1 ∧
    roundedMean sampleResults = 0 := by
  refine ⟨?_, by decide!, by decide!, by decide!, by decide!⟩
  intro analytics monthKey feeData
  unfold updateAnalytics
  simp only [Option.getD_some]
  split_ifs <;> simp

/-! ## The residual rule on concrete pages -/

/-- The residual rule at its two bounds and inside them: a computed residual of
exactly 1 and a computed residual of exactly max(100, basePrice * 0.1) leave
`otherFees` at 0, a residual of 6 at a base price of 10 is imputed. -/
theorem residual_rule_examples :
    residual (beforeImputation (domPage residualOneBody) "shop.example") = 1 ∧
    (analyzePage (domPage residualOneBody) "shop.example").otherFees = 0 ∧
    residual (beforeImputation (domPage residualHundredBody) "shop.example") = 100 ∧
    (analyzePage (domPage residualHundredBody) "shop.example").basePrice = 10 ∧
    (analyzePage (domPage residualHundredBody) "shop.example").otherFees = 0 ∧
    residual (beforeImputation (domPage smallBasketBody) "shop.example") = 6 ∧
    (analyzePage (domPage smallBasketBody) "shop.example").otherFees = 6 := by
  decide!

end TrueCost
